import Mathlib

/-!
# Verification of the rsrcdump resource-fork codec

This development embeds the TypeScript sources of the `rsrcdump` repository
(container codec in `resfork.ts` and `src/unnamed/part_001`, struct-template
engine in `structtemplate.ts`, converters in `resconverters.ts`, structured
output in `jsonio.ts`, type-tag text codec in `src/unnamed/part_000`) as
executable Lean definitions, and proves or refutes the specification's
testable properties against them.

Modelling conventions:

* A JS `Uint8Array` / `Buffer` is a `List Nat` whose entries are below 256.
* A JS string is a `List Char` of Unicode scalar values.  (All strings the
  claims exercise are free of lone surrogates, so scalar sequences are a
  faithful model of the JS UTF-16 strings involved.)
* A JS `DataView` read or write that would fall outside the underlying
  buffer throws `RangeError`; we model fallible computations in
  `Except Err` with `Err := List Char`.
* JS `Map` iteration order is insertion order; maps are association lists
  and `Map.set` is `jsMapSet` below (replace in place, else append).
-/

set_option maxHeartbeats 1000000

abbrev Err := List Char

/-- The apostrophe character (U+0027), built numerically. -/
def apos : Char := Char.ofNat 39

/-- The backtick character (U+0060), built numerically. -/
def btick : Char := Char.ofNat 96

/-- Big-endian value of a byte list: `beVal [a,b] = a*256+b`. -/
def beVal (bs : List Nat) : Nat := bs.foldl (fun a b => a * 256 + b) 0

/-- The `n`-byte slice of `data` starting at `i` (JS `subarray`-style view). -/
def readN (data : List Nat) (i n : Nat) : List Nat := (data.drop i).take n

/-- Total big-endian readers: value of the bytes at `[i, i+width)`.  They are
only ever used at positions proved in bounds. -/
def u8at (data : List Nat) (i : Nat) : Nat := beVal (readN data i 1)

def u16at (data : List Nat) (i : Nat) : Nat := beVal (readN data i 2)

def u32at (data : List Nat) (i : Nat) : Nat := beVal (readN data i 4)

/-- JS `DataView.getInt16` semantics on top of the unsigned read. -/
def i16at (data : List Nat) (i : Nat) : Int :=
  let v := u16at data i
  if v < 32768 then (v : Int) else (v : Int) - 65536

/-- JS `RangeError` message used by out-of-bounds `DataView`/`Uint8Array`
accesses; the exact text is irrelevant to every claim. -/
def rangeErrMsg : Err := "RangeError: access outside buffer bounds".toList

/-- `DataView.getUint8` (big-endian is irrelevant at width 1): throws
`RangeError` when the single byte is outside the buffer. -/
def getUint8 (data : List Nat) (i : Nat) : Except Err Nat :=
  if i + 1 ≤ data.length then .ok (u8at data i) else .error rangeErrMsg

/-- `DataView.getUint16(i, false)` (big-endian). -/
def getUint16 (data : List Nat) (i : Nat) : Except Err Nat :=
  if i + 2 ≤ data.length then .ok (u16at data i) else .error rangeErrMsg

/-- `DataView.getUint32(i, false)` (big-endian). -/
def getUint32 (data : List Nat) (i : Nat) : Except Err Nat :=
  if i + 4 ≤ data.length then .ok (u32at data i) else .error rangeErrMsg

/-- `DataView.getInt16(i, false)` (big-endian, two's complement). -/
def getInt16 (data : List Nat) (i : Nat) : Except Err Int :=
  if i + 2 ≤ data.length then .ok (i16at data i) else .error rangeErrMsg

/-- `new Uint8Array(buffer, i, n)`: throws when the view does not fit. -/
def readBytesExact (data : List Nat) (i n : Nat) : Except Err (List Nat) :=
  if i + n ≤ data.length then .ok (readN data i n) else .error rangeErrMsg

/-- Big-endian bytes of `v mod 2^16` (JS `DataView.setUint16`/`setInt16`
both store the value's low 16 bits; taking the argument as an `Int` lets the
same writer also model JS expressions such as `typeCount - 1` at `0`). -/
def u16be (v : Int) : List Nat :=
  let w := (v % 65536).toNat
  [w / 256, w % 256]

/-- Big-endian bytes of `v mod 2^32` (JS `DataView.setUint32`). -/
def u32be (v : Int) : List Nat :=
  let w := (v % 4294967296).toNat
  [w / 16777216, w / 65536 % 256, w / 256 % 256, w % 256]

deriving instance DecidableEq for Except

/-- JS `Map.set k v`: replace the value in place when `k` is present,
otherwise append `(k, v)`; insertion order is preserved. -/
def jsMapSet {κ α : Type} [DecidableEq κ] :
    List (κ × α) → κ → α → List (κ × α)
  | [], k, v => [(k, v)]
  | (k', v') :: rest, k, v =>
    if k' = k then (k, v) :: rest else (k', v') :: jsMapSet rest k v

/-- JS `Map.get k` / object property lookup. -/
def jsMapGet {κ α : Type} [DecidableEq κ] : List (κ × α) → κ → Option α
  | [], _ => none
  | (k', v') :: rest, k => if k' = k then some v' else jsMapGet rest k

theorem beVal_cons (b : Nat) (bs : List Nat) :
    beVal (b :: bs) = bs.foldl (fun a c => a * 256 + c) b := by
  simp [beVal]

theorem readN_append_right (A B : List Nat) (i n : Nat) :
    readN (A ++ B) (A.length + i) n = readN B i n := by
  simp [readN, List.drop_append]

theorem readN_append_left (A B : List Nat) (i n : Nat) (h : i + n ≤ A.length) :
    readN (A ++ B) i n = readN A i n := by
  unfold readN
  rw [List.drop_append_of_le_length (by omega),
    List.take_append_of_le_length (by simp; omega)]

theorem u32at_u32be (v : Int) (rest : List Nat) :
    u32at (u32be v ++ rest) 0 = ((v % 4294967296).toNat) := by
  simp [u32at, readN, u32be, beVal]
  omega

/-! ## UTF-8 and JS text primitives

`TextEncoder` encodes a JS string as UTF-8; `TextDecoder('utf-8')` decodes
bytes with the WHATWG replacement policy (malformed input yields U+FFFD);
`TextDecoder('latin1')` maps each byte to the code point of the same value.
-/

/-- UTF-8 encoding of one Unicode scalar value (JS `TextEncoder` per char). -/
def utf8EncodeCP (c : Nat) : List Nat :=
  if c < 128 then [c]
  else if c < 2048 then [192 + c / 64, 128 + c % 64]
  else if c < 65536 then [224 + c / 4096, 128 + c / 64 % 64, 128 + c % 64]
  else [240 + c / 262144, 128 + c / 4096 % 64, 128 + c / 64 % 64, 128 + c % 64]

/-- JS `new TextEncoder().encode(s)`. -/
def utf8Encode (s : List Char) : List Nat :=
  s.flatMap (fun c => utf8EncodeCP c.toNat)

/-- One step of the UTF-8 decoder: the scalar value at the head of the input
and the remaining bytes, or `none` when the head is not a well-formed
sequence (unexpected lead/continuation byte, overlong form, surrogate,
value above U+10FFFF, or truncated sequence). -/
def utf8DecodeOne : List Nat → Option (Nat × List Nat)
  | [] => none
  | b :: rest =>
    if b < 128 then some (b, rest)
    else if 194 ≤ b ∧ b ≤ 223 then
      match rest with
      | b2 :: r2 =>
        if 128 ≤ b2 ∧ b2 ≤ 191 then some ((b - 192) * 64 + (b2 - 128), r2)
        else none
      | [] => none
    else if 224 ≤ b ∧ b ≤ 239 then
      match rest with
      | b2 :: b3 :: r3 =>
        if (if b = 224 then 160 else 128) ≤ b2 ∧
            b2 ≤ (if b = 237 then 159 else 191) ∧
            128 ≤ b3 ∧ b3 ≤ 191 then
          some ((b - 224) * 4096 + (b2 - 128) * 64 + (b3 - 128), r3)
        else none
      | _ => none
    else if 240 ≤ b ∧ b ≤ 244 then
      match rest with
      | b2 :: b3 :: b4 :: r4 =>
        if (if b = 240 then 144 else 128) ≤ b2 ∧
            b2 ≤ (if b = 244 then 143 else 191) ∧
            128 ≤ b3 ∧ b3 ≤ 191 ∧ 128 ≤ b4 ∧ b4 ≤ 191 then
          some ((b - 240) * 262144 + (b2 - 128) * 4096 + (b3 - 128) * 64 +
            (b4 - 128), r4)
        else none
      | _ => none
    else none

/-- Number of bytes consumed by a failed decode step: the length of the
maximal subpart of a valid sequence at the head (WHATWG replacement rule),
and always at least 1. -/
def utf8FailSkip : List Nat → Nat
  | [] => 1
  | b :: rest =>
    if 224 ≤ b ∧ b ≤ 239 then
      match rest with
      | b2 :: _ =>
        if (if b = 224 then 160 else 128) ≤ b2 ∧
            b2 ≤ (if b = 237 then 159 else 191) then 2 else 1
      | [] => 1
    else if 240 ≤ b ∧ b ≤ 244 then
      match rest with
      | b2 :: b3 :: _ =>
        if (if b = 240 then 144 else 128) ≤ b2 ∧
            b2 ≤ (if b = 244 then 143 else 191) then
          (if 128 ≤ b3 ∧ b3 ≤ 191 then 3 else 2)
        else 1
      | [b2] =>
        if (if b = 240 then 144 else 128) ≤ b2 ∧
            b2 ≤ (if b = 244 then 143 else 191) then 2 else 1
      | [] => 1
    else 1


/-- Soundness of the decoder step: a successful step consumed exactly the
UTF-8 encoding of a valid scalar value. -/
theorem utf8DecodeOne_sound {bs : List Nat} {c : Nat} {rest : List Nat}
    (h : utf8DecodeOne bs = some (c, rest)) :
    bs = utf8EncodeCP c ++ rest ∧ Nat.isValidChar c := by
  rcases bs with _ | ⟨b, _ | ⟨b2, _ | ⟨b3, _ | ⟨b4, r⟩⟩⟩⟩
  · simp [utf8DecodeOne] at h
  all_goals
    simp only [utf8DecodeOne] at h
    split_ifs at h <;>
      simp only [Option.some.injEq, Prod.mk.injEq, reduceCtorEq] at h <;>
      obtain ⟨rfl, rfl⟩ := h <;>
      exact ⟨by rw [utf8EncodeCP]; split_ifs <;>
          first
          | (exfalso; omega)
          | (simp <;> omega),
        by simp only [Nat.isValidChar]; omega⟩

/-- Completeness of the decoder step: the encoding of a valid scalar value
decodes back to it, whatever follows. -/
theorem utf8DecodeOne_complete (c : Nat) (hv : Nat.isValidChar c)
    (rest : List Nat) :
    utf8DecodeOne (utf8EncodeCP c ++ rest) = some (c, rest) := by
  have hv' : c < 55296 ∨ (57343 < c ∧ c < 1114112) := hv
  rw [utf8EncodeCP]
  split_ifs with h1 h2 h3
  · simp only [List.cons_append, List.nil_append, utf8DecodeOne, if_pos h1]
  · simp only [List.cons_append, List.nil_append, utf8DecodeOne]
    rw [if_neg (by omega), if_pos (by constructor <;> omega),
      if_pos (by constructor <;> omega)]
    simp
    omega
  · simp only [List.cons_append, List.nil_append, utf8DecodeOne]
    rw [if_neg (by omega), if_neg (by omega), if_pos (by constructor <;> omega),
      if_pos (by split_ifs <;> refine ⟨by omega, by omega, by omega, by omega⟩)]
    simp
    omega
  · simp only [List.cons_append, List.nil_append, utf8DecodeOne]
    rw [if_neg (by omega), if_neg (by omega), if_neg (by omega),
      if_pos (by constructor <;> omega),
      if_pos (by split_ifs <;>
        refine ⟨by omega, by omega, by omega, by omega, by omega, by omega⟩)]
    simp
    omega

theorem utf8EncodeCP_ne_nil (c : Nat) : utf8EncodeCP c ≠ [] := by
  rw [utf8EncodeCP]
  split_ifs <;> simp

theorem utf8DecodeOne_shrinks {bs : List Nat} {c : Nat} {rest : List Nat}
    (h : utf8DecodeOne bs = some (c, rest)) : rest.length < bs.length := by
  obtain ⟨hbs, -⟩ := utf8DecodeOne_sound h
  rw [hbs, List.length_append]
  have := utf8EncodeCP_ne_nil c
  have : 0 < (utf8EncodeCP c).length := List.length_pos.mpr this
  omega

theorem utf8FailSkip_pos (bs : List Nat) : 1 ≤ utf8FailSkip bs := by
  rcases bs with _ | ⟨b, _ | ⟨b2, _ | ⟨b3, r⟩⟩⟩ <;>
    simp only [utf8FailSkip] <;> first | omega | (split_ifs <;> omega)

/-- Fuelled body of the WHATWG replacement decoder.  Fuel only serves to make
the recursion structural; `utf8DecodeRepl` supplies enough for the whole
input (each step consumes at least one byte). -/
def utf8DecodeReplF : Nat → List Nat → List Nat
  | 0, _ => []
  | fuel + 1, bs =>
    match utf8DecodeOne bs with
    | some (c, rest) => c :: utf8DecodeReplF fuel rest
    | none =>
      match bs with
      | [] => []
      | b :: tl =>
        65533 :: utf8DecodeReplF fuel ((b :: tl).drop (utf8FailSkip (b :: tl)))

/-- Replacement decoding body: scalar values of the input bytes, each
malformed sequence replaced by U+FFFD (65533), advancing past its maximal
subpart. -/
def utf8DecodeRepl (bs : List Nat) : List Nat := utf8DecodeReplF bs.length bs

/-- WHATWG `UTF-8 decode`, the behavior of `TextDecoder('utf-8').decode`
with the default `ignoreBOM: false`: a leading byte-order mark
`EF BB BF` is consumed before replacement decoding. -/
def utf8Decode (bs : List Nat) : List Nat :=
  if bs.take 3 = [239, 187, 191] then utf8DecodeRepl (bs.drop 3)
  else utf8DecodeRepl bs

/-- Fuelled strict UTF-8 decoding (used by `decodeURIComponent`, which throws
`URIError` on malformed percent-encoded bytes). -/
def utf8DecodeStrictF : Nat → List Nat → Option (List Nat)
  | 0, bs =>
    match bs with
    | [] => some []
    | _ :: _ => none
  | fuel + 1, bs =>
    match utf8DecodeOne bs with
    | some (c, rest) => (utf8DecodeStrictF fuel rest).map (c :: ·)
    | none =>
      match bs with
      | [] => some []
      | _ :: _ => none

/-- Strict UTF-8 decoding: `some` of the scalar values exactly when the whole
input is well-formed. -/
def utf8DecodeStrict (bs : List Nat) : Option (List Nat) :=
  utf8DecodeStrictF bs.length bs

theorem utf8DecodeStrictF_encode (s : List Nat) (fuel : Nat)
    (hv : ∀ c ∈ s, Nat.isValidChar c)
    (hf : (s.flatMap utf8EncodeCP).length ≤ fuel) :
    utf8DecodeStrictF fuel (s.flatMap utf8EncodeCP) = some s := by
  induction s generalizing fuel with
  | nil =>
    rcases fuel with _ | fuel <;> simp [utf8DecodeStrictF, utf8DecodeOne]
  | cons c tl ih =>
    have hc : Nat.isValidChar c := hv c (by simp)
    have henc := utf8EncodeCP_ne_nil c
    have hlen : 0 < (utf8EncodeCP c).length := List.length_pos.mpr henc
    rcases fuel with _ | fuel
    · exfalso
      rw [List.flatMap_cons, List.length_append] at hf
      omega
    · simp only [utf8DecodeStrictF]
      rw [List.flatMap_cons, utf8DecodeOne_complete c hc]
      dsimp only
      rw [ih fuel (fun x hx => hv x (by simp [hx])) (by
        rw [List.flatMap_cons, List.length_append] at hf
        omega)]
      rfl

theorem utf8DecodeStrictF_sound (fuel : Nat) :
    ∀ (bs cs : List Nat), utf8DecodeStrictF fuel bs = some cs →
      bs = cs.flatMap utf8EncodeCP ∧ ∀ c ∈ cs, Nat.isValidChar c := by
  induction fuel with
  | zero =>
    intro bs cs h
    rcases bs with _ | ⟨b, tl⟩
    · simp [utf8DecodeStrictF] at h
      subst h
      simp
    · simp [utf8DecodeStrictF] at h
  | succ fuel ih =>
    intro bs cs h
    simp only [utf8DecodeStrictF] at h
    rcases hone : utf8DecodeOne bs with _ | ⟨c, rest⟩
    · rw [hone] at h
      dsimp only at h
      rcases bs with _ | ⟨b, tl⟩
      · simp at h
        subst h
        simp
      · simp at h
    · rw [hone] at h
      dsimp only at h
      rcases hrest : utf8DecodeStrictF fuel rest with _ | cs'
      · rw [hrest] at h
        simp at h
      · rw [hrest] at h
        simp at h
        subst h
        obtain ⟨hbs, hcv⟩ := utf8DecodeOne_sound hone
        obtain ⟨hrest2, hv2⟩ := ih rest cs' hrest
        constructor
        · rw [hbs, hrest2, List.flatMap_cons]
        · intro x hx
          rw [List.mem_cons] at hx
          rcases hx with rfl | hx
          · exact hcv
          · exact hv2 x hx

theorem utf8DecodeReplF_encode (s : List Nat) (fuel : Nat)
    (hv : ∀ c ∈ s, Nat.isValidChar c)
    (hf : (s.flatMap utf8EncodeCP).length ≤ fuel) :
    utf8DecodeReplF fuel (s.flatMap utf8EncodeCP) = s := by
  induction s generalizing fuel with
  | nil =>
    rcases fuel with _ | fuel <;> simp [utf8DecodeReplF, utf8DecodeOne]
  | cons c tl ih =>
    have hc : Nat.isValidChar c := hv c (by simp)
    have hlen : 0 < (utf8EncodeCP c).length :=
      List.length_pos.mpr (utf8EncodeCP_ne_nil c)
    rcases fuel with _ | fuel
    · exfalso
      rw [List.flatMap_cons, List.length_append] at hf
      omega
    · simp only [utf8DecodeReplF]
      rw [List.flatMap_cons, utf8DecodeOne_complete c hc]
      dsimp only
      rw [ih fuel (fun x hx => hv x (by simp [hx])) (by
        rw [List.flatMap_cons, List.length_append] at hf
        omega)]

/-- Strict decoding of encoded valid scalars (with the default fuel). -/
theorem utf8DecodeStrict_encode (s : List Nat)
    (hv : ∀ c ∈ s, Nat.isValidChar c) :
    utf8DecodeStrict (s.flatMap utf8EncodeCP) = some s :=
  utf8DecodeStrictF_encode s _ hv le_rfl

/-- Replacement decoding agrees with successful strict decoding. -/
theorem utf8DecodeRepl_of_strict {bs cs : List Nat}
    (h : utf8DecodeStrict bs = some cs) : utf8DecodeRepl bs = cs := by
  obtain ⟨hbs, hv⟩ := utf8DecodeStrictF_sound _ _ _ h
  rw [utf8DecodeRepl, hbs]
  exact utf8DecodeReplF_encode cs _ hv (by rw [← hbs])

/-! ## Percent-encoding (`encodeURIComponent` / `decodeURIComponent`) -/

/-- Uppercase hexadecimal digit, as emitted by `encodeURIComponent`. -/
def hexDigitU (n : Nat) : Char :=
  if n < 10 then Char.ofNat (48 + n) else Char.ofNat (55 + n)

/-- Value of a hexadecimal digit (both cases), as accepted by
`decodeURIComponent`. -/
def hexVal (c : Char) : Option Nat :=
  if 48 ≤ c.toNat ∧ c.toNat ≤ 57 then some (c.toNat - 48)
  else if 65 ≤ c.toNat ∧ c.toNat ≤ 70 then some (c.toNat - 55)
  else if 97 ≤ c.toNat ∧ c.toNat ≤ 102 then some (c.toNat - 87)
  else none

/-- The escape of one byte: `%XX` with uppercase hex. -/
def percentByte (b : Nat) : List Char := ['%', hexDigitU (b / 16), hexDigitU (b % 16)]

/-- The characters `encodeURIComponent` leaves unescaped:
`A-Z a-z 0-9 - _ . ! ~ * (apostrophe) ( )`. -/
def uriUnreserved (c : Char) : Bool :=
  (65 ≤ c.toNat && c.toNat ≤ 90) || (97 ≤ c.toNat && c.toNat ≤ 122) ||
  (48 ≤ c.toNat && c.toNat ≤ 57) ||
  (c = '-' || c = '_' || c = '.' || c = '!' || c = '~' || c = '*' ||
    c = apos || c = '(' || c = ')')

/-- JS `encodeURIComponent`: unreserved characters pass through, every other
character is escaped as the `%XX` escapes of its UTF-8 bytes.  (JS throws
`URIError` on lone surrogates; Lean `Char`s are scalar values, so the
function is total here.) -/
def encodeURIComponent (s : List Char) : List Char :=
  s.flatMap fun c =>
    if uriUnreserved c then [c]
    else (utf8EncodeCP c.toNat).flatMap percentByte

/-- Maximal run of `%XX` escapes at the head of the input: the byte values
and the remaining characters. -/
def percentRun : List Char → (List Nat × List Char)
  | c1 :: c2 :: c3 :: rest =>
    if c1 = '%' then
      match hexVal c2, hexVal c3 with
      | some a, some b =>
        let p := percentRun rest
        ((16 * a + b) :: p.1, p.2)
      | _, _ => ([], c1 :: c2 :: c3 :: rest)
    else ([], c1 :: c2 :: c3 :: rest)
  | s => ([], s)

def uriErrMsg : Err := "URIError: URI malformed".toList

/-- Fuelled body of `decodeURIComponent` (fuel makes the recursion
structural; each step consumes at least one character). -/
def decodeURIComponentF : Nat → List Char → Except Err (List Char)
  | 0, s =>
    match s with
    | [] => .ok []
    | _ :: _ => .error uriErrMsg
  | fuel + 1, s =>
    match s with
    | [] => .ok []
    | c :: rest =>
      if c = '%' then
        let p := percentRun (c :: rest)
        if p.1.isEmpty then .error uriErrMsg
        else
          match utf8DecodeStrict p.1 with
          | some cs => do
            let tail ← decodeURIComponentF fuel p.2
            .ok (cs.map Char.ofNat ++ tail)
          | none => .error uriErrMsg
      else do
        let tail ← decodeURIComponentF fuel rest
        .ok (c :: tail)

/-- JS `decodeURIComponent`: percent-escapes are decoded bytewise, each
maximal escape run must form well-formed UTF-8, and a malformed escape or
byte sequence throws `URIError`. -/
def decodeURIComponent (s : List Char) : Except Err (List Char) :=
  decodeURIComponentF s.length s

theorem hexVal_hexDigitU : ∀ n < 16, hexVal (hexDigitU n) = some n := by
  decide

theorem percentRun_not_escape :
    ∀ (s : List Char), (∀ c2 c3 rest, s = '%' :: c2 :: c3 :: rest →
      (hexVal c2).isNone ∨ (hexVal c3).isNone) →
    percentRun s = ([], s) := by
  intro s hs
  match s with
  | [] => rfl
  | [c1] => rfl
  | [c1, c2] => rfl
  | c1 :: c2 :: c3 :: rest =>
    rw [percentRun]
    split_ifs with h1
    · subst h1
      rcases hv2 : hexVal c2 with _ | a <;> rcases hv3 : hexVal c3 with _ | b
      · rfl
      · rfl
      · rfl
      · exfalso
        rcases hs c2 c3 rest rfl with h | h
        · rw [hv2] at h
          simp at h
        · rw [hv3] at h
          simp at h
    · rfl

theorem percentRun_escapes (bs : List Nat) (tail : List Char)
    (hb : ∀ b ∈ bs, b < 256) (ht : percentRun tail = ([], tail)) :
    percentRun (bs.flatMap percentByte ++ tail) = (bs, tail) := by
  induction bs with
  | nil =>
    simpa using ht
  | cons b tl ih =>
    have hb256 : b < 256 := hb b (by simp)
    rw [List.flatMap_cons, percentByte]
    simp only [List.cons_append, List.append_assoc]
    rw [percentRun]
    rw [if_pos rfl, hexVal_hexDigitU (b / 16) (by omega),
      hexVal_hexDigitU (b % 16) (by omega)]
    dsimp only
    rw [List.nil_append, ih (fun x hx => hb x (by simp [hx]))]
    simp
    omega

theorem utf8EncodeCP_lt_256 {c : Nat} (hv : Nat.isValidChar c) :
    ∀ b ∈ utf8EncodeCP c, b < 256 := by
  have hv' : c < 55296 ∨ (57343 < c ∧ c < 1114112) := hv
  intro b hb
  rw [utf8EncodeCP] at hb
  split_ifs at hb <;> simp at hb <;> omega

theorem encodeURIComponent_append (a b : List Char) :
    encodeURIComponent (a ++ b) =
      encodeURIComponent a ++ encodeURIComponent b := by
  simp [encodeURIComponent]

theorem flatMap_assoc {α : Type} (l : List α) (f : α → List Nat)
    (g : Nat → List Char) :
    (l.flatMap f).flatMap g = l.flatMap (fun x => (f x).flatMap g) := by
  induction l with
  | nil => rfl
  | cons a tl ih => simp [List.flatMap_cons, ih]

theorem encodeURIComponent_reserved (P : List Char)
    (hP : ∀ c ∈ P, uriUnreserved c = false) :
    encodeURIComponent P =
      (P.flatMap (fun c => utf8EncodeCP c.toNat)).flatMap percentByte := by
  rw [flatMap_assoc]
  unfold encodeURIComponent
  apply List.flatMap_congr
  intro c hc
  rw [hP c hc]
  simp

theorem length_flatMap_percentByte (B : List Nat) :
    (B.flatMap percentByte).length = 3 * B.length := by
  induction B with
  | nil => rfl
  | cons b tl ih =>
    rw [List.flatMap_cons, List.length_append, ih, percentByte]
    simp
    omega

theorem uriUnreserved_percent : uriUnreserved '%' = false := by decide

theorem dropWhile_cons_false {p : Char → Bool} {l : List Char} {d : Char}
    {Q : List Char} (h : l.dropWhile p = d :: Q) : p d = false := by
  have h2 := List.head_dropWhile_not p l (by rw [h]; simp)
  have h3 : (l.dropWhile p).head (by rw [h]; simp) = d :=
    (List.head_eq_iff_head?_eq_some _).mpr (by rw [h]; rfl)
  rw [h3] at h2
  simpa using h2

/-- Decoding inverts encoding (fuelled form). -/
theorem decodeURIComponentF_encode :
    ∀ (n : Nat) (s : List Char), s.length ≤ n →
      ∀ fuel, (encodeURIComponent s).length ≤ fuel →
        decodeURIComponentF fuel (encodeURIComponent s) = .ok s := by
  intro n
  induction n with
  | zero =>
    intro s hs fuel hf
    have hnil : s = [] := List.length_eq_zero.mp (by omega)
    subst hnil
    rcases fuel with _ | fuel <;> simp [encodeURIComponent, decodeURIComponentF]
  | succ n ih =>
    intro s hs fuel hf
    rcases s with _ | ⟨c, tl⟩
    · rcases fuel with _ | fuel <;> simp [encodeURIComponent, decodeURIComponentF]
    · by_cases hu : uriUnreserved c
      · have henc : encodeURIComponent (c :: tl) = c :: encodeURIComponent tl := by
          simp [encodeURIComponent, List.flatMap_cons, hu]
        rw [henc] at hf ⊢
        rcases fuel with _ | fuel
        · simp at hf
        · have hne : ¬ (c = '%') := by
            intro hp
            rw [hp, uriUnreserved_percent] at hu
            exact absurd hu (by simp)
          simp only [decodeURIComponentF, if_neg hne]
          rw [ih tl (by simp at hs; omega) fuel (by simp at hf; omega)]
          rfl
      · -- reserved head: a maximal reserved prefix is consumed as one
        -- percent-escape run
        rcases hPQ : (c :: tl).takeWhile (fun x => !uriUnreserved x) with
          _ | ⟨c0, P'⟩
        · exfalso
          rw [List.takeWhile_cons, if_pos (by simp [hu])] at hPQ
          simp at hPQ
        have hPQeq := List.takeWhile_append_dropWhile
          (fun x => !uriUnreserved x) (c :: tl)
        rw [hPQ] at hPQeq
        have hres : ∀ x ∈ (c0 :: P'), uriUnreserved x = false := by
          intro x hx
          have := List.mem_takeWhile_imp (hPQ ▸ hx)
          simpa using this
        have hvB : ∀ b ∈ (c0 :: P').flatMap (fun x => utf8EncodeCP x.toNat),
            b < 256 := by
          intro b hb
          rw [List.mem_flatMap] at hb
          obtain ⟨x, -, hb⟩ := hb
          exact utf8EncodeCP_lt_256 x.valid b hb
        have hrunQ : percentRun (encodeURIComponent
            ((c :: tl).dropWhile (fun x => !uriUnreserved x))) =
            ([], encodeURIComponent
              ((c :: tl).dropWhile (fun x => !uriUnreserved x))) := by
          rcases hQ : (c :: tl).dropWhile (fun x => !uriUnreserved x) with
            _ | ⟨d, Q'⟩
          · simp [encodeURIComponent, percentRun]
          · have hd : uriUnreserved d = true := by
              have := dropWhile_cons_false hQ
              simpa using this
            apply percentRun_not_escape
            intro c2 c3 rest h
            exfalso
            rw [encodeURIComponent, List.flatMap_cons, hd] at h
            simp at h
            obtain ⟨hdp, -⟩ := h
            rw [hdp, uriUnreserved_percent] at hd
            simp at hd
        have henc : encodeURIComponent (c :: tl) =
            ((c0 :: P').flatMap (fun x => utf8EncodeCP x.toNat)).flatMap
              percentByte ++
            encodeURIComponent
              ((c :: tl).dropWhile (fun x => !uriUnreserved x)) := by
          conv_lhs => rw [← hPQeq]
          rw [encodeURIComponent_append, encodeURIComponent_reserved _ hres]
        have hrun : percentRun (encodeURIComponent (c :: tl)) =
            ((c0 :: P').flatMap (fun x => utf8EncodeCP x.toNat),
              encodeURIComponent
                ((c :: tl).dropWhile (fun x => !uriUnreserved x))) := by
          rw [henc]
          exact percentRun_escapes _ _ hvB hrunQ
        obtain ⟨b0, B', hB⟩ :
            ∃ b0 B', (c0 :: P').flatMap (fun x => utf8EncodeCP x.toNat) =
              b0 :: B' := by
          have : (c0 :: P').flatMap (fun x => utf8EncodeCP x.toNat) ≠ [] := by
            rw [List.flatMap_cons]
            simp [utf8EncodeCP_ne_nil]
          exact List.exists_cons_of_ne_nil this
        have hencS : encodeURIComponent (c :: tl) =
            '%' :: hexDigitU (b0 / 16) :: hexDigitU (b0 % 16) ::
              (B'.flatMap percentByte ++
                encodeURIComponent
                  ((c :: tl).dropWhile (fun x => !uriUnreserved x))) := by
          rw [henc, hB, List.flatMap_cons, percentByte]
          simp
        have hstrict : utf8DecodeStrict
            ((c0 :: P').flatMap (fun x => utf8EncodeCP x.toNat)) =
            some ((c0 :: P').map Char.toNat) := by
          rw [← List.flatMap_map Char.toNat (fun x => utf8EncodeCP x) (c0 :: P')]
          apply utf8DecodeStrict_encode
          intro y hy
          rw [List.mem_map] at hy
          obtain ⟨x, -, rfl⟩ := hy
          exact x.valid
        have hmap : ((c0 :: P').map Char.toNat).map Char.ofNat = c0 :: P' := by
          rw [List.map_map]
          have hcomp : Char.ofNat ∘ Char.toNat = id := funext Char.ofNat_toNat
          rw [hcomp, List.map_id]
        rcases fuel with _ | fuel
        · rw [hencS] at hf
          simp at hf
        · rw [hencS]
          simp only [decodeURIComponentF, reduceIte]
          rw [← hencS, hrun]
          simp only [hB, List.isEmpty_cons, Bool.false_eq_true, if_false]
          rw [← hB, hstrict]
          have hlenQ : ((c :: tl).dropWhile
              (fun x => !uriUnreserved x)).length ≤ n := by
            have := congrArg List.length hPQeq
            simp [List.length_append] at this
            simp at hs
            omega
          have hfQ : (encodeURIComponent
              ((c :: tl).dropWhile (fun x => !uriUnreserved x))).length ≤
              fuel := by
            rw [henc] at hf
            rw [List.length_append, length_flatMap_percentByte] at hf
            have hBlen : 1 ≤ ((c0 :: P').flatMap
                (fun x => utf8EncodeCP x.toNat)).length := by
              rw [hB]
              simp
            omega
          rw [ih _ hlenQ fuel hfQ]
          simp only [hmap, List.cons_append]
          show Except.ok (c0 :: (P' ++ List.dropWhile
            (fun x => !uriUnreserved x) (c :: tl))) = Except.ok (c :: tl)
          rw [← List.cons_append, hPQeq]

/-- Decoding inverts encoding (with the default fuel). -/
theorem decodeURIComponent_encode (s : List Char) :
    decodeURIComponent (encodeURIComponent s) = .ok s :=
  decodeURIComponentF_encode s.length s le_rfl _ le_rfl

theorem charOfNat_toNat {n : Nat} (h : Nat.isValidChar n) :
    (Char.ofNat n).toNat = n := by
  unfold Char.ofNat
  split
  · rfl
  · exact absurd (Char.isValidChar_of_isValidCharNat n h) (by assumption)

/-! ## Type-tag text codec (`src/unnamed/part_000`, first version) -/

namespace Textio

/-- `isAllSpaces`. -/
def isAllSpaces (data : List Nat) : Bool := data.all (fun byte => byte == 32)

/-- The `while` loop of `sanitizeTypeName`: repeatedly slice off a trailing
0x20 byte, i.e. drop the maximal run of trailing spaces. -/
def trimTrailingSpaces (l : List Nat) : List Nat :=
  (l.reverse.dropWhile (· == 32)).reverse

def sanitizeErrMsg : Err :=
  "restype isn".toList ++ [apos] ++ "t 4 bytes".toList

def parseErrMsg : Err :=
  "decoded restype doesn".toList ++ [apos] ++ "t work out to 4 bytes".toList

/-- `sanitizeTypeName(restype)`: requires a 4-byte tag; trims trailing
spaces unless the tag is all spaces; decodes the remaining bytes as UTF-8
(`TextDecoder`: leading BOM stripped, replacement policy) and
percent-encodes the decoded string with `encodeURIComponent`. -/
def sanitizeTypeName (restype : List Nat) : Except Err (List Char) :=
  if restype.length ≠ 4 then .error sanitizeErrMsg
  else
    let trimmed :=
      if !isAllSpaces restype then trimTrailingSpaces restype else restype
    .ok (encodeURIComponent ((utf8Decode trimmed).map Char.ofNat))

/-- `parseTypeName(saneName)`: percent-decode, re-encode as UTF-8, copy the
first `min(length, 4)` bytes over a buffer of four spaces, and fail when the
decoded byte count exceeds 4. -/
def parseTypeName (saneName : List Char) : Except Err (List Nat) := do
  let decoded := utf8Encode (← decodeURIComponent saneName)
  let result := decoded.take (min decoded.length 4) ++
    List.replicate (4 - min decoded.length 4) 32
  if decoded.length > 4 then .error parseErrMsg else .ok result

end Textio

theorem trimTrailingSpaces_of_getLast {t : List Nat}
    (h : t.getLast? ≠ some 32) : Textio.trimTrailingSpaces t = t := by
  unfold Textio.trimTrailingSpaces
  rcases hrev : t.reverse with _ | ⟨a, rest⟩
  · simp at hrev
    simp [hrev]
  · have ha : a ≠ 32 := by
      intro rfl32
      apply h
      rw [← List.head?_reverse, hrev, rfl32]
      rfl
    rw [List.dropWhile_cons, if_neg (by simpa using ha), ← hrev,
      List.reverse_reverse]

/-- C3 (amended): for a 4-byte tag that needs no space-trimming, does not
begin with the UTF-8 byte-order mark (which `TextDecoder` would strip),
and whose bytes are well-formed UTF-8,
`parseTypeName (sanitizeTypeName t)` returns exactly `t`. -/
theorem C3_tag_codec_roundtrip (t : List Nat) (h4 : t.length = 4)
    (hns : t.getLast? ≠ some 32 ∨ Textio.isAllSpaces t = true)
    (hbom : t.take 3 ≠ [239, 187, 191])
    (hutf : (utf8DecodeStrict t).isSome) :
    ∃ s, Textio.sanitizeTypeName t = .ok s ∧
      Textio.parseTypeName s = .ok t := by
  obtain ⟨cs, hcs⟩ := Option.isSome_iff_exists.mp hutf
  obtain ⟨hbytes, hv⟩ := utf8DecodeStrictF_sound _ _ _ hcs
  have hrepl : utf8DecodeRepl t = cs := utf8DecodeRepl_of_strict hcs
  have htrim :
      (if !Textio.isAllSpaces t then Textio.trimTrailingSpaces t else t) =
        t := by
    rcases hns with hns | hns
    · split_ifs with hsp
      · exact trimTrailingSpaces_of_getLast hns
      · rfl
    · rw [hns]
      rfl
  refine ⟨encodeURIComponent (cs.map Char.ofNat), ?_, ?_⟩
  · rw [Textio.sanitizeTypeName, if_neg (by omega)]
    rw [htrim]
    dsimp only
    rw [utf8Decode, if_neg hbom, hrepl]
  · rw [Textio.parseTypeName]
    have hdec := decodeURIComponent_encode (cs.map Char.ofNat)
    rw [hdec]
    have henc : utf8Encode (cs.map Char.ofNat) = t := by
      rw [utf8Encode, List.flatMap_map]
      rw [hbytes]
      apply List.flatMap_congr
      intro x hx
      rw [charOfNat_toNat (hv x hx)]
    show (let decoded := utf8Encode (cs.map Char.ofNat);
      let result := decoded.take (min decoded.length 4) ++
        List.replicate (4 - min decoded.length 4) 32;
      if decoded.length > 4 then Except.error Textio.parseErrMsg
      else Except.ok result) = Except.ok t
    dsimp only
    rw [henc, h4]
    have htake : t.take 4 = t := by
      rw [← h4]
      exact List.take_length t
    simp [htake]

/-- C3 counterexample: the tag bytes `[0xFF, 0x41, 0x41, 0x41]` end in a
non-space byte, so no space-trimming is involved, yet
`parseTypeName (sanitizeTypeName t)` throws instead of returning `t`:
`0xFF` is not valid UTF-8, `TextDecoder` replaces it with U+FFFD, and the
re-encoded percent-decoding is 6 bytes long. -/
theorem C3_counterexample :
    [255, 65, 65, 65].getLast? ≠ some 32 ∧
    Textio.sanitizeTypeName [255, 65, 65, 65] =
      .ok ("%EF%BF%BDAAA".toList) ∧
    Textio.parseTypeName ("%EF%BF%BDAAA".toList) =
      .error Textio.parseErrMsg := by
  refine ⟨by decide, by decide, by decide⟩

theorem C3_witness :
    ∃ s, Textio.sanitizeTypeName [72, 101, 100, 114] = .ok s ∧
      Textio.parseTypeName s = .ok [72, 101, 100, 114] :=
  C3_tag_codec_roundtrip [72, 101, 100, 114] (by decide) (by decide)
    (by decide) (by decide)

/-! ## Resource fork model (`types.ts`) -/

structure Resource where
  type : List Char
  id : Int
  data : List Nat
  name : Option (List Char)
  flags : Nat
  junk : Nat
  order : Nat
deriving DecidableEq

structure ResourceFork where
  resources : List (List Char × List (Int × Resource))
  fileAttributes : Nat
  junkNextresmap : Nat
  junkFilerefnum : Nat
deriving DecidableEq

/-! ## Container decoder

Shared loops of `ResourceForkParser.fromBytes`.  The two copies of the
parser in the repository (`resfork.ts` and `src/unnamed/part_001`) differ
only in where the type count is read, so they share these loops.

`mapView` in the source is a `DataView` rooted at `mapOffset` with no length
limit, so map reads are bounded by the whole buffer; `mapData` is a
`Uint8Array` limited to `mapLength`, and the name reads below go through
`mapData` with explicit in-`mapLength` guards. -/

/-- Name lookup (lines 100–111 of `resfork.ts` / 101–113 of `part_001`):
`0xFFFF` is the unnamed sentinel; out-of-`mapLength` accesses leave the name
`undefined`; the bytes are decoded as latin1 (identity on code points). -/
def readResourceName (data : List Nat)
    (mapOff mapLength nameListOffsetInMap nameOffset : Nat) :
    Option (List Char) :=
  if nameOffset ≠ 65535 then
    let namePos := nameListOffsetInMap + nameOffset
    if namePos < mapLength then
      let mapData := readN data mapOff mapLength
      let nameLength := (mapData.drop namePos).headD 0
      if namePos + 1 + nameLength ≤ mapLength then
        some (((mapData.drop (namePos + 1)).take nameLength).map Char.ofNat)
      else none
    else none
  else none

/-- Inner resource-list loop (lines 65–124): reads the 12-byte entries at
`resPos`, unpacks `flags` (top 8 bits of `packedAttr`, i.e. `/ 2^24`) and
the 24-bit data offset (`% 2^24`), skips an entry whose length-prefix or
data range exceeds the buffer, and otherwise inserts the resource. -/
def readResourceList (data : List Nat)
    (dataOffset mapOff mapLength nameListOffsetInMap : Nat)
    (typeName : List Char) :
    Nat → Nat → List (Int × Resource) → Except Err (List (Int × Resource))
  | 0, _, typeResources => .ok typeResources
  | count + 1, resPos, typeResources => do
    let id ← getInt16 data (mapOff + resPos)
    let nameOffset ← getUint16 data (mapOff + resPos + 2)
    let packedAttr ← getUint32 data (mapOff + resPos + 4)
    let junk ← getUint32 data (mapOff + resPos + 8)
    let flags := packedAttr / 16777216
    let resourceDataOffset := packedAttr % 16777216
    let actualDataOffset := dataOffset + resourceDataOffset
    if actualDataOffset + 4 > data.length then
      readResourceList data dataOffset mapOff mapLength nameListOffsetInMap
        typeName count (resPos + 12) typeResources
    else do
      let resourceDataLength ← getUint32 data actualDataOffset
      if actualDataOffset + 4 + resourceDataLength > data.length then
        readResourceList data dataOffset mapOff mapLength nameListOffsetInMap
          typeName count (resPos + 12) typeResources
      else
        let resourceData := readN data (actualDataOffset + 4) resourceDataLength
        let name := readResourceName data mapOff mapLength nameListOffsetInMap
          nameOffset
        let resource : Resource :=
          ⟨typeName, id, resourceData, name, flags, junk, 4294967295⟩
        readResourceList data dataOffset mapOff mapLength nameListOffsetInMap
          typeName count (resPos + 12) (jsMapSet typeResources id resource)

/-- Outer type-list loop (lines 51–129): reads the 8-byte type entries at
`pos`, sanitizes the 4-byte tag, runs the resource-list loop at
`typeListOffsetInMap + resourceListOffset`, and records the type when it
kept at least one resource. -/
def readTypeList (data : List Nat)
    (dataOffset mapOff mapLength typeListOffsetInMap nameListOffsetInMap :
      Nat) :
    Nat → Nat → List (List Char × List (Int × Resource)) →
      Except Err (List (List Char × List (Int × Resource)))
  | 0, _, resources => .ok resources
  | numTypes + 1, pos, resources => do
    let typeBytes ← readBytesExact data (mapOff + pos) 4
    let typeName ← Textio.sanitizeTypeName typeBytes
    let rc ← getUint16 data (mapOff + pos + 4)
    let resourceCount := rc + 1
    let resourceListOffset ← getUint16 data (mapOff + pos + 6)
    let typeResources ← readResourceList data dataOffset mapOff mapLength
      nameListOffsetInMap typeName resourceCount
      (typeListOffsetInMap + resourceListOffset) []
    let resources' :=
      if typeResources.length > 0 then jsMapSet resources typeName typeResources
      else resources
    readTypeList data dataOffset mapOff mapLength typeListOffsetInMap
      nameListOffsetInMap numTypes (pos + 8) resources'

namespace ResForkTs

def tooSmallMsg : Err :=
  "data is too small to contain a valid resource fork header".toList

def headerNonsenseMsg : Err :=
  "Invalid resource fork: offsets/lengths in header are nonsense".toList

/-- `ResourceForkParser.fromBytes` of `resfork.ts` (first version in the
file, the one the claims cite): empty input decodes to an empty fork;
fewer than 16 bytes is a hard error; the map-specific header is read at
map offsets 16–29, including the type count at offset 28. -/
def fromBytes (data : List Nat) : Except Err ResourceFork :=
  if data.length = 0 then .ok ⟨[], 0, 0, 0⟩
  else if data.length < 16 then .error tooSmallMsg
  else do
    let dataOffset ← getUint32 data 0
    let mapOffset ← getUint32 data 4
    let dataLength ← getUint32 data 8
    let mapLength ← getUint32 data 12
    if dataOffset + dataLength > data.length ∨
        mapOffset + mapLength > data.length then
      .error headerNonsenseMsg
    else do
      let junkNextresmap ← getUint32 data (mapOffset + 16)
      let junkFilerefnum ← getUint16 data (mapOffset + 20)
      let fileAttributes ← getUint16 data (mapOffset + 22)
      let typeListOffsetInMap ← getUint16 data (mapOffset + 24)
      let nameListOffsetInMap ← getUint16 data (mapOffset + 26)
      let nt ← getUint16 data (mapOffset + 28)
      let numTypes := nt + 1
      let resources ← readTypeList data dataOffset mapOffset mapLength
        typeListOffsetInMap nameListOffsetInMap numTypes
        (typeListOffsetInMap + 2) []
      .ok ⟨resources, fileAttributes, junkNextresmap, junkFilerefnum⟩

end ResForkTs

namespace Part001

/-- `ResourceForkParser.fromBytes` of `src/unnamed/part_001`: identical to
the `resfork.ts` version except that the type count is read from the start
of the type list (`mapView.getUint16(typeListOffsetInMap)`). -/
def fromBytes (data : List Nat) : Except Err ResourceFork :=
  if data.length = 0 then .ok ⟨[], 0, 0, 0⟩
  else if data.length < 16 then .error ResForkTs.tooSmallMsg
  else do
    let dataOffset ← getUint32 data 0
    let mapOffset ← getUint32 data 4
    let dataLength ← getUint32 data 8
    let mapLength ← getUint32 data 12
    if dataOffset + dataLength > data.length ∨
        mapOffset + mapLength > data.length then
      .error ResForkTs.headerNonsenseMsg
    else do
      let junkNextresmap ← getUint32 data (mapOffset + 16)
      let junkFilerefnum ← getUint16 data (mapOffset + 20)
      let fileAttributes ← getUint16 data (mapOffset + 22)
      let typeListOffsetInMap ← getUint16 data (mapOffset + 24)
      let nameListOffsetInMap ← getUint16 data (mapOffset + 26)
      let nt ← getUint16 data (mapOffset + typeListOffsetInMap)
      let numTypes := nt + 1
      let resources ← readTypeList data dataOffset mapOffset mapLength
        typeListOffsetInMap nameListOffsetInMap numTypes
        (typeListOffsetInMap + 2) []
      .ok ⟨resources, fileAttributes, junkNextresmap, junkFilerefnum⟩

end Part001

/-- C4: `fromBytes` returns the empty fork on an empty buffer, and throws
the buffer-too-small format error on any buffer of length 1 through 15. -/
theorem C4_short_input_behavior :
    ResForkTs.fromBytes [] = .ok ⟨[], 0, 0, 0⟩ ∧
    ∀ data : List Nat, 1 ≤ data.length → data.length ≤ 15 →
      ResForkTs.fromBytes data = .error ResForkTs.tooSmallMsg := by
  constructor
  · rfl
  · intro data h1 h15
    rw [ResForkTs.fromBytes, if_neg (by omega), if_pos (by omega)]

theorem C4_witness :
    1 ≤ ([0] : List Nat).length ∧ ([0] : List Nat).length ≤ 15 ∧
      ResForkTs.fromBytes [0] = .error ResForkTs.tooSmallMsg :=
  ⟨by decide, by decide, C4_short_input_behavior.2 [0] (by decide) (by decide)⟩

/-! ## JS values and numeric coercions

`unpackRecord` / `packRecord` traffic in dynamically typed JS values.
Integers read from `DataView` are exact; `float`/`double` fields are
carried as their raw big-endian bytes (`f32`/`f64`) since no claim depends
on float arithmetic.  The coercions below model the ECMAScript conversions
the `switch` arms of `packRecord` perform; corners marked `not modelled`
(e.g. `ToPrimitive` of arrays in numeric positions, printing a float) are
never exercised by the claims and are mapped to an explicit error or to a
documented default. -/

inductive JsValue where
  | undefV
  | nullv
  | bool (b : Bool)
  | num (n : Int)
  | big (n : Int)
  | str (s : List Char)
  | f32 (bytes : List Nat)
  | f64 (bytes : List Nat)
  | arr (xs : List JsValue)
  | obj (fields : List (List Char × JsValue))

/-- IEEE-754 binary32 zero or NaN (the falsy / NaN-falsy numbers). -/
def f32ZeroOrNaN (bs : List Nat) : Bool :=
  match bs with
  | [b0, b1, b2, b3] =>
    ((b0 = 0 || b0 = 128) && b1 = 0 && b2 = 0 && b3 = 0) ||
    ((b0 % 128) * 2 + b1 / 128 = 255 &&
      ((b1 % 128) * 65536 + b2 * 256 + b3 ≠ 0))
  | _ => false

/-- IEEE-754 binary64 zero or NaN. -/
def f64ZeroOrNaN (bs : List Nat) : Bool :=
  match bs with
  | [b0, b1, b2, b3, b4, b5, b6, b7] =>
    ((b0 = 0 || b0 = 128) && b1 = 0 && b2 = 0 && b3 = 0 && b4 = 0 &&
      b5 = 0 && b6 = 0 && b7 = 0) ||
    ((b0 % 128) * 16 + b1 / 16 = 2047 &&
      ((b1 % 16) * 2 ^ 48 + b2 * 2 ^ 40 + b3 * 2 ^ 32 + b4 * 2 ^ 24 +
        b5 * 2 ^ 16 + b6 * 2 ^ 8 + b7 ≠ 0))
  | _ => false

/-- JS truthiness of a value (`0`, `-0`, `NaN`, `''`, `null`, `undefined`
and `false` are falsy). -/
def jsTruthy : JsValue → Bool
  | .undefV => false
  | .nullv => false
  | .bool b => b
  | .num n => n ≠ 0
  | .big n => n ≠ 0
  | .str s => s ≠ []
  | .f32 bs => !f32ZeroOrNaN bs
  | .f64 bs => !f64ZeroOrNaN bs
  | .arr _ => true
  | .obj _ => true

/-- `value || dflt`. -/
def jsOr (v dflt : JsValue) : JsValue := if jsTruthy v then v else dflt

/-- Leading-digit parse used to model `parseInt` on the digit strings the
template splitter builds (`"12s"` → 12). -/
def parseDigits (s : List Char) : Nat :=
  s.foldl (fun a c => a * 10 + (c.toNat - 48)) 0

def isDigitChar (c : Char) : Bool := 48 ≤ c.toNat && c.toNat ≤ 57

/-- `ToNumber` of a string followed by integer truncation: decimal digit
strings (optionally negated) evaluate to their number, everything else is
`NaN` and truncates to 0.  (The full JS numeric-string grammar — hex,
exponents, fractions — is not modelled; the claims only exercise digit
strings and non-numeric strings.) -/
def jsStringToIntTrunc (s : List Char) : Int :=
  match s with
  | '-' :: rest =>
    if rest ≠ [] && rest.all isDigitChar then -(parseDigits rest : Int) else 0
  | _ => if s ≠ [] && s.all isDigitChar then (parseDigits s : Int) else 0

/-- Truncation toward zero of an IEEE-754 binary32 value (`ToIntegerOrZero`:
NaN and infinities go to 0, as in `ToUint8`/`ToUint32`). -/
def f32TruncInt (bs : List Nat) : Int :=
  match bs with
  | [b0, b1, b2, b3] =>
    let s : Int := if b0 / 128 = 1 then -1 else 1
    let e := (b0 % 128) * 2 + b1 / 128
    let m := (b1 % 128) * 65536 + b2 * 256 + b3
    if e = 255 then 0
    else if e = 0 then 0
    else if e < 150 then s * ((2 ^ 23 + m) / 2 ^ (150 - e) : Nat)
    else s * ((2 ^ 23 + m) * 2 ^ (e - 150) : Nat)
  | _ => 0

/-- Truncation toward zero of an IEEE-754 binary64 value. -/
def f64TruncInt (bs : List Nat) : Int :=
  match bs with
  | [b0, b1, b2, b3, b4, b5, b6, b7] =>
    let s : Int := if b0 / 128 = 1 then -1 else 1
    let e := (b0 % 128) * 16 + b1 / 16
    let m := (b1 % 16) * 2 ^ 48 + b2 * 2 ^ 40 + b3 * 2 ^ 32 + b4 * 2 ^ 24 +
      b5 * 2 ^ 16 + b6 * 2 ^ 8 + b7
    if e = 2047 then 0
    else if e = 0 then 0
    else if e < 1075 then s * ((2 ^ 52 + m) / 2 ^ (1075 - e) : Nat)
    else s * ((2 ^ 52 + m) * 2 ^ (e - 1075) : Nat)
  | _ => 0

def typeErrBigIntMsg : Err :=
  "TypeError: cannot convert a BigInt to a number".toList

/-- `ToNumber` + truncation toward zero, as performed by the integer
`DataView` setters; a BigInt argument throws `TypeError`.  (`ToPrimitive`
of arrays/objects is not modelled and yields 0.) -/
def toWriteInt : JsValue → Except Err Int
  | .big _ => .error typeErrBigIntMsg
  | .num n => .ok n
  | .bool b => .ok (if b then 1 else 0)
  | .undefV => .ok 0
  | .nullv => .ok 0
  | .str s => .ok (jsStringToIntTrunc s)
  | .f32 bs => .ok (f32TruncInt bs)
  | .f64 bs => .ok (f64TruncInt bs)
  | .arr _ => .ok 0
  | .obj _ => .ok 0

def bigSyntaxErrMsg : Err :=
  "SyntaxError: cannot convert string to a BigInt".toList

def bigRangeErrMsg : Err :=
  "RangeError: the number is not a safe integer for BigInt".toList

/-- Whether an IEEE-754 value carried as raw bytes is an integer, and that
integer (used by `BigInt(number)`). -/
def f32Integral (bs : List Nat) : Option Int :=
  match bs with
  | [b0, b1, _, _] =>
    let e := (b0 % 128) * 2 + b1 / 128
    if e = 255 then none
    else if f32ZeroOrNaN bs then some 0
    else if e < 150 then
      (match bs with
      | [c0, c1, c2, c3] =>
        let m := (c1 % 128) * 65536 + c2 * 256 + c3
        if e = 0 then none
        else if (2 ^ 23 + m) % 2 ^ (150 - e) = 0 then some (f32TruncInt bs)
        else none
      | _ => none)
    else some (f32TruncInt bs)
  | _ => none

def f64Integral (bs : List Nat) : Option Int :=
  match bs with
  | [b0, b1, _, _, _, _, _, _] =>
    let e := (b0 % 128) * 16 + b1 / 16
    if e = 2047 then none
    else if f64ZeroOrNaN bs then some 0
    else if e < 1075 then
      (match bs with
      | [c0, c1, c2, c3, c4, c5, c6, c7] =>
        let m := (c1 % 16) * 2 ^ 48 + c2 * 2 ^ 40 + c3 * 2 ^ 32 +
          c4 * 2 ^ 24 + c5 * 2 ^ 16 + c6 * 2 ^ 8 + c7
        if e = 0 then none
        else if (2 ^ 52 + m) % 2 ^ (1075 - e) = 0 then some (f64TruncInt bs)
        else none
      | _ => none)
    else some (f64TruncInt bs)
  | _ => none

/-- `BigInt(value)`: numbers must be integers (`RangeError` otherwise),
digit strings parse (`SyntaxError` otherwise), booleans convert; `null`,
`undefined` and (not modelled) array/object coercions throw. -/
def toBigIntJs : JsValue → Except Err Int
  | .num n => .ok n
  | .big n => .ok n
  | .bool b => .ok (if b then 1 else 0)
  | .str s =>
    (match s with
    | '-' :: rest =>
      if rest ≠ [] && rest.all isDigitChar then .ok (-(parseDigits rest : Int))
      else .error bigSyntaxErrMsg
    | _ =>
      if s ≠ [] && s.all isDigitChar then .ok (parseDigits s : Int)
      else .error bigSyntaxErrMsg)
  | .f32 bs =>
    (match f32Integral bs with
    | some n => .ok n
    | none => .error bigRangeErrMsg)
  | .f64 bs =>
    (match f64Integral bs with
    | some n => .ok n
    | none => .error bigRangeErrMsg)
  | .undefV => .error typeErrBigIntMsg
  | .nullv => .error typeErrBigIntMsg
  | .arr _ => .error typeErrBigIntMsg
  | .obj _ => .error typeErrBigIntMsg

/-! ## Struct templates (`structtemplate.ts`, second version in the file —
the one the claims cite) -/

structure StructTemplate where
  format : List Char
  fieldNames : List (Option (List Char))
  isList : Bool
  recordLength : Nat

def digitChar (n : Nat) : Char := Char.ofNat (48 + n)

def natToStringF : Nat → Nat → List Char
  | 0, _ => []
  | fuel + 1, n =>
    if n < 10 then [digitChar n]
    else natToStringF fuel (n / 10) ++ [digitChar (n % 10)]

/-- Decimal rendering of a natural number (JS number-to-string for the
integers the code prints). -/
def natToString (n : Nat) : List Char := natToStringF (n + 1) n

/-- JS number-to-string for integers (adds the minus sign). -/
def intToString (i : Int) : List Char :=
  if i < 0 then '-' :: natToString i.natAbs else natToString i.toNat

/-- JS `String.split(sep, limit)`: the first `limit` fields. -/
def jsSplit (s : List Char) (sep : Char) (limit : Nat) : List (List Char) :=
  (s.splitOn sep).take limit

namespace StructTemplateParser

/-- `/\s/` on the characters the formats use (ASCII whitespace; the
exotic Unicode space classes are not exercised). -/
def isWsChar (c : Char) : Bool :=
  c = ' ' || c.toNat = 9 || c.toNat = 10 || c.toNat = 11 || c.toNat = 12 ||
    c.toNat = 13

/-- `/[CB?HILFQD]/.test(c.toUpperCase()) || c === 'x'`. -/
def isRepeatableCode (c : Char) : Bool :=
  (c.toUpper = 'C' || c.toUpper = 'B' || c.toUpper = '?' || c.toUpper = 'H' ||
    c.toUpper = 'I' || c.toUpper = 'L' || c.toUpper = 'F' ||
    c.toUpper = 'Q' || c.toUpper = 'D') || c = 'x'

/-- `Math.max(repeat || 1, 1)`. -/
def jsRepeatCount (rpt : Nat) : Nat := max (if rpt = 0 then 1 else rpt) 1

def unsupportedMsg (c : Char) : Err :=
  "Unsupported struct format character ".toList ++ [apos, c, apos]

/-- The instance method `splitStructFormatFields` (lines 319–352): skips
whitespace and the endianness characters `@!><` anywhere, accumulates a
decimal repeat count, expands repeatable codes, builds `"Ns"` string
fields, and throws on any other character. -/
def splitFieldsThrowing : List Char → Nat → Except Err (List (List Char))
  | [], _ => .ok []
  | c :: rest, rpt =>
    if isWsChar c || c = '@' || c = '!' || c = '>' || c = '<' then
      splitFieldsThrowing rest rpt
    else if isDigitChar c then
      splitFieldsThrowing rest (rpt * 10 + (c.toNat - 48))
    else if isRepeatableCode c then do
      let tail ← splitFieldsThrowing rest 0
      .ok (List.replicate (jsRepeatCount rpt) [c] ++ tail)
    else if c = 's' then do
      let tail ← splitFieldsThrowing rest 0
      .ok ((natToString (jsRepeatCount rpt) ++ ['s']) :: tail)
    else .error (unsupportedMsg c)

/-- `fmt.replace(/^[!@=<>]/, '')`. -/
def stripEndian (fmt : List Char) : List Char :=
  match fmt with
  | c :: rest =>
    if c = '!' || c = '@' || c = '=' || c = '<' || c = '>' then rest else fmt
  | [] => []

/-- The static method `splitStructFormatFields` (lines 538–571), used by
`unpackRecord` and `packRecord`: strips one leading endianness character,
skips whitespace, and silently ignores unknown characters (no `throw`, and
the pending repeat count survives an ignored character). -/
def splitFieldsLenient : List Char → Nat → List (List Char)
  | [], _ => []
  | c :: rest, rpt =>
    if isWsChar c then splitFieldsLenient rest rpt
    else if isDigitChar c then
      splitFieldsLenient rest (rpt * 10 + (c.toNat - 48))
    else if isRepeatableCode c then
      List.replicate (jsRepeatCount rpt) [c] ++ splitFieldsLenient rest 0
    else if c = 's' then
      (natToString (jsRepeatCount rpt) ++ ['s']) :: splitFieldsLenient rest 0
    else splitFieldsLenient rest rpt

def splitStructFormatFieldsStatic (fmt : List Char) : List (List Char) :=
  splitFieldsLenient (stripEndian fmt) 0

def unknownFieldMsg (field : List Char) : Err :=
  "Unknown field type: ".toList ++ field

/-- `parseInt(field.slice(0, -1))` for an `"Ns"` field.  The splitters only
build digit prefixes; a non-numeric prefix would make the record length NaN
in JS and is modelled as an error. -/
def parseStringFieldLength (field : List Char) : Except Err Nat :=
  let pre := field.dropLast
  if pre ≠ [] ∧ pre.all isDigitChar then .ok (parseDigits pre)
  else .error "NaN string field length".toList

/-- The per-field byte width of the `switch` in `calculateRecordLength`
(lines 354–394; note that it accepts `c`, although decoding and encoding
have no case for it). -/
def fieldWidth (field : List Char) : Except Err Nat :=
  if field = ['B'] ∨ field = ['b'] ∨ field = ['c'] ∨ field = ['x'] ∨
      field = ['?'] then .ok 1
  else if field = ['H'] ∨ field = ['h'] then .ok 2
  else if field = ['I'] ∨ field = ['i'] ∨ field = ['L'] ∨
      field = ['l'] ∨ field = ['f'] then .ok 4
  else if field = ['Q'] ∨ field = ['q'] ∨ field = ['d'] then .ok 8
  else if field.getLast? = some 's' then parseStringFieldLength field
  else .error (unknownFieldMsg field)

def calculateRecordLength : List (List Char) → Except Err Nat
  | [] => .ok 0
  | field :: rest => do
    let w ← fieldWidth field
    let tail ← calculateRecordLength rest
    .ok (w + tail)

/-- The regex `^(.+?)`(backtick)`(.+?)\[(\d+)\]$` of
`expandArrayFieldNames`: the prefix is the (nonempty) text before the first
backtick, and the anchored lazy tail forces the count to be the trailing
digit run between the final `[` and the final `]`; the suffix is the
(nonempty) text in between. -/
def parseArrayDirective (s : List Char) :
    Option (List Char × List Char × Nat) :=
  let pre := s.takeWhile (· ≠ btick)
  if pre.length = s.length then none
  else if pre = [] then none
  else
    let rest := s.drop (pre.length + 1)
    match rest.reverse with
    | rb :: revRest =>
      if rb = ']' then
        let revDs := revRest.takeWhile isDigitChar
        if revDs = [] then none
        else
          match revRest.drop revDs.length with
          | lb :: revSuf =>
            if lb = '[' ∧ revSuf ≠ [] then
              some (pre, revSuf.reverse, parseDigits revDs.reverse)
            else none
          | [] => none
      else none
    | [] => none

/-- `expandArrayFieldNames` (lines 434–460).  `startFieldIndex`/`fields` of
the source appear here as the suffix of the field list starting at the
directive's position; `availableFields` counts the consecutive non-`x`
fields from there. -/
def expandArrayFieldNames (fieldName : List Char)
    (fieldsSuffix : List (List Char)) : List (List Char) :=
  match parseArrayDirective fieldName with
  | none => [fieldName]
  | some (pre, suf, count) =>
    let availableFields := (fieldsSuffix.takeWhile (· ≠ ['x'])).length
    let numPairs := min count (availableFields / 2)
    (List.range numPairs).flatMap fun i =>
      [pre ++ '_' :: natToString i, suf ++ '_' :: natToString i]

/-- Fuelled body of `expandFieldNames` (lines 396–432): the source loop
advances `fieldIndex` by the expansion length (possibly 0) and
`fieldNameIndex` by 1, so the pair of remaining lists shrinks
lexicographically; fuel makes that structural. -/
def expandFieldNamesF : Nat → List (List Char) → List (List Char) →
    List (Option (List Char))
  | 0, _, _ => []
  | fuel + 1, fieldNames, fields =>
    match fields with
    | [] => []
    | f :: fs =>
      match fieldNames with
      | [] => (f :: fs).map fun _ => none
      | n :: ns =>
        if f = ['x'] then none :: expandFieldNamesF fuel (n :: ns) fs
        else if n ≠ [] ∧ '[' ∈ n ∧ ']' ∈ n then
          let expanded := expandArrayFieldNames n (f :: fs)
          (expanded.map some) ++
            expandFieldNamesF fuel ns ((f :: fs).drop expanded.length)
        else
          (if n = [] then none else some n) :: expandFieldNamesF fuel ns fs

def expandFieldNames (fieldNames fields : List (List Char)) :
    List (Option (List Char)) :=
  expandFieldNamesF (fieldNames.length + fields.length + 1) fieldNames fields

def emptyFormatMsg : Err := "Empty format string".toList

/-- `fromTemplateString` (lines 273–317): split off the format and the
comma-separated names (`split(':', 3)` keeps at most three segments and the
third is ignored), record and strip a trailing `+` (array mode), default
the byte order to big-endian by prepending `>`, then build the template. -/
def fromTemplateString (template : List Char) : Except Err StructTemplate := do
  let split := jsSplit template ':' 3
  let formatStr := split.headD []
  let fieldNames :=
    match split with
    | _ :: names :: _ => names.splitOn ','
    | _ => []
  if formatStr = [] then .error emptyFormatMsg
  else
    let fmt1 := if formatStr.getLast? = some '+' then formatStr.dropLast
      else formatStr
    let isList := formatStr.getLast? = some '+'
    let fmt2 :=
      if (match fmt1 with
        | c :: _ => c = '!' || c = '@' || c = '=' || c = '<' || c = '>'
        | [] => false) then fmt1
      else '>' :: fmt1
    let fieldFormats ← splitFieldsThrowing fmt2 0
    let recordLength ← calculateRecordLength fieldFormats
    .ok ⟨fmt2, expandFieldNames fieldNames fieldFormats, isList, recordLength⟩

/-- `!fieldNames[0]` — `null` and the empty string are falsy. -/
def jsFalsyName : Option (List Char) → Bool
  | none => true
  | some [] => true
  | some (_ :: _) => false

/-- `tagValues` (lines 573–593): a single falsy field name yields the bare
first value; otherwise values are keyed by their field names, padding
slots (`null` names) are dropped, and the loop stops at the shorter of the
two lists. -/
def tagValues (values : List JsValue) (template : StructTemplate) : JsValue :=
  match template.fieldNames with
  | [n] =>
    if jsFalsyName n then values.headD JsValue.undefV
    else .obj ((values.zip template.fieldNames).foldl
      (fun acc p =>
        match p.2 with
        | none => acc
        | some nm => jsMapSet acc nm p.1) [])
  | _ => .obj ((values.zip template.fieldNames).foldl
      (fun acc p =>
        match p.2 with
        | none => acc
        | some nm => jsMapSet acc nm p.1) [])

/-- The field-reading loop of `unpackRecord` (lines 469–533): big-endian
reads at the running offset; `x` performs (and discards) a byte read and
contributes a `null` placeholder; float fields carry their raw bytes;
string fields are UTF-8-decoded with the replacement policy. -/
def unpackFields (data : List Nat) (offset : Nat) :
    List (List Char) → Nat → Except Err (List JsValue)
  | [], _ => .ok []
  | field :: rest, pos =>
    match field with
    | ['B'] => do
      let v ← getUint8 data (offset + pos)
      let tail ← unpackFields data offset rest (pos + 1)
      .ok (.num v :: tail)
    | ['b'] => do
      let v ← getUint8 data (offset + pos)
      let tail ← unpackFields data offset rest (pos + 1)
      .ok (.num (if v < 128 then (v : Int) else (v : Int) - 256) :: tail)
    | ['H'] => do
      let v ← getUint16 data (offset + pos)
      let tail ← unpackFields data offset rest (pos + 2)
      .ok (.num v :: tail)
    | ['h'] => do
      let v ← getInt16 data (offset + pos)
      let tail ← unpackFields data offset rest (pos + 2)
      .ok (.num v :: tail)
    | ['I'] => do
      let v ← getUint32 data (offset + pos)
      let tail ← unpackFields data offset rest (pos + 4)
      .ok (.num v :: tail)
    | ['L'] => do
      let v ← getUint32 data (offset + pos)
      let tail ← unpackFields data offset rest (pos + 4)
      .ok (.num v :: tail)
    | ['i'] => do
      let v ← getUint32 data (offset + pos)
      let tail ← unpackFields data offset rest (pos + 4)
      .ok (.num (if v < 2147483648 then (v : Int) else (v : Int) - 4294967296)
        :: tail)
    | ['l'] => do
      let v ← getUint32 data (offset + pos)
      let tail ← unpackFields data offset rest (pos + 4)
      .ok (.num (if v < 2147483648 then (v : Int) else (v : Int) - 4294967296)
        :: tail)
    | ['f'] => do
      let bs ← readBytesExact data (offset + pos) 4
      let tail ← unpackFields data offset rest (pos + 4)
      .ok (.f32 bs :: tail)
    | ['Q'] => do
      let bs ← readBytesExact data (offset + pos) 8
      let tail ← unpackFields data offset rest (pos + 8)
      .ok (.big (beVal bs) :: tail)
    | ['q'] => do
      let bs ← readBytesExact data (offset + pos) 8
      let tail ← unpackFields data offset rest (pos + 8)
      .ok (.big (if beVal bs < 9223372036854775808 then (beVal bs : Int)
        else (beVal bs : Int) - 18446744073709551616) :: tail)
    | ['d'] => do
      let bs ← readBytesExact data (offset + pos) 8
      let tail ← unpackFields data offset rest (pos + 8)
      .ok (.f64 bs :: tail)
    | ['x'] => do
      let _ ← getUint8 data (offset + pos)
      let tail ← unpackFields data offset rest (pos + 1)
      .ok (.nullv :: tail)
    | ['?'] => do
      let v ← getUint8 data (offset + pos)
      let tail ← unpackFields data offset rest (pos + 1)
      .ok (.num v :: tail)
    | f =>
      if f.getLast? = some 's' then do
        let num ← parseStringFieldLength f
        let bs ← readBytesExact data (offset + pos) num
        let tail ← unpackFields data offset rest (pos + num)
        .ok (.str ((utf8Decode bs).map Char.ofNat) :: tail)
      else .error (unknownFieldMsg f)

/-- `unpackRecord` (lines 462–536). -/
def unpackRecord (data : List Nat) (offset : Nat)
    (template : StructTemplate) : Except Err JsValue := do
  let fields := splitStructFormatFieldsStatic template.format
  let values ← unpackFields data offset fields 0
  .ok (tagValues values template)

end StructTemplateParser

/-! ## Converters (`resconverters.ts`) -/

/-- `Uint8Array.set` / `DataView` write of `bs` at `pos` into `buf`:
in-bounds writes replace the slice, out-of-bounds writes throw. -/
def writeBytes (buf : List Nat) (pos : Nat) (bs : List Nat) :
    Except Err (List Nat) :=
  if pos + bs.length ≤ buf.length then
    .ok (buf.take pos ++ bs ++ buf.drop (pos + bs.length))
  else .error rangeErrMsg

/-- Big-endian bytes of `v mod 2^(8*width)` (the integer `DataView`
setters: signed and unsigned setters store the same low bits). -/
def intToBytesBE : Int → Nat → List Nat
  | _, 0 => []
  | n, width + 1 =>
    let w := (n % (2 ^ (8 * (width + 1)) : Nat)).toNat
    intToBytesBE (w / 256 : Nat) width ++ [w % 256]

def hexDigitCount : Nat → Nat → Nat
  | 0, _ => 1
  | fuel + 1, n => if n < 16 then 1 else 1 + hexDigitCount fuel (n / 16)

def natToHexF : Nat → Nat → List Char
  | 0, _ => []
  | fuel + 1, n =>
    if n < 16 then [hexDigitU n] else natToHexF fuel (n / 16) ++ [hexDigitU (n % 16)]

/-- `n.toString(16).toUpperCase()`. -/
def natToHex (n : Nat) : List Char := natToHexF (n + 1) n

/-- `byte.toString(16).padStart(2, '0')`, uppercased. -/
def byteHexUpper (b : Nat) : List Char :=
  let h := natToHex b
  List.replicate (2 - h.length) '0' ++ h

/-- `Base16Converter.unpack`: uppercase hex of the raw bytes. -/
def base16Unpack (resource : Resource) : List Char :=
  resource.data.flatMap byteHexUpper

def f32Pack (s e m : Nat) : List Nat :=
  [s * 128 + e / 2, (e % 2) * 128 + m / 65536, m / 256 % 256, m % 256]

/-- IEEE-754 binary32 encoding of an integer (round to nearest even),
as performed by `setFloat32` on an integral number.  Only its existence
and executability matter to the claims; no theorem depends on its value. -/
def f32EncodeInt (n : Int) : List Nat :=
  if n = 0 then [0, 0, 0, 0]
  else
    let s := if n < 0 then 1 else 0
    let a := n.natAbs
    let k := Nat.log2 a
    if k ≤ 23 then f32Pack s (k + 127) (a * 2 ^ (23 - k) - 2 ^ 23)
    else
      let sh := k - 23
      let q := a / 2 ^ sh
      let r := a % 2 ^ sh
      let q' := if r * 2 > 2 ^ sh ∨ (r * 2 = 2 ^ sh ∧ q % 2 = 1) then q + 1
        else q
      if q' = 2 ^ 24 then
        if k + 128 ≥ 255 then f32Pack s 255 0 else f32Pack s (k + 128) 0
      else if k + 127 ≥ 255 then f32Pack s 255 0
      else f32Pack s (k + 127) (q' - 2 ^ 23)

def f64Pack (s e m : Nat) : List Nat :=
  [s * 128 + e / 16, (e % 16) * 16 + m / 2 ^ 48, m / 2 ^ 40 % 256,
    m / 2 ^ 32 % 256, m / 2 ^ 24 % 256, m / 2 ^ 16 % 256, m / 2 ^ 8 % 256,
    m % 256]

/-- IEEE-754 binary64 encoding of an integer (`setFloat64`). -/
def f64EncodeInt (n : Int) : List Nat :=
  if n = 0 then [0, 0, 0, 0, 0, 0, 0, 0]
  else
    let s := if n < 0 then 1 else 0
    let a := n.natAbs
    let k := Nat.log2 a
    if k ≤ 52 then f64Pack s (k + 1023) (a * 2 ^ (52 - k) - 2 ^ 52)
    else
      let sh := k - 52
      let q := a / 2 ^ sh
      let r := a % 2 ^ sh
      let q' := if r * 2 > 2 ^ sh ∨ (r * 2 = 2 ^ sh ∧ q % 2 = 1) then q + 1
        else q
      if q' = 2 ^ 53 then
        if k + 1024 ≥ 2047 then f64Pack s 2047 0 else f64Pack s (k + 1024) 0
      else if k + 1023 ≥ 2047 then f64Pack s 2047 0
      else f64Pack s (k + 1023) (q' - 2 ^ 52)

def nanBytes32 : List Nat := [127, 192, 0, 0]

def nanBytes64 : List Nat := [127, 248, 0, 0, 0, 0, 0, 0]

def floatUnmodeledMsg : Err :=
  "float conversion not modelled (never reached by the claims)".toList

/-- The float `DataView` setters (`setFloat32`/`setFloat64`) applied to
`value`: carried float bytes are written back (modulo NaN canonicalisation,
which no claim observes), integers are IEEE-encoded, non-numeric strings
write NaN, `null` writes zero, BigInt throws `TypeError`.  Cross-width
float conversion and `ToPrimitive` of arrays/objects are not modelled. -/
def packFloatBytes (width : Nat) (v : JsValue) : Except Err (List Nat) :=
  match v with
  | .num n => .ok (if width = 4 then f32EncodeInt n else f64EncodeInt n)
  | .bool b =>
    .ok (if width = 4 then f32EncodeInt (if b then 1 else 0)
      else f64EncodeInt (if b then 1 else 0))
  | .f32 bs => if width = 4 then .ok bs else .error floatUnmodeledMsg
  | .f64 bs => if width = 8 then .ok bs else .error floatUnmodeledMsg
  | .str s =>
    if s ≠ [] && s.all isDigitChar then
      .ok (if width = 4 then f32EncodeInt (parseDigits s)
        else f64EncodeInt (parseDigits s))
    else .ok (if width = 4 then nanBytes32 else nanBytes64)
  | .big _ => .error typeErrBigIntMsg
  | .undefV => .ok (if width = 4 then nanBytes32 else nanBytes64)
  | .nullv =>
    .ok (if width = 4 then [0, 0, 0, 0] else [0, 0, 0, 0, 0, 0, 0, 0])
  | .arr _ => .error floatUnmodeledMsg
  | .obj _ => .error floatUnmodeledMsg

/-- `obj[fieldName]`: property lookup on an object, `undefined` on
anything else (and for a missing property). -/
def objGet (obj : JsValue) (name : List Char) : JsValue :=
  match obj with
  | .obj m => (jsMapGet m name).getD .undefV
  | _ => .undefV

/-- The `value` computed at the head of each `packRecord` loop iteration:
`undefined` unless `fieldIndex` is in range and the slot is non-null, in
which case it is `obj[fieldName]` (which may itself be `undefined`). -/
def lookupValue (obj : JsValue) (T : StructTemplate) (idx : Nat) : JsValue :=
  match T.fieldNames.get? idx with
  | some (some fieldName) => objGet obj fieldName
  | _ => .undefV

/-- `(value || '').toString()`.  Printing floats and arrays is not
modelled (no claim depends on the text); the cases below follow JS. -/
def jsToString : JsValue → List Char
  | .str s => s
  | .num n => intToString n
  | .big n => intToString n
  | .bool b => if b then "true".toList else "false".toList
  | .nullv => "null".toList
  | .undefV => "undefined".toList
  | .f32 _ => []
  | .f64 _ => []
  | .arr _ => []
  | .obj _ => "[object Object]".toList

namespace StructConverter

/-- The field-writing loop of `packRecord` (lines 104–194 of
`resconverters.ts`).  `fieldIndex` advances only past non-padding fields,
exactly as in the source (`if (field !== 'x') fieldIndex++`), and the
looked-up value defaults to `undefined` when the index is out of range or
the slot is `null`. -/
def packFields (obj : JsValue) (template : StructTemplate) :
    List (List Char) → Nat → Nat → List Nat → Except Err (List Nat)
  | [], _, _, buf => .ok buf
  | field :: rest, pos, fieldIndex, buf =>
    let value : JsValue := lookupValue obj template fieldIndex
    if field = ['B'] ∨ field = ['b'] then do
      let n ← toWriteInt (jsOr value (.num 0))
      let bf ← writeBytes buf pos (intToBytesBE n 1)
      packFields obj template rest (pos + 1) (fieldIndex + 1) bf
    else if field = ['H'] ∨ field = ['h'] then do
      let n ← toWriteInt (jsOr value (.num 0))
      let bf ← writeBytes buf pos (intToBytesBE n 2)
      packFields obj template rest (pos + 2) (fieldIndex + 1) bf
    else if field = ['I'] ∨ field = ['L'] ∨ field = ['i'] ∨ field = ['l'] then do
      let n ← toWriteInt (jsOr value (.num 0))
      let bf ← writeBytes buf pos (intToBytesBE n 4)
      packFields obj template rest (pos + 4) (fieldIndex + 1) bf
    else if field = ['f'] then do
      let bs ← packFloatBytes 4 (jsOr value (.num 0))
      let bf ← writeBytes buf pos bs
      packFields obj template rest (pos + 4) (fieldIndex + 1) bf
    else if field = ['Q'] ∨ field = ['q'] then do
      let n ← toBigIntJs (jsOr value (.num 0))
      let bf ← writeBytes buf pos (intToBytesBE n 8)
      packFields obj template rest (pos + 8) (fieldIndex + 1) bf
    else if field = ['d'] then do
      let bs ← packFloatBytes 8 (jsOr value (.num 0))
      let bf ← writeBytes buf pos bs
      packFields obj template rest (pos + 8) (fieldIndex + 1) bf
    else if field = ['x'] then do
      let bf ← writeBytes buf pos [0]
      packFields obj template rest (pos + 1) fieldIndex bf
    else if field = ['?'] then do
      let bf ← writeBytes buf pos [if jsTruthy value then 1 else 0]
      packFields obj template rest (pos + 1) (fieldIndex + 1) bf
    else if field.getLast? = some 's' then do
      let num ← StructTemplateParser.parseStringFieldLength field
      let str := jsToString (jsOr value (.str []))
      let encoded := utf8Encode str
      let toCopy := min encoded.length num
      let bf ← writeBytes buf pos (encoded.take toCopy)
      packFields obj template rest (pos + num) (fieldIndex + 1) bf
    else .error (StructTemplateParser.unknownFieldMsg field)

/-- `packRecord` (lines 104–194): a zeroed buffer of `recordLength` bytes
filled by the field loop. -/
def packRecord (obj : JsValue) (template : StructTemplate) :
    Except Err (List Nat) :=
  packFields obj template
    (StructTemplateParser.splitStructFormatFieldsStatic template.format) 0 0
    (List.replicate template.recordLength 0)

def expectedArrayMsg : Err := "Expected array for list struct".toList

/-- The per-record loop of `pack` in array mode: `packRecord` each element
and copy it at `i * recordLength`. -/
def packList (template : StructTemplate) :
    List JsValue → Nat → List Nat → Except Err (List Nat)
  | [], _, buf => .ok buf
  | x :: xs, i, buf => do
    let record ← packRecord x template
    let bf ← writeBytes buf (i * template.recordLength) record
    packList template xs (i + 1) bf

/-- `StructConverter.pack` (lines 87–102). -/
def pack (template : StructTemplate) (obj : JsValue) :
    Except Err (List Nat) :=
  if template.isList then
    match obj with
    | .arr xs =>
      packList template xs 0
        (List.replicate (xs.length * template.recordLength) 0)
    | _ => .error expectedArrayMsg
  else packRecord obj template

/-- `data.length % recordLength !== 0` under JS semantics: `x % 0` is NaN,
which compares unequal to 0, so a zero record length always trips the
check. -/
def jsModNonzero (len rl : Nat) : Bool := rl = 0 || len % rl ≠ 0

def lengthMismatchMessage (restype : List Char) (id : Int) (len rl : Nat) :
    Err :=
  "The length of ".toList ++ restype ++ [' '] ++ intToString id ++
    " (".toList ++ natToString len ++ " bytes) isn".toList ++ [apos] ++
    "t a multiple of the struct format for this resource type (".toList ++
    natToString rl ++ " bytes)".toList

def lengthNotEqualMessage (restype : List Char) (id : Int) (len rl : Nat) :
    Err :=
  "The length of ".toList ++ restype ++ [' '] ++ intToString id ++
    " (".toList ++ natToString len ++ " bytes) doesn".toList ++ [apos] ++
    "t match the struct format for this resource type (".toList ++
    natToString rl ++ " bytes)".toList

/-- The record loop of `unpack` in array mode (`numRecords` iterations,
record `i` at offset `i * recordLength`). -/
def unpackList (data : List Nat) (template : StructTemplate) :
    Nat → Nat → Except Err (List JsValue)
  | 0, _ => .ok []
  | k + 1, i => do
    let record ← StructTemplateParser.unpackRecord data
      (i * template.recordLength) template
    let tail ← unpackList data template k (i + 1)
    .ok (record :: tail)

/-- `StructConverter.unpack` (lines 52–85). -/
def unpack (template : StructTemplate) (resource : Resource) :
    Except Err JsValue :=
  if template.isList then
    if jsModNonzero resource.data.length template.recordLength then
      .error (lengthMismatchMessage resource.type resource.id
        resource.data.length template.recordLength)
    else do
      let numRecords := resource.data.length / template.recordLength
      let records ← unpackList resource.data template numRecords 0
      .ok (.arr records)
  else
    if resource.data.length ≠ template.recordLength then
      .error (lengthNotEqualMessage resource.type resource.id
        resource.data.length template.recordLength)
    else StructTemplateParser.unpackRecord resource.data 0 template

end StructConverter

/-- The converter variants the registry can hold (`ResourceConverter`):
the raw-hex fallback and struct-template-backed converters. -/
inductive ResourceConverter where
  | base16
  | structConv (template : StructTemplate)

/-- `converter.unpack(resource)` dispatch. -/
def converterUnpack : ResourceConverter → Resource → Except Err JsValue
  | .base16, r => .ok (.str (base16Unpack r))
  | .structConv t, r => StructConverter.unpack t r

/-- C2: the pack/unpack round-trip `pack(unpack(b)) = b` fails even on the
simplest template.  For the single-record template `"H"` (record length 2,
one unnamed field slot) and `b = [0x00, 0x05]`, `unpack` returns the bare
scalar 5 but `pack` writes 0: `packRecord` only reads a value when the
field's name slot is non-null, so the scalar is never consulted and the
output is `[0, 0] ≠ b`.  (The spec's §8 round-trip and §4.2 "encode (exact
inverse)" are the clear intent; the repository's own round-trip test
avoids struct packing and uses hex only.) -/
theorem C2_roundtrip_failure :
    ∃ T, StructTemplateParser.fromTemplateString ("H".toList) = .ok T ∧
      StructConverter.unpack T ⟨"Layr".toList, 1000, [0, 5], none, 0, 0, 0⟩ =
        .ok (.num 5) ∧
      StructConverter.pack T (.num 5) = .ok [0, 0] ∧
      [0, 0] ≠ [0, 5] :=
  ⟨⟨">H".toList, [none], false, 2⟩, rfl, rfl, rfl, by decide⟩

/-- C9 counterexample: a template with exactly one *named* field
(`"H:val"`) decodes to a one-entry mapping, not a bare scalar: `tagValues`
returns the scalar only when the single field-name slot is falsy
(`null`/empty), not when it is named. -/
theorem C9_counterexample :
    ∃ T, StructTemplateParser.fromTemplateString ("H:val".toList) = .ok T ∧
      StructTemplateParser.unpackRecord [0, 5] 0 T =
        .ok (.obj [("val".toList, .num 5)]) ∧
      JsValue.obj [("val".toList, .num 5)] ≠ .num 5 :=
  ⟨⟨">H".toList, [some "val".toList], false, 2⟩, rfl, rfl,
    fun h => JsValue.noConfusion h⟩

/-- C9 (amended): `unpackRecord` returns a bare scalar exactly for a
template with a single *unnamed* field slot: when `fieldNames` is one
falsy entry, the result is the first raw field value (`undefined` if the
format has no fields), not a mapping. -/
theorem C9_scalar_for_unnamed_single (data : List Nat) (offset : Nat)
    (T : StructTemplate) (n : Option (List Char))
    (hn : T.fieldNames = [n])
    (hfalsy : StructTemplateParser.jsFalsyName n = true)
    (values : List JsValue)
    (hv : StructTemplateParser.unpackFields data offset
      (StructTemplateParser.splitStructFormatFieldsStatic T.format) 0 =
      .ok values) :
    StructTemplateParser.unpackRecord data offset T =
      .ok (values.headD .undefV) := by
  rw [StructTemplateParser.unpackRecord, hv]
  show Except.ok (StructTemplateParser.tagValues values T) = _
  rw [StructTemplateParser.tagValues]
  rw [hn]
  dsimp only
  rw [hfalsy]
  simp

theorem C9_witness :
    StructTemplateParser.unpackRecord [0, 5] 0 ⟨">H".toList, [none], false, 2⟩ =
      .ok (([JsValue.num 5]).headD .undefV) :=
  C9_scalar_for_unnamed_single [0, 5] 0 _ none rfl rfl [JsValue.num 5] rfl

theorem takeWhile_ne_x_self (l : List (List Char))
    (h : ∀ f ∈ l, f ≠ ['x']) : l.takeWhile (· ≠ ['x']) = l := by
  induction l with
  | nil => rfl
  | cons a tl ih =>
    rw [List.takeWhile_cons, if_pos (by simpa using h a (by simp))]
    rw [ih (fun f hf => h f (by simp [hf]))]

theorem expandFieldNamesF_nil (fuel : Nat) (ns : List (List Char)) :
    StructTemplateParser.expandFieldNamesF fuel ns [] = [] := by
  rcases fuel with _ | fuel
  · rfl
  · rw [StructTemplateParser.expandFieldNamesF]

theorem expandFieldNamesF_cons_directive (fuel : Nat) (n : List Char)
    (ns : List (List Char)) (f : List Char) (fs : List (List Char))
    (hx : ¬ (f = ['x'])) (hbr : n ≠ [] ∧ '[' ∈ n ∧ ']' ∈ n) :
    StructTemplateParser.expandFieldNamesF (fuel + 1) (n :: ns) (f :: fs) =
      (StructTemplateParser.expandArrayFieldNames n (f :: fs)).map some ++
        StructTemplateParser.expandFieldNamesF fuel ns
          ((f :: fs).drop
            (StructTemplateParser.expandArrayFieldNames n (f :: fs)).length) := by
  rw [StructTemplateParser.expandFieldNamesF]
  dsimp only
  rw [if_neg hx, if_pos hbr]

/-- C8: the array-expansion directive `x`(backtick)`y[2]` placed over four
consecutive 4-byte primitive fields (codes `I/L/i/l/f`) expands to the
interleaved names `x_0, y_0, x_1, y_1` bound to those four fields in
order; concretely, compiling `"4i:x`(backtick)`y[2]"` yields exactly those
four field names over the four `i` fields. -/
theorem C8_array_directive_expansion :
    (∀ a b c d : List Char,
      (∀ f ∈ [a, b, c, d],
        f = ['I'] ∨ f = ['L'] ∨ f = ['i'] ∨ f = ['l'] ∨ f = ['f']) →
      StructTemplateParser.expandFieldNames
        [('x' :: btick :: "y[2]".toList)] [a, b, c, d] =
        [some "x_0".toList, some "y_0".toList,
          some "x_1".toList, some "y_1".toList]) ∧
    StructTemplateParser.fromTemplateString
        ("4i:x".toList ++ btick :: "y[2]".toList) =
      .ok ⟨">4i".toList,
        [some "x_0".toList, some "y_0".toList,
          some "x_1".toList, some "y_1".toList], false, 16⟩ := by
  constructor
  · intro a b c d hcodes
    have hne : ∀ f ∈ [a, b, c, d], f ≠ ['x'] := by
      intro f hf
      rcases hcodes f hf with rfl | rfl | rfl | rfl | rfl <;> decide
    have htake := takeWhile_ne_x_self [a, b, c, d] hne
    have hexp : StructTemplateParser.expandArrayFieldNames
        ('x' :: btick :: "y[2]".toList) [a, b, c, d] =
        ["x_0".toList, "y_0".toList, "x_1".toList, "y_1".toList] := by
      rw [StructTemplateParser.expandArrayFieldNames]
      rw [show StructTemplateParser.parseArrayDirective
        ('x' :: btick :: "y[2]".toList) =
        some ("x".toList, "y".toList, 2) from rfl]
      dsimp only
      rw [htake, show ([a, b, c, d] : List (List Char)).length = 4 from rfl]
      decide
    rw [StructTemplateParser.expandFieldNames]
    rw [show ([('x' :: btick :: "y[2]".toList)].length +
      ([a, b, c, d] : List (List Char)).length + 1 : Nat) = 5 + 1 from rfl]
    rw [expandFieldNamesF_cons_directive 5 _ _ _ _
      (hne a (by simp)) (by refine ⟨by decide, by decide, by decide⟩)]
    rw [hexp]
    rw [show (([a, b, c, d] : List (List Char)).drop
      (["x_0".toList, "y_0".toList, "x_1".toList, "y_1".toList]).length) =
      ([] : List (List Char)) from rfl]
    rw [expandFieldNamesF_nil]
    rfl
  · rfl

theorem C8_witness :
    StructTemplateParser.expandFieldNames
      [('x' :: btick :: "y[2]".toList)] [['i'], ['i'], ['i'], ['i']] =
      [some "x_0".toList, some "y_0".toList,
        some "x_1".toList, some "y_1".toList] :=
  C8_array_directive_expansion.1 ['i'] ['i'] ['i'] ['i'] (by decide)

theorem except_bind_ok {α β : Type} {e : Except Err α} {f : α → Except Err β}
    {b : β} : (e >>= f) = .ok b ↔ ∃ a, e = .ok a ∧ f a = .ok b := by
  cases e with
  | error err => simp [Bind.bind, Except.bind]
  | ok a => simp [Bind.bind, Except.bind]

theorem writeBytes_length {buf : List Nat} {pos : Nat} {bs out : List Nat}
    (h : writeBytes buf pos bs = .ok out) : out.length = buf.length := by
  rw [writeBytes] at h
  split_ifs at h with hb
  simp at h
  subst h
  simp [List.length_take, List.length_drop]
  omega

theorem packFields_length (obj : JsValue) (T : StructTemplate) :
    ∀ (fields : List (List Char)) (pos fieldIndex : Nat)
      (buf out : List Nat),
      StructConverter.packFields obj T fields pos fieldIndex buf = .ok out →
      out.length = buf.length := by
  intro fields
  induction fields with
  | nil =>
    intro pos fi buf out h
    simp [StructConverter.packFields] at h
    rw [h]
  | cons f rest ih =>
    intro pos fi buf out h
    rw [StructConverter.packFields] at h
    split_ifs at h <;>
      first
      | (obtain ⟨v1, hv1, h⟩ := except_bind_ok.mp h
         obtain ⟨v2, hv2, h⟩ := except_bind_ok.mp h
         exact (ih _ _ _ _ h).trans (writeBytes_length hv2))
      | (obtain ⟨v1, hv1, h⟩ := except_bind_ok.mp h
         exact (ih _ _ _ _ h).trans (writeBytes_length hv1))
      | simp at h

theorem packRecord_length {obj : JsValue} {T : StructTemplate}
    {out : List Nat} (h : StructConverter.packRecord obj T = .ok out) :
    out.length = T.recordLength := by
  rw [StructConverter.packRecord] at h
  have := packFields_length obj T _ _ _ _ _ h
  simpa using this

theorem packList_length (T : StructTemplate) :
    ∀ (xs : List JsValue) (i : Nat) (buf out : List Nat),
      StructConverter.packList T xs i buf = .ok out →
      out.length = buf.length := by
  intro xs
  induction xs with
  | nil =>
    intro i buf out h
    simp [StructConverter.packList] at h
    rw [h]
  | cons x tl ih =>
    intro i buf out h
    rw [StructConverter.packList] at h
    obtain ⟨v1, hv1, h⟩ := except_bind_ok.mp h
    obtain ⟨v2, hv2, h⟩ := except_bind_ok.mp h
    exact (ih _ _ _ h).trans (writeBytes_length hv2)

/-- C10 (amended): whenever `StructConverter.pack` completes without
throwing, its output length is exactly `recordLength` in single mode and
`n * recordLength` for an `n`-element array in array mode — independent of
the input values.  (As stated over *all* inputs the claim fails: `pack` can
throw, e.g. a `BigInt` conversion error; see the counterexample.) -/
theorem C10_pack_output_length (T : StructTemplate) (obj : JsValue)
    (out : List Nat) (h : StructConverter.pack T obj = .ok out) :
    (T.isList = false → out.length = T.recordLength) ∧
    (T.isList = true →
      ∃ xs, obj = .arr xs ∧ out.length = xs.length * T.recordLength) := by
  rw [StructConverter.pack.eq_def] at h
  by_cases hl : T.isList = true
  · rw [if_pos hl] at h
    refine ⟨fun hc => by rw [hc] at hl; simp at hl, fun _ => ?_⟩
    cases obj <;>
      first
      | (refine ⟨_, rfl, ?_⟩
         have := packList_length T _ _ _ _ h
         simpa using this)
      | simp at h
  · rw [if_neg hl] at h
    exact ⟨fun _ => packRecord_length h, fun hc => absurd hc hl⟩

/-- C10 counterexample: for the compiled template `"Q:v"` and the mapping
`{v: "abc"}`, `pack` throws (`BigInt('abc')` is a `SyntaxError`), so pack
does not return a byte array for every input mapping. -/
theorem C10_counterexample :
    ∃ T, StructTemplateParser.fromTemplateString ("Q:v".toList) = .ok T ∧
      StructConverter.pack T (.obj [("v".toList, .str "abc".toList)]) =
        .error bigSyntaxErrMsg :=
  ⟨⟨">Q".toList, [some "v".toList], false, 8⟩, rfl, rfl⟩

theorem C10_witness :
    StructConverter.pack ⟨">Q".toList, [some "v".toList], false, 8⟩
        (.obj [("v".toList, .num 5)]) = .ok [0, 0, 0, 0, 0, 0, 0, 5] ∧
      ([0, 0, 0, 0, 0, 0, 0, 5] : List Nat).length = 8 :=
  ⟨by rfl, (C10_pack_output_length ⟨">Q".toList, [some "v".toList], false, 8⟩
    (.obj [("v".toList, .num 5)]) [0, 0, 0, 0, 0, 0, 0, 5] (by rfl)).1 rfl⟩

/-! ## C7: defaults for absent fields in `packRecord` -/

/-- `e` is an `ok` result. -/
def isOkE {α : Type} : Except Err α → Bool
  | .ok _ => true
  | .error _ => false

/-- The field codes `packRecord`'s `switch` (lines 117–189) accepts: the
fixed-width primitive codes, padding, booleans, and `<digits>s` strings. -/
def packCode (field : List Char) : Prop :=
  field = ['B'] ∨ field = ['b'] ∨ field = ['H'] ∨ field = ['h'] ∨
  field = ['I'] ∨ field = ['i'] ∨ field = ['L'] ∨ field = ['l'] ∨
  field = ['f'] ∨ field = ['Q'] ∨ field = ['q'] ∨ field = ['d'] ∨
  field = ['x'] ∨ field = ['?'] ∨
  (field.getLast? = some 's' ∧ field.dropLast ≠ [] ∧
    field.dropLast.all isDigitChar = true)

instance packCodeDec (field : List Char) : Decidable (packCode field) := by
  unfold packCode
  infer_instance

/-- The conversion `packRecord`'s arm for `field` applies to a looked-up
value succeeds on `v` (an absent field looks up as `undefined`, which every
arm converts: `undefined || 0` is `0`). -/
def packableValue (field : List Char) (v : JsValue) : Prop :=
  ((field = ['B'] ∨ field = ['b'] ∨ field = ['H'] ∨ field = ['h'] ∨
      field = ['I'] ∨ field = ['i'] ∨ field = ['L'] ∨ field = ['l']) →
    isOkE (toWriteInt (jsOr v (.num 0))) = true) ∧
  ((field = ['Q'] ∨ field = ['q']) →
    isOkE (toBigIntJs (jsOr v (.num 0))) = true) ∧
  (field = ['f'] →
    ∃ bs, packFloatBytes 4 (jsOr v (.num 0)) = .ok bs ∧ bs.length = 4) ∧
  (field = ['d'] →
    ∃ bs, packFloatBytes 8 (jsOr v (.num 0)) = .ok bs ∧ bs.length = 8)

theorem isOkE_ex {α : Type} {e : Except Err α} (h : isOkE e = true) :
    ∃ a, e = .ok a := by
  cases e with
  | error err => simp [isOkE] at h
  | ok a => exact ⟨a, rfl⟩

theorem intToBytesBE_length (n : Int) (w : Nat) :
    (intToBytesBE n w).length = w := by
  induction w generalizing n with
  | zero => rfl
  | succ k ih => rw [intToBytesBE]; simp [ih]

theorem writeBytes_ok {buf : List Nat} {pos : Nat} {bs : List Nat}
    (h : pos + bs.length ≤ buf.length) :
    writeBytes buf pos bs =
      .ok (buf.take pos ++ bs ++ buf.drop (pos + bs.length)) := by
  rw [writeBytes, if_pos h]

theorem writeBytes_nil {buf : List Nat} {pos : Nat} (h : pos ≤ buf.length) :
    writeBytes buf pos [] = .ok buf := by
  rw [writeBytes, if_pos (by simpa using h)]
  simp

theorem writeBytes_zeros {L pos w : Nat} (h : pos + w ≤ L) :
    writeBytes (List.replicate L 0) pos (List.replicate w 0) =
      .ok (List.replicate L 0) := by
  rw [writeBytes, if_pos (by simp; omega)]
  congr 1
  rw [List.take_replicate, List.drop_replicate, List.length_replicate]
  rw [← List.replicate_add, ← List.replicate_add]
  congr 1
  omega

/-- On the empty mapping every lookup is `undefined`. -/
theorem lookupValue_obj_nil (T : StructTemplate) (fi : Nat) :
    lookupValue (.obj []) T fi = .undefV := by
  rw [lookupValue]
  rcases T.fieldNames.get? fi with _ | ⟨_ | nm⟩ <;> rfl

/-- The field loop of `packRecord` never throws when every field is a code
its `switch` handles, the widths sum within the buffer, and every value it
can look up converts. -/
theorem packFields_ok (obj : JsValue) (T : StructTemplate) :
    ∀ (fields : List (List Char)) (pos fi : Nat) (buf : List Nat) (W : Nat),
      StructTemplateParser.calculateRecordLength fields = .ok W →
      pos + W ≤ buf.length →
      (∀ f ∈ fields, packCode f) →
      (∀ f ∈ fields, ∀ idx, packableValue f (lookupValue obj T idx)) →
      ∃ out, StructConverter.packFields obj T fields pos fi buf = .ok out := by
  intro fields
  induction fields with
  | nil => intro pos fi buf W _ _ _ _; exact ⟨buf, rfl⟩
  | cons f rest ih =>
    intro pos fi buf W hcalc hlen hcodes hpack
    rw [StructTemplateParser.calculateRecordLength] at hcalc
    obtain ⟨w, hw, hcalc⟩ := except_bind_ok.mp hcalc
    obtain ⟨W2, hW2, hsum⟩ := except_bind_ok.mp hcalc
    injection hsum with hsum
    have hrc : ∀ g ∈ rest, packCode g :=
      fun g hg => hcodes g (List.mem_cons_of_mem _ hg)
    have hrp : ∀ g ∈ rest, ∀ idx, packableValue g (lookupValue obj T idx) :=
      fun g hg => hpack g (List.mem_cons_of_mem _ hg)
    have hpf := hpack f (List.mem_cons_self _ _) fi
    simp only [StructConverter.packFields]
    by_cases h1 : f = ['B'] ∨ f = ['b']
    · rw [if_pos h1]
      have hw1 : w = 1 := by
        rcases h1 with rfl | rfl <;> (injection hw with hww; omega)
      obtain ⟨n, hn⟩ := isOkE_ex (hpf.1 (by rcases h1 with rfl | rfl <;> simp))
      have hwb := @writeBytes_ok buf pos (intToBytesBE n 1)
        (by rw [intToBytesBE_length]; omega)
      obtain ⟨out, hout⟩ := ih (pos + 1) (fi + 1) _ W2 hW2
        (by rw [writeBytes_length hwb]; omega) hrc hrp
      exact ⟨out, except_bind_ok.mpr ⟨n, hn,
        except_bind_ok.mpr ⟨_, hwb, hout⟩⟩⟩
    · rw [if_neg h1]
      by_cases h2 : f = ['H'] ∨ f = ['h']
      · rw [if_pos h2]
        have hw1 : w = 2 := by
          rcases h2 with rfl | rfl <;> (injection hw with hww; omega)
        obtain ⟨n, hn⟩ :=
          isOkE_ex (hpf.1 (by rcases h2 with rfl | rfl <;> simp))
        have hwb := @writeBytes_ok buf pos (intToBytesBE n 2)
          (by rw [intToBytesBE_length]; omega)
        obtain ⟨out, hout⟩ := ih (pos + 2) (fi + 1) _ W2 hW2
          (by rw [writeBytes_length hwb]; omega) hrc hrp
        exact ⟨out, except_bind_ok.mpr ⟨n, hn,
          except_bind_ok.mpr ⟨_, hwb, hout⟩⟩⟩
      · rw [if_neg h2]
        by_cases h3 : f = ['I'] ∨ f = ['L'] ∨ f = ['i'] ∨ f = ['l']
        · rw [if_pos h3]
          have hw1 : w = 4 := by
            rcases h3 with rfl | rfl | rfl | rfl <;>
              (injection hw with hww; omega)
          obtain ⟨n, hn⟩ := isOkE_ex
            (hpf.1 (by rcases h3 with rfl | rfl | rfl | rfl <;> simp))
          have hwb := @writeBytes_ok buf pos (intToBytesBE n 4)
            (by rw [intToBytesBE_length]; omega)
          obtain ⟨out, hout⟩ := ih (pos + 4) (fi + 1) _ W2 hW2
            (by rw [writeBytes_length hwb]; omega) hrc hrp
          exact ⟨out, except_bind_ok.mpr ⟨n, hn,
            except_bind_ok.mpr ⟨_, hwb, hout⟩⟩⟩
        · rw [if_neg h3]
          by_cases h4 : f = ['f']
          · rw [if_pos h4]
            have hw1 : w = 4 := by subst h4; injection hw with hww; omega
            obtain ⟨bs, hbs, hbl⟩ := hpf.2.2.1 h4
            have hwb := @writeBytes_ok buf pos bs (by rw [hbl]; omega)
            obtain ⟨out, hout⟩ := ih (pos + 4) (fi + 1) _ W2 hW2
              (by rw [writeBytes_length hwb]; omega) hrc hrp
            exact ⟨out, except_bind_ok.mpr ⟨bs, hbs,
              except_bind_ok.mpr ⟨_, hwb, hout⟩⟩⟩
          · rw [if_neg h4]
            by_cases h5 : f = ['Q'] ∨ f = ['q']
            · rw [if_pos h5]
              have hw1 : w = 8 := by
                rcases h5 with rfl | rfl <;> (injection hw with hww; omega)
              obtain ⟨n, hn⟩ :=
                isOkE_ex (hpf.2.1 (by rcases h5 with rfl | rfl <;> simp))
              have hwb := @writeBytes_ok buf pos (intToBytesBE n 8)
                (by rw [intToBytesBE_length]; omega)
              obtain ⟨out, hout⟩ := ih (pos + 8) (fi + 1) _ W2 hW2
                (by rw [writeBytes_length hwb]; omega) hrc hrp
              exact ⟨out, except_bind_ok.mpr ⟨n, hn,
                except_bind_ok.mpr ⟨_, hwb, hout⟩⟩⟩
            · rw [if_neg h5]
              by_cases h6 : f = ['d']
              · rw [if_pos h6]
                have hw1 : w = 8 := by
                  subst h6; injection hw with hww; omega
                obtain ⟨bs, hbs, hbl⟩ := hpf.2.2.2 h6
                have hwb := @writeBytes_ok buf pos bs
                  (by rw [hbl]; omega)
                obtain ⟨out, hout⟩ := ih (pos + 8) (fi + 1) _ W2 hW2
                  (by rw [writeBytes_length hwb]; omega) hrc hrp
                exact ⟨out, except_bind_ok.mpr ⟨bs, hbs,
                  except_bind_ok.mpr ⟨_, hwb, hout⟩⟩⟩
              · rw [if_neg h6]
                by_cases h7 : f = ['x']
                · rw [if_pos h7]
                  have hw1 : w = 1 := by
                    subst h7; injection hw with hww; omega
                  have hwb := @writeBytes_ok buf pos [0] (by simp; omega)
                  obtain ⟨out, hout⟩ := ih (pos + 1) fi _ W2 hW2
                    (by rw [writeBytes_length hwb]; omega) hrc hrp
                  exact ⟨out, except_bind_ok.mpr ⟨_, hwb, hout⟩⟩
                · rw [if_neg h7]
                  by_cases h8 : f = ['?']
                  · rw [if_pos h8]
                    have hw1 : w = 1 := by
                      subst h8; injection hw with hww; omega
                    have hwb := @writeBytes_ok buf pos
                      [if jsTruthy (lookupValue obj T fi) then 1 else 0]
                      (by simp; omega)
                    obtain ⟨out, hout⟩ := ih (pos + 1) (fi + 1) _ W2 hW2
                      (by rw [writeBytes_length hwb]; omega) hrc hrp
                    exact ⟨out, except_bind_ok.mpr ⟨_, hwb, hout⟩⟩
                  · rw [if_neg h8]
                    by_cases h9 : f.getLast? = some 's'
                    · rw [if_pos h9]
                      rw [StructTemplateParser.fieldWidth] at hw
                      rw [if_neg (by
                        rintro (rfl | rfl | rfl | rfl | rfl)
                        · exact h1 (Or.inl rfl)
                        · exact h1 (Or.inr rfl)
                        · exact absurd h9 (by decide)
                        · exact h7 rfl
                        · exact h8 rfl)] at hw
                      rw [if_neg h2] at hw
                      rw [if_neg (by
                        rintro (rfl | rfl | rfl | rfl | rfl)
                        · exact h3 (Or.inl rfl)
                        · exact h3 (Or.inr (Or.inr (Or.inl rfl)))
                        · exact h3 (Or.inr (Or.inl rfl))
                        · exact h3 (Or.inr (Or.inr (Or.inr rfl)))
                        · exact h4 rfl)] at hw
                      rw [if_neg (by
                        rintro (rfl | rfl | rfl)
                        · exact h5 (Or.inl rfl)
                        · exact h5 (Or.inr rfl)
                        · exact h6 rfl)] at hw
                      rw [if_pos h9] at hw
                      have hwb := @writeBytes_ok buf pos
                        ((utf8Encode (jsToString
                          (jsOr (lookupValue obj T fi) (.str [])))).take
                          (min (utf8Encode (jsToString
                            (jsOr (lookupValue obj T fi)
                              (.str [])))).length w))
                        (by simp only [List.length_take]; omega)
                      obtain ⟨out, hout⟩ := ih (pos + w) (fi + 1) _ W2 hW2
                        (by rw [writeBytes_length hwb]; omega) hrc hrp
                      exact ⟨out, except_bind_ok.mpr ⟨w, hw,
                        except_bind_ok.mpr ⟨_, hwb, hout⟩⟩⟩
                    · rw [if_neg h9]
                      exfalso
                      rcases hcodes f (List.mem_cons_self _ _) with
                        hf | hf | hf | hf | hf | hf | hf | hf | hf | hf |
                        hf | hf | hf | hf | hf <;> simp_all

/-- With the empty mapping every looked-up value is `undefined`, every arm
of `packRecord`'s loop converts it to its zero (`undefined || 0` is `0`,
`undefined` is falsy, `(undefined || '').toString()` is empty) and writes
zero bytes, so the zeroed buffer comes back unchanged. -/
theorem packFields_absent_zeros (T : StructTemplate) :
    ∀ (fields : List (List Char)) (pos fi L W : Nat),
      StructTemplateParser.calculateRecordLength fields = .ok W →
      pos + W ≤ L →
      (∀ f ∈ fields, packCode f) →
      StructConverter.packFields (.obj []) T fields pos fi
        (List.replicate L 0) = .ok (List.replicate L 0) := by
  intro fields
  induction fields with
  | nil => intro pos fi L W _ _ _; rfl
  | cons f rest ih =>
    intro pos fi L W hcalc hlen hcodes
    rw [StructTemplateParser.calculateRecordLength] at hcalc
    obtain ⟨w, hw, hcalc⟩ := except_bind_ok.mp hcalc
    obtain ⟨W2, hW2, hsum⟩ := except_bind_ok.mp hcalc
    injection hsum with hsum
    have hrc : ∀ g ∈ rest, packCode g :=
      fun g hg => hcodes g (List.mem_cons_of_mem _ hg)
    simp only [StructConverter.packFields]
    rw [lookupValue_obj_nil]
    by_cases h1 : f = ['B'] ∨ f = ['b']
    · rw [if_pos h1]
      have hw1 : w = 1 := by
        rcases h1 with rfl | rfl <;> (injection hw with hww; omega)
      refine except_bind_ok.mpr ⟨0, rfl, ?_⟩
      refine except_bind_ok.mpr ⟨List.replicate L 0, ?_, ?_⟩
      · rw [show intToBytesBE 0 1 = List.replicate 1 0 from rfl]
        exact writeBytes_zeros (by omega)
      · exact ih (pos + 1) (fi + 1) L W2 hW2 (by omega) hrc
    · rw [if_neg h1]
      by_cases h2 : f = ['H'] ∨ f = ['h']
      · rw [if_pos h2]
        have hw1 : w = 2 := by
          rcases h2 with rfl | rfl <;> (injection hw with hww; omega)
        refine except_bind_ok.mpr ⟨0, rfl, ?_⟩
        refine except_bind_ok.mpr ⟨List.replicate L 0, ?_, ?_⟩
        · rw [show intToBytesBE 0 2 = List.replicate 2 0 from rfl]
          exact writeBytes_zeros (by omega)
        · exact ih (pos + 2) (fi + 1) L W2 hW2 (by omega) hrc
      · rw [if_neg h2]
        by_cases h3 : f = ['I'] ∨ f = ['L'] ∨ f = ['i'] ∨ f = ['l']
        · rw [if_pos h3]
          have hw1 : w = 4 := by
            rcases h3 with rfl | rfl | rfl | rfl <;>
              (injection hw with hww; omega)
          refine except_bind_ok.mpr ⟨0, rfl, ?_⟩
          refine except_bind_ok.mpr ⟨List.replicate L 0, ?_, ?_⟩
          · rw [show intToBytesBE 0 4 = List.replicate 4 0 from rfl]
            exact writeBytes_zeros (by omega)
          · exact ih (pos + 4) (fi + 1) L W2 hW2 (by omega) hrc
        · rw [if_neg h3]
          by_cases h4 : f = ['f']
          · rw [if_pos h4]
            have hw1 : w = 4 := by subst h4; injection hw with hww; omega
            refine except_bind_ok.mpr ⟨List.replicate 4 0, rfl, ?_⟩
            refine except_bind_ok.mpr ⟨List.replicate L 0, ?_, ?_⟩
            · exact writeBytes_zeros (by omega)
            · exact ih (pos + 4) (fi + 1) L W2 hW2 (by omega) hrc
          · rw [if_neg h4]
            by_cases h5 : f = ['Q'] ∨ f = ['q']
            · rw [if_pos h5]
              have hw1 : w = 8 := by
                rcases h5 with rfl | rfl <;> (injection hw with hww; omega)
              refine except_bind_ok.mpr ⟨0, rfl, ?_⟩
              refine except_bind_ok.mpr ⟨List.replicate L 0, ?_, ?_⟩
              · rw [show intToBytesBE 0 8 = List.replicate 8 0 from rfl]
                exact writeBytes_zeros (by omega)
              · exact ih (pos + 8) (fi + 1) L W2 hW2 (by omega) hrc
            · rw [if_neg h5]
              by_cases h6 : f = ['d']
              · rw [if_pos h6]
                have hw1 : w = 8 := by
                  subst h6; injection hw with hww; omega
                refine except_bind_ok.mpr ⟨List.replicate 8 0, rfl, ?_⟩
                refine except_bind_ok.mpr ⟨List.replicate L 0, ?_, ?_⟩
                · exact writeBytes_zeros (by omega)
                · exact ih (pos + 8) (fi + 1) L W2 hW2 (by omega) hrc
              · rw [if_neg h6]
                by_cases h7 : f = ['x']
                · rw [if_pos h7]
                  have hw1 : w = 1 := by
                    subst h7; injection hw with hww; omega
                  refine except_bind_ok.mpr ⟨List.replicate L 0, ?_, ?_⟩
                  · rw [show ([0] : List Nat) = List.replicate 1 0 from rfl]
                    exact writeBytes_zeros (by omega)
                  · exact ih (pos + 1) fi L W2 hW2 (by omega) hrc
                · rw [if_neg h7]
                  by_cases h8 : f = ['?']
                  · rw [if_pos h8]
                    have hw1 : w = 1 := by
                      subst h8; injection hw with hww; omega
                    refine except_bind_ok.mpr ⟨List.replicate L 0, ?_, ?_⟩
                    · rw [show ([if jsTruthy JsValue.undefV then 1 else 0] :
                        List Nat) = List.replicate 1 0 from rfl]
                      exact writeBytes_zeros (by omega)
                    · exact ih (pos + 1) (fi + 1) L W2 hW2 (by omega) hrc
                  · rw [if_neg h8]
                    by_cases h9 : f.getLast? = some 's'
                    · rw [if_pos h9]
                      rw [StructTemplateParser.fieldWidth] at hw
                      rw [if_neg (by
                        rintro (rfl | rfl | rfl | rfl | rfl)
                        · exact h1 (Or.inl rfl)
                        · exact h1 (Or.inr rfl)
                        · exact absurd h9 (by decide)
                        · exact h7 rfl
                        · exact h8 rfl)] at hw
                      rw [if_neg h2] at hw
                      rw [if_neg (by
                        rintro (rfl | rfl | rfl | rfl | rfl)
                        · exact h3 (Or.inl rfl)
                        · exact h3 (Or.inr (Or.inr (Or.inl rfl)))
                        · exact h3 (Or.inr (Or.inl rfl))
                        · exact h3 (Or.inr (Or.inr (Or.inr rfl)))
                        · exact h4 rfl)] at hw
                      rw [if_neg (by
                        rintro (rfl | rfl | rfl)
                        · exact h5 (Or.inl rfl)
                        · exact h5 (Or.inr rfl)
                        · exact h6 rfl)] at hw
                      rw [if_pos h9] at hw
                      refine except_bind_ok.mpr ⟨w, hw, ?_⟩
                      refine except_bind_ok.mpr ⟨List.replicate L 0, ?_, ?_⟩
                      · have hE : utf8Encode (jsToString
                            (jsOr JsValue.undefV (.str []))) =
                            ([] : List Nat) := rfl
                        rw [hE, List.take_nil]
                        exact writeBytes_nil
                          (by simp only [List.length_replicate]; omega)
                      · exact ih (pos + w) (fi + 1) L W2 hW2 (by omega) hrc
                    · rw [if_neg h9]
                      exfalso
                      rcases hcodes f (List.mem_cons_self _ _) with
                        hf | hf | hf | hf | hf | hf | hf | hf | hf | hf |
                        hf | hf | hf | hf | hf <;> simp_all

/-- C7 (amended): `packRecord` treats an absent named field as a
code-appropriate zero rather than an error — for any template whose fields
are codes the packing `switch` handles and whose `recordLength` is their
width sum: (1) whenever every value the loop can look up converts (which is
vacuously true of absent fields, since `undefined || 0` is `0`), the record
packs without throwing; and (2) the fully-absent mapping `{}` packs to
exactly `recordLength` zero bytes — zero for numeric fields, `false` (byte
0) for booleans, empty content for strings, zero padding.  (As stated over
*every* input mapping the claim fails: a *present* field whose value does
not convert, e.g. a non-numeric string under a `Q` field, throws; see the
counterexample.) -/
theorem C7_absent_fields_default (T : StructTemplate) (obj : JsValue)
    (hcodes : ∀ f ∈ StructTemplateParser.splitStructFormatFieldsStatic
      T.format, packCode f)
    (hcalc : StructTemplateParser.calculateRecordLength
      (StructTemplateParser.splitStructFormatFieldsStatic T.format) =
      .ok T.recordLength) :
    ((∀ f ∈ StructTemplateParser.splitStructFormatFieldsStatic T.format,
        ∀ idx, packableValue f (lookupValue obj T idx)) →
      ∃ out, StructConverter.packRecord obj T = .ok out) ∧
    StructConverter.packRecord (.obj []) T =
      .ok (List.replicate T.recordLength 0) := by
  constructor
  · intro hpack
    obtain ⟨out, hout⟩ := packFields_ok obj T _ 0 0
      (List.replicate T.recordLength 0) T.recordLength hcalc (by simp)
      hcodes hpack
    exact ⟨out, hout⟩
  · exact packFields_absent_zeros T _ 0 0 T.recordLength T.recordLength
      hcalc (by simp) hcodes

/-- C7 counterexample: for the compiled template `"Q H:a,b"` and the
mapping `{a: "z"}` — which is missing the named field `b` — `packRecord`
throws (`BigInt('z')` is a `SyntaxError` on the *present* field `a`), so
packing a mapping with absent named fields is not error-free in general. -/
theorem C7_counterexample :
    ∃ T, StructTemplateParser.fromTemplateString ("Q H:a,b".toList) =
        .ok T ∧
      StructConverter.packRecord (.obj [("a".toList, .str "z".toList)]) T =
        .error bigSyntaxErrMsg :=
  ⟨⟨">Q H".toList, [some "a".toList, some "b".toList], false, 10⟩,
    rfl, rfl⟩

theorem C7_witness :
    StructConverter.packRecord (.obj [])
      ⟨">Hx4s".toList, [some "a".toList, none, some "b".toList],
        false, 7⟩ = .ok (List.replicate 7 0) :=
  (C7_absent_fields_default
    ⟨">Hx4s".toList, [some "a".toList, none, some "b".toList], false, 7⟩
    (.obj []) (by decide) (by decide)).2

/-! ## JSON output (`jsonio.ts`)

`resourceForkToJson` builds a JS object (`jsonBlob`) and returns
`JSON.stringify(jsonBlob, null, tab)`.  The blob is modelled structurally
(nested association lists in map-iteration order); text serialization adds
nothing the claims observe. -/

/-- `ConvertedResource` (`types.ts`): the per-resource wrapper object.
Field order follows the assignments in `resourceForkToJson`. -/
structure ConvertedResource where
  name : Option (List Char)
  flags : Option Nat
  junk : Option Nat
  order : Option Nat
  obj : Option JsValue
  data : Option JsValue
  conversionError : Option (List Char)

/-- `String(convertException)`.  Every exception thrown inside
`converter.unpack` is built by `new Error(message)` (the two length
checks and the unknown-field check), and `String` of a plain `Error`
prepends `Error: ` to its message. -/
def jsErrorString (msg : Err) : List Char := "Error: ".toList ++ msg

/-- The per-resource body of `resourceForkToJson` (lines 50–84): optional
metadata fields (JS truthiness: empty name, zero flags/junk and the
`0xFFFFFFFF` order sentinel are omitted), then `converter.unpack` inside
`try`; on success a `Base16Converter` result goes to `.data` and a struct
result to `.obj`; on an exception the message is recorded in
`.conversionError` and the hex fallback in `.data`. -/
def convertResource (converters : List (List Char × ResourceConverter))
    (typeName : List Char) (resource : Resource) : ConvertedResource :=
  let nameF := match resource.name with
    | some n => if n = [] then none else some n
    | none => none
  let flagsF := if resource.flags ≠ 0 then some resource.flags else none
  let junkF := if resource.junk ≠ 0 then some resource.junk else none
  let orderF := if resource.order ≠ 0 ∧ resource.order ≠ 4294967295 then
    some resource.order else none
  let converter := (jsMapGet converters typeName).getD .base16
  match converterUnpack converter resource with
  | .ok v =>
    (match converter with
    | .base16 => ⟨nameF, flagsF, junkF, orderF, none, some v, none⟩
    | .structConv _ => ⟨nameF, flagsF, junkF, orderF, some v, none, none⟩)
  | .error msg =>
    ⟨nameF, flagsF, junkF, orderF, none,
      some (.str (base16Unpack resource)), some (jsErrorString msg)⟩

/-- `typeName.padEnd(4)`. -/
def padEnd4 (s : List Char) : List Char :=
  s ++ List.replicate (4 - s.length) ' '

/-- The include/exclude filter of `resourceForkToJson` (lines 29–41):
`typeBytes.every((byte, i) => byte === included[i])` holds exactly when
`included` starts with `typeBytes` (an out-of-range `included[i]` is
`undefined` and fails the comparison). -/
def typeIncluded (includeTypes excludeTypes : List (List Nat))
    (typeName : List Char) : Bool :=
  let typeBytes := utf8Encode (padEnd4 typeName)
  (includeTypes.length = 0 ||
    includeTypes.any fun inc => inc.take typeBytes.length = typeBytes) &&
  !(excludeTypes.any fun exc => exc.take typeBytes.length = typeBytes)

/-- `resourceForkToJson` with the default `metadata = {}` (truthy, so
`_metadata` is always emitted) and `quiet` logging dropped: the metadata
triple `junk1`/`junk2`/`file_attributes`, and per type passing the filters
one entry holding the converted resources keyed by `resId.toString()`. -/
def resourceForkToJson (fork : ResourceFork)
    (includeTypes excludeTypes : List (List Nat))
    (converters : List (List Char × ResourceConverter)) :
    (Nat × Nat × Nat) ×
      List (List Char × List (List Char × ConvertedResource)) :=
  ((fork.junkNextresmap, fork.junkFilerefnum, fork.fileAttributes),
    (fork.resources.filter fun tr =>
        typeIncluded includeTypes excludeTypes tr.1).map
      fun tr => (tr.1, tr.2.map
        fun ir => (intToString ir.1, convertResource converters tr.1 ir.2)))

/-- C6: for an array-mode template and a resource whose byte length is not
a multiple of the record length, `StructConverter.unpack` throws the exact
message naming the resource's type, id, byte length and record length;
`resourceForkToJson` catches it, attaching `conversionError` and the hex
fallback `data` (and no `obj`) to that resource's entry; and the whole
blob is the independent per-resource conversion of every resource of the
fork (with empty filters), so every other resource is still converted. -/
theorem C6_length_mismatch_diagnostic
    (converters : List (List Char × ResourceConverter))
    (t : List Char) (T : StructTemplate) (r : Resource)
    (hconv : jsMapGet converters t = some (.structConv T))
    (hlist : T.isList = true)
    (hmod : StructConverter.jsModNonzero r.data.length T.recordLength = true) :
    StructConverter.unpack T r = .error
      (StructConverter.lengthMismatchMessage r.type r.id r.data.length
        T.recordLength) ∧
    convertResource converters t r =
      ⟨(match r.name with
        | some n => if n = [] then none else some n
        | none => none),
       (if r.flags ≠ 0 then some r.flags else none),
       (if r.junk ≠ 0 then some r.junk else none),
       (if r.order ≠ 0 ∧ r.order ≠ 4294967295 then some r.order else none),
       none, some (.str (base16Unpack r)),
       some (jsErrorString (StructConverter.lengthMismatchMessage r.type
         r.id r.data.length T.recordLength))⟩ ∧
    ∀ F : ResourceFork,
      (resourceForkToJson F [] [] converters).2 =
        F.resources.map fun tr => (tr.1, tr.2.map
          fun ir => (intToString ir.1, convertResource converters tr.1
            ir.2)) := by
  have h1 : StructConverter.unpack T r = .error
      (StructConverter.lengthMismatchMessage r.type r.id r.data.length
        T.recordLength) := by
    rw [StructConverter.unpack, if_pos hlist, if_pos hmod]
  refine ⟨h1, ?_, ?_⟩
  · simp only [convertResource, hconv, Option.getD, converterUnpack, h1]
  · intro F
    simp only [resourceForkToJson]
    rw [List.filter_eq_self.mpr (fun tr _ => by rfl)]

theorem C6_witness :
    StructConverter.unpack ⟨">H".toList, [some "v".toList], true, 2⟩
        ⟨"AAAA".toList, 1000, [1, 2, 3], none, 0, 0, 4294967295⟩ =
      .error (StructConverter.lengthMismatchMessage "AAAA".toList 1000
        3 2) ∧
    convertResource
        [("AAAA".toList,
          .structConv ⟨">H".toList, [some "v".toList], true, 2⟩)]
        "AAAA".toList
        ⟨"AAAA".toList, 1000, [1, 2, 3], none, 0, 0, 4294967295⟩ =
      ⟨none, none, none, none, none, some (.str "010203".toList),
        some (jsErrorString (StructConverter.lengthMismatchMessage
          "AAAA".toList 1000 3 2))⟩ :=
  ⟨(C6_length_mismatch_diagnostic
      [("AAAA".toList,
        .structConv ⟨">H".toList, [some "v".toList], true, 2⟩)]
      "AAAA".toList ⟨">H".toList, [some "v".toList], true, 2⟩
      ⟨"AAAA".toList, 1000, [1, 2, 3], none, 0, 0, 4294967295⟩
      rfl rfl rfl).1,
   (C6_length_mismatch_diagnostic
      [("AAAA".toList,
        .structConv ⟨">H".toList, [some "v".toList], true, 2⟩)]
      "AAAA".toList ⟨">H".toList, [some "v".toList], true, 2⟩
      ⟨"AAAA".toList, 1000, [1, 2, 3], none, 0, 0, 4294967295⟩
      rfl rfl rfl).2.1⟩

/-! ## C5: per-entry bounds handling of the container decoder

Total functions (over the total big-endian readers) mirroring the decoder
loops; the theorems below show the fallible loops agree with them whenever
the resource map itself is within the buffer, which makes the skip/keep
decision of every 12-byte entry explicit. -/

/-- One 12-byte entry of the resource list, as kept or skipped by lines
65–124: `none` when the computed data offset or its length-prefixed range
falls outside the buffer, otherwise the decoded resource keyed by id. -/
def readResEntry (data : List Nat)
    (dataOffset mapOff mapLength nameListOffsetInMap : Nat)
    (typeName : List Char) (resPos : Nat) : Option (Int × Resource) :=
  let id := i16at data (mapOff + resPos)
  let nameOffset := u16at data (mapOff + resPos + 2)
  let packedAttr := u32at data (mapOff + resPos + 4)
  let junk := u32at data (mapOff + resPos + 8)
  let flags := packedAttr / 16777216
  let resourceDataOffset := packedAttr % 16777216
  let actualDataOffset := dataOffset + resourceDataOffset
  if actualDataOffset + 4 > data.length then none
  else
    let resourceDataLength := u32at data actualDataOffset
    if actualDataOffset + 4 + resourceDataLength > data.length then none
    else
      some (id, ⟨typeName, id,
        readN data (actualDataOffset + 4) resourceDataLength,
        readResourceName data mapOff mapLength nameListOffsetInMap
          nameOffset,
        flags, junk, 4294967295⟩)

/-- The resource-list loop as a total fold over its entries. -/
def readResListSpec (data : List Nat)
    (dataOffset mapOff mapLength nameListOffsetInMap : Nat)
    (typeName : List Char) :
    Nat → Nat → List (Int × Resource) → List (Int × Resource)
  | 0, _, acc => acc
  | count + 1, resPos, acc =>
    readResListSpec data dataOffset mapOff mapLength nameListOffsetInMap
      typeName count (resPos + 12)
      (match readResEntry data dataOffset mapOff mapLength
          nameListOffsetInMap typeName resPos with
      | some (id, r) => jsMapSet acc id r
      | none => acc)

/-- The type-list loop as a total fold (the sanitized name of an in-bounds
4-byte tag; `sanitizeTypeName` only fails on a slice shorter than 4). -/
def readTypeListSpec (data : List Nat)
    (dataOffset mapOff mapLength typeListOffsetInMap
      nameListOffsetInMap : Nat) :
    Nat → Nat → List (List Char × List (Int × Resource)) →
      List (List Char × List (Int × Resource))
  | 0, _, resources => resources
  | numTypes + 1, pos, resources =>
    let typeName := (Textio.sanitizeTypeName
      (readN data (mapOff + pos) 4)).toOption.getD []
    let resourceCount := u16at data (mapOff + pos + 4) + 1
    let resourceListOffset := u16at data (mapOff + pos + 6)
    let typeResources := readResListSpec data dataOffset mapOff mapLength
      nameListOffsetInMap typeName resourceCount
      (typeListOffsetInMap + resourceListOffset) []
    readTypeListSpec data dataOffset mapOff mapLength typeListOffsetInMap
      nameListOffsetInMap numTypes (pos + 8)
      (if typeResources.length > 0 then
        jsMapSet resources typeName typeResources
      else resources)

theorem readResourceList_eq_spec (data : List Nat)
    (dataOffset mapOff mapLength nlOff : Nat) (typeName : List Char) :
    ∀ (count resPos : Nat) (acc : List (Int × Resource)),
      mapOff + resPos + 12 * count ≤ data.length →
      readResourceList data dataOffset mapOff mapLength nlOff typeName
        count resPos acc =
        .ok (readResListSpec data dataOffset mapOff mapLength nlOff
          typeName count resPos acc) := by
  intro count
  induction count with
  | zero => intro resPos acc h; rfl
  | succ k ih =>
    intro resPos acc h
    have h2 : mapOff + (resPos + 12) + 12 * k ≤ data.length := by omega
    simp only [readResourceList, readResListSpec]
    refine except_bind_ok.mpr ⟨i16at data (mapOff + resPos), by
      rw [getInt16, if_pos (by omega)], ?_⟩
    refine except_bind_ok.mpr ⟨u16at data (mapOff + resPos + 2), by
      rw [getUint16, if_pos (by omega)], ?_⟩
    refine except_bind_ok.mpr ⟨u32at data (mapOff + resPos + 4), by
      rw [getUint32, if_pos (by omega)], ?_⟩
    refine except_bind_ok.mpr ⟨u32at data (mapOff + resPos + 8), by
      rw [getUint32, if_pos (by omega)], ?_⟩
    dsimp only
    by_cases hc1 : dataOffset + u32at data (mapOff + resPos + 4) %
        16777216 + 4 > data.length
    · rw [if_pos hc1]
      have he : readResEntry data dataOffset mapOff mapLength nlOff
          typeName resPos = none := by
        simp only [readResEntry]
        rw [if_pos hc1]
      rw [he]
      exact ih (resPos + 12) acc h2
    · rw [if_neg hc1]
      refine except_bind_ok.mpr ⟨u32at data
        (dataOffset + u32at data (mapOff + resPos + 4) % 16777216), by
        rw [getUint32, if_pos (by omega)], ?_⟩
      dsimp only
      by_cases hc2 : dataOffset + u32at data (mapOff + resPos + 4) %
          16777216 + 4 + u32at data (dataOffset +
            u32at data (mapOff + resPos + 4) % 16777216) > data.length
      · rw [if_pos hc2]
        have he : readResEntry data dataOffset mapOff mapLength nlOff
            typeName resPos = none := by
          simp only [readResEntry]
          rw [if_neg hc1, if_pos hc2]
        rw [he]
        exact ih (resPos + 12) acc h2
      · rw [if_neg hc2]
        have he : readResEntry data dataOffset mapOff mapLength nlOff
            typeName resPos =
            some (i16at data (mapOff + resPos), ⟨typeName,
              i16at data (mapOff + resPos),
              readN data (dataOffset + u32at data (mapOff + resPos + 4) %
                16777216 + 4)
                (u32at data (dataOffset + u32at data (mapOff + resPos + 4) %
                  16777216)),
              readResourceName data mapOff mapLength nlOff
                (u16at data (mapOff + resPos + 2)),
              u32at data (mapOff + resPos + 4) / 16777216,
              u32at data (mapOff + resPos + 8), 4294967295⟩) := by
          simp only [readResEntry]
          rw [if_neg hc1, if_neg hc2]
        rw [he]
        exact ih (resPos + 12) _ h2

theorem readTypeList_eq_spec (data : List Nat)
    (dataOffset mapOff mapLength tlOff nlOff : Nat) :
    ∀ (numTypes pos : Nat)
      (resources : List (List Char × List (Int × Resource))),
      (∀ i, i < numTypes →
        mapOff + (pos + 8 * i) + 8 ≤ data.length ∧
        mapOff + tlOff + u16at data (mapOff + (pos + 8 * i) + 6) +
          12 * (u16at data (mapOff + (pos + 8 * i) + 4) + 1) ≤
          data.length) →
      readTypeList data dataOffset mapOff mapLength tlOff nlOff numTypes
        pos resources =
        .ok (readTypeListSpec data dataOffset mapOff mapLength tlOff nlOff
          numTypes pos resources) := by
  intro numTypes
  induction numTypes with
  | zero => intro pos resources _; rfl
  | succ k ih =>
    intro pos resources hb
    have hb0 := hb 0 (by omega)
    simp only [Nat.mul_zero, Nat.add_zero] at hb0
    simp only [readTypeList, readTypeListSpec]
    refine except_bind_ok.mpr ⟨readN data (mapOff + pos) 4, by
      rw [readBytesExact, if_pos (by have := hb0.1; omega)], ?_⟩
    have hlen4 : (readN data (mapOff + pos) 4).length = 4 := by
      simp only [readN, List.length_take, List.length_drop]
      have := hb0.1
      omega
    refine except_bind_ok.mpr
      ⟨(Textio.sanitizeTypeName (readN data (mapOff + pos) 4)).toOption.getD
        [], ?_, ?_⟩
    · rw [Textio.sanitizeTypeName, if_neg (by simp [hlen4])]
      rfl
    refine except_bind_ok.mpr ⟨u16at data (mapOff + pos + 4), by
      rw [getUint16, if_pos (by have := hb0.1; omega)], ?_⟩
    refine except_bind_ok.mpr ⟨u16at data (mapOff + pos + 6), by
      rw [getUint16, if_pos (by have := hb0.1; omega)], ?_⟩
    refine except_bind_ok.mpr
      ⟨readResListSpec data dataOffset mapOff mapLength nlOff
        ((Textio.sanitizeTypeName (readN data (mapOff + pos)
          4)).toOption.getD [])
        (u16at data (mapOff + pos + 4) + 1)
        (tlOff + u16at data (mapOff + pos + 6)) [],
       readResourceList_eq_spec data dataOffset mapOff mapLength nlOff _
         (u16at data (mapOff + pos + 4) + 1)
         (tlOff + u16at data (mapOff + pos + 6)) []
         (by have := hb0.2; omega), ?_⟩
    dsimp only
    exact ih (pos + 8) _ (fun i hi => by
      have hs := hb (i + 1) (by omega)
      rw [show pos + 8 * (i + 1) = pos + 8 + 8 * i from by ring] at hs
      exact hs)

/-- `ResForkTs.fromBytes` under in-bounds map structures: no throw, and
the result is the total fold of the type/resource lists. -/
theorem ResForkTs_fromBytes_eq_spec (data : List Nat)
    (h16 : 16 ≤ data.length)
    (hdr : ¬(u32at data 0 + u32at data 8 > data.length ∨
      u32at data 4 + u32at data 12 > data.length))
    (hmap : u32at data 4 + 30 ≤ data.length)
    (htypes : ∀ i, i < u16at data (u32at data 4 + 28) + 1 →
      u32at data 4 + (u16at data (u32at data 4 + 24) + 2 + 8 * i) + 8 ≤
        data.length ∧
      u32at data 4 + u16at data (u32at data 4 + 24) +
        u16at data (u32at data 4 +
          (u16at data (u32at data 4 + 24) + 2 + 8 * i) + 6) +
        12 * (u16at data (u32at data 4 +
          (u16at data (u32at data 4 + 24) + 2 + 8 * i) + 4) + 1) ≤
        data.length) :
    ResForkTs.fromBytes data = .ok
      ⟨readTypeListSpec data (u32at data 0) (u32at data 4)
        (u32at data 12) (u16at data (u32at data 4 + 24))
        (u16at data (u32at data 4 + 26))
        (u16at data (u32at data 4 + 28) + 1)
        (u16at data (u32at data 4 + 24) + 2) [],
       u16at data (u32at data 4 + 22),
       u32at data (u32at data 4 + 16),
       u16at data (u32at data 4 + 20)⟩ := by
  rw [ResForkTs.fromBytes, if_neg (by omega), if_neg (by omega)]
  refine except_bind_ok.mpr ⟨u32at data 0, by
    rw [getUint32, if_pos (by omega)], ?_⟩
  refine except_bind_ok.mpr ⟨u32at data 4, by
    rw [getUint32, if_pos (by omega)], ?_⟩
  refine except_bind_ok.mpr ⟨u32at data 8, by
    rw [getUint32, if_pos (by omega)], ?_⟩
  refine except_bind_ok.mpr ⟨u32at data 12, by
    rw [getUint32, if_pos (by omega)], ?_⟩
  dsimp only
  rw [if_neg hdr]
  refine except_bind_ok.mpr ⟨u32at data (u32at data 4 + 16), by
    rw [getUint32, if_pos (by omega)], ?_⟩
  refine except_bind_ok.mpr ⟨u16at data (u32at data 4 + 20), by
    rw [getUint16, if_pos (by omega)], ?_⟩
  refine except_bind_ok.mpr ⟨u16at data (u32at data 4 + 22), by
    rw [getUint16, if_pos (by omega)], ?_⟩
  refine except_bind_ok.mpr ⟨u16at data (u32at data 4 + 24), by
    rw [getUint16, if_pos (by omega)], ?_⟩
  refine except_bind_ok.mpr ⟨u16at data (u32at data 4 + 26), by
    rw [getUint16, if_pos (by omega)], ?_⟩
  refine except_bind_ok.mpr ⟨u16at data (u32at data 4 + 28), by
    rw [getUint16, if_pos (by omega)], ?_⟩
  dsimp only
  exact except_bind_ok.mpr ⟨_, readTypeList_eq_spec data (u32at data 0)
    (u32at data 4) (u32at data 12) (u16at data (u32at data 4 + 24))
    (u16at data (u32at data 4 + 26)) (u16at data (u32at data 4 + 28) + 1)
    (u16at data (u32at data 4 + 24) + 2) [] htypes, rfl⟩

theorem jsMapGet_jsMapSet_same {κ α : Type} [DecidableEq κ]
    (m : List (κ × α)) (k : κ) (v : α) :
    jsMapGet (jsMapSet m k v) k = some v := by
  induction m with
  | nil => rw [jsMapSet, jsMapGet, if_pos rfl]
  | cons p rest ih =>
    obtain ⟨k0, v0⟩ := p
    rw [jsMapSet]
    by_cases h0 : k0 = k
    · rw [if_pos h0, jsMapGet, if_pos rfl]
    · rw [if_neg h0, jsMapGet, if_neg h0, ih]

theorem jsMapGet_jsMapSet_other {κ α : Type} [DecidableEq κ]
    (m : List (κ × α)) (k k' : κ) (v : α) (h : ¬ (k = k')) :
    jsMapGet (jsMapSet m k v) k' = jsMapGet m k' := by
  induction m with
  | nil =>
    rw [jsMapSet]
    simp only [jsMapGet]
    rw [if_neg h]
  | cons p rest ih =>
    obtain ⟨k0, v0⟩ := p
    rw [jsMapSet]
    by_cases h0 : k0 = k
    · subst h0
      simp only [jsMapGet]
      rw [if_neg h, if_neg h]
    · rw [if_neg h0]
      simp only [jsMapGet]
      by_cases h1 : k0 = k'
      · rw [if_pos h1, if_pos h1]
      · rw [if_neg h1, if_neg h1, ih]

/-- If no entry of the window decodes to id `id`, the fold leaves `id`
untouched: in particular a resource is *omitted* when its only entry is
skipped for being out of bounds. -/
theorem readResListSpec_get_absent (data : List Nat)
    (dataOffset mapOff mapLength nlOff : Nat) (typeName : List Char) :
    ∀ (count resPos : Nat) (acc : List (Int × Resource)) (id : Int),
      (∀ i, i < count → ∀ r, readResEntry data dataOffset mapOff mapLength
        nlOff typeName (resPos + 12 * i) ≠ some (id, r)) →
      jsMapGet (readResListSpec data dataOffset mapOff mapLength nlOff
        typeName count resPos acc) id = jsMapGet acc id := by
  intro count
  induction count with
  | zero => intro resPos acc id _; rfl
  | succ k ih =>
    intro resPos acc id h
    have hshift : ∀ i, i < k → ∀ r, readResEntry data dataOffset mapOff
        mapLength nlOff typeName (resPos + 12 + 12 * i) ≠ some (id, r) :=
      fun i hi r => by
        have hs := h (i + 1) (by omega) r
        rw [show resPos + 12 * (i + 1) = resPos + 12 + 12 * i from by
          ring] at hs
        exact hs
    rw [readResListSpec]
    rcases he : readResEntry data dataOffset mapOff mapLength nlOff
      typeName resPos with _ | ⟨id0, r0⟩
    · exact ih (resPos + 12) acc id hshift
    · have hne : ¬ (id0 = id) := fun hEq => by
        have h0 := h 0 (by omega) r0
        rw [show resPos + 12 * 0 = resPos from by ring] at h0
        rw [he, hEq] at h0
        exact h0 rfl
      exact (ih (resPos + 12) (jsMapSet acc id0 r0) id hshift).trans
        (jsMapGet_jsMapSet_other acc id0 id r0 hne)

/-- An in-bounds entry is *present*: if entry `i` of the window decodes to
`(id, r)` and no later entry re-binds `id`, the fold maps `id` to `r`. -/
theorem readResListSpec_get_present (data : List Nat)
    (dataOffset mapOff mapLength nlOff : Nat) (typeName : List Char) :
    ∀ (count i resPos : Nat) (acc : List (Int × Resource)) (id : Int)
      (r : Resource),
      i < count →
      readResEntry data dataOffset mapOff mapLength nlOff typeName
        (resPos + 12 * i) = some (id, r) →
      (∀ j, i < j → j < count → ∀ r2, readResEntry data dataOffset mapOff
        mapLength nlOff typeName (resPos + 12 * j) ≠ some (id, r2)) →
      jsMapGet (readResListSpec data dataOffset mapOff mapLength nlOff
        typeName count resPos acc) id = some r := by
  intro count
  induction count with
  | zero => intro i resPos acc id r hi _ _; exact absurd hi (by omega)
  | succ k ih =>
    intro i resPos acc id r hi he hlater
    rw [readResListSpec]
    rcases i with _ | i2
    · rw [show resPos + 12 * 0 = resPos from by ring] at he
      rw [he]
      have habs : ∀ j2, j2 < k → ∀ r2, readResEntry data dataOffset mapOff
          mapLength nlOff typeName (resPos + 12 + 12 * j2) ≠
          some (id, r2) := fun j2 hj2 r2 => by
        have hs := hlater (j2 + 1) (by omega) (by omega) r2
        rw [show resPos + 12 * (j2 + 1) = resPos + 12 + 12 * j2 from by
          ring] at hs
        exact hs
      rw [readResListSpec_get_absent data dataOffset mapOff mapLength
        nlOff typeName k (resPos + 12) (jsMapSet acc id r) id habs]
      exact jsMapGet_jsMapSet_same acc id r
    · have he2 : readResEntry data dataOffset mapOff mapLength nlOff
          typeName (resPos + 12 + 12 * i2) = some (id, r) := by
        rw [show resPos + 12 + 12 * i2 = resPos + 12 * (i2 + 1) from by
          ring]
        exact he
      have hlater2 : ∀ j, i2 < j → j < k → ∀ r2, readResEntry data
          dataOffset mapOff mapLength nlOff typeName
          (resPos + 12 + 12 * j) ≠ some (id, r2) := fun j hj hjk r2 => by
        have hs := hlater (j + 1) (by omega) (by omega) r2
        rw [show resPos + 12 * (j + 1) = resPos + 12 + 12 * j from by
          ring] at hs
        exact hs
      rcases h0 : readResEntry data dataOffset mapOff mapLength nlOff
        typeName resPos with _ | ⟨id0, r0⟩
      · exact ih i2 (resPos + 12) acc id r (by omega) he2 hlater2
      · exact ih i2 (resPos + 12) (jsMapSet acc id0 r0) id r (by omega)
          he2 hlater2

/-- C5 (amended): whenever the resource *map* structures themselves are in
bounds, `fromBytes` completes without throwing and equals the per-entry
fold; an entry whose computed data offset or length-prefixed data range
falls outside the buffer decodes to `none` (skipped); ids bound by no
entry of the window are absent from the fold; and an in-bounds entry not
re-bound later is present with its decoded fields.  (The claim's premise —
only the 16-byte *header* check has passed — is not enough: `fromBytes`
can still throw on a buffer whose map lies outside it; see the
counterexample.) -/
theorem C5_out_of_bounds_entries_skipped (data : List Nat)
    (h16 : 16 ≤ data.length)
    (hdr : ¬(u32at data 0 + u32at data 8 > data.length ∨
      u32at data 4 + u32at data 12 > data.length))
    (hmap : u32at data 4 + 30 ≤ data.length)
    (htypes : ∀ i, i < u16at data (u32at data 4 + 28) + 1 →
      u32at data 4 + (u16at data (u32at data 4 + 24) + 2 + 8 * i) + 8 ≤
        data.length ∧
      u32at data 4 + u16at data (u32at data 4 + 24) +
        u16at data (u32at data 4 +
          (u16at data (u32at data 4 + 24) + 2 + 8 * i) + 6) +
        12 * (u16at data (u32at data 4 +
          (u16at data (u32at data 4 + 24) + 2 + 8 * i) + 4) + 1) ≤
        data.length) :
    ResForkTs.fromBytes data = .ok
      ⟨readTypeListSpec data (u32at data 0) (u32at data 4)
        (u32at data 12) (u16at data (u32at data 4 + 24))
        (u16at data (u32at data 4 + 26))
        (u16at data (u32at data 4 + 28) + 1)
        (u16at data (u32at data 4 + 24) + 2) [],
       u16at data (u32at data 4 + 22),
       u32at data (u32at data 4 + 16),
       u16at data (u32at data 4 + 20)⟩ ∧
    (∀ dataOffset mapOff mapLength nlOff typeName resPos,
      (dataOffset + u32at data (mapOff + resPos + 4) % 16777216 + 4 >
          data.length ∨
        dataOffset + u32at data (mapOff + resPos + 4) % 16777216 + 4 +
          u32at data (dataOffset +
            u32at data (mapOff + resPos + 4) % 16777216) > data.length) →
      readResEntry data dataOffset mapOff mapLength nlOff typeName
        resPos = none) ∧
    (∀ dataOffset mapOff mapLength nlOff typeName count resPos
        (id : Int),
      (∀ i, i < count → ∀ r, readResEntry data dataOffset mapOff mapLength
        nlOff typeName (resPos + 12 * i) ≠ some (id, r)) →
      jsMapGet (readResListSpec data dataOffset mapOff mapLength nlOff
        typeName count resPos []) id = none) ∧
    (∀ dataOffset mapOff mapLength nlOff typeName count i resPos
        (acc : List (Int × Resource)) (id : Int) (r : Resource),
      i < count →
      readResEntry data dataOffset mapOff mapLength nlOff typeName
        (resPos + 12 * i) = some (id, r) →
      (∀ j, i < j → j < count → ∀ r2, readResEntry data dataOffset mapOff
        mapLength nlOff typeName (resPos + 12 * j) ≠ some (id, r2)) →
      jsMapGet (readResListSpec data dataOffset mapOff mapLength nlOff
        typeName count resPos acc) id = some r) := by
  refine ⟨ResForkTs_fromBytes_eq_spec data h16 hdr hmap htypes,
    ?_, ?_, ?_⟩
  · intro dataOffset mapOff mapLength nlOff typeName resPos hbad
    simp only [readResEntry]
    by_cases hb1 : dataOffset + u32at data (mapOff + resPos + 4) %
        16777216 + 4 > data.length
    · rw [if_pos hb1]
    · rw [if_neg hb1, if_pos (hbad.resolve_left hb1)]
  · intro dataOffset mapOff mapLength nlOff typeName count resPos id h
    exact (readResListSpec_get_absent data dataOffset mapOff mapLength
      nlOff typeName count resPos [] id h).trans rfl
  · intro dataOffset mapOff mapLength nlOff typeName count i resPos acc
      id r hi he hlater
    exact readResListSpec_get_present data dataOffset mapOff mapLength
      nlOff typeName count i resPos acc id r hi he hlater

/-- C5 counterexample: sixteen zero bytes pass every check the code makes
before reading the map (not empty, not shorter than 16 bytes, and the
header offset/length sanity check `0+0 ≤ 16`, `0+0 ≤ 16` holds), yet
`fromBytes` then throws a `RangeError` reading the map header at offset
16 — so passing the header bounds check does not guarantee a throw-free
decode. -/
theorem C5_counterexample :
    (List.replicate 16 0).length ≠ 0 ∧
    ¬ (List.replicate 16 0).length < 16 ∧
    ¬ (u32at (List.replicate 16 0) 0 + u32at (List.replicate 16 0) 8 >
        (List.replicate 16 0).length ∨
      u32at (List.replicate 16 0) 4 + u32at (List.replicate 16 0) 12 >
        (List.replicate 16 0).length) ∧
    ResForkTs.fromBytes (List.replicate 16 0) = .error rangeErrMsg := by
  decide

/-- A concrete 84-byte fork: one type `ABCD` with two 12-byte entries, the
first in bounds (id 1000, data `[7, 8]`), the second pointing its data at
offset 999999 (out of bounds). -/
def c5buf : List Nat :=
  [0, 0, 0, 16, 0, 0, 0, 22, 0, 0, 0, 6, 0, 0, 0, 62,
   0, 0, 0, 2, 7, 8,
   0, 0, 0, 0, 0, 0, 0, 0, 0, 0, 0, 0, 0, 0, 0, 0,
   0, 0, 0, 0, 0, 0, 0, 0, 0, 28, 0, 60, 0, 0,
   65, 66, 67, 68, 0, 1, 0, 10,
   3, 232, 255, 255, 0, 0, 0, 0, 0, 0, 0, 9,
   3, 233, 255, 255, 0, 15, 66, 64, 0, 0, 0, 0]

theorem C5_witness :
    ResForkTs.fromBytes c5buf = .ok
      ⟨[("ABCD".toList,
        [(1000, ⟨"ABCD".toList, 1000, [7, 8], none, 0, 9,
          4294967295⟩)])], 0, 0, 0⟩ :=
  ((C5_out_of_bounds_entries_skipped c5buf (by decide) (by decide)
    (by decide) (by decide)).1).trans (by decide)

/-! ## C1: the encoder (`ResourceForkParser.toBytes` of `part_001`)

`toBytes` allocates a zero-filled buffer of `totalSize` and writes strictly
sequentially: the 16-byte header, the data section (`4`-byte length prefix
then bytes, per resource in map order), a copy of the header at
`mapOffset`, the 12 map-specific bytes (leaving map bytes 28–29 at their
initial zero), the type-count word at `mapOffset + 30`, the 8-byte type
entries, the 12-byte resource entries at `typeListOffset + typeListSize`,
and the name records at `nameListOffsetInMap`.  Each section therefore
starts exactly where the previous one ended and the buffer is the
concatenation below.  Two corners break that sequentiality in the source
and are reported as explicit errors here instead of modelling the garbled
buffer (no claim's amended hypotheses reach them): a type tag whose
NUL-padded 4-character prefix does not UTF-8-encode to exactly 4 bytes
(`bytes.set` would spill past its slot), and a truthy name longer than
255 characters or containing non-ASCII characters (the length byte is
stored mod 256 and `nameSize` counts characters, not UTF-8 bytes). -/

namespace Part001

def tagNotFourBytesMsg : Err :=
  "type tag does not encode to 4 bytes (encoder layout unmodelled)".toList

def nameNotAsciiMsg : Err :=
  "resource name not short ASCII (encoder layout unmodelled)".toList

/-- `typeName.padEnd(4, nul).substring(0, 4)`. -/
def nulPad4 (s : List Char) : List Char :=
  (s ++ List.replicate (4 - s.length) (Char.ofNat 0)).take 4

/-- The 4 tag bytes written for a type entry. -/
def typeTagBytes (typeName : List Char) : Except Err (List Nat) :=
  let tb := utf8Encode (nulPad4 typeName)
  if tb.length = 4 then .ok tb else .error tagNotFourBytesMsg

/-- `if (resource.name)`: the name when truthy (present and nonempty). -/
def jsNamed (r : Resource) : Option (List Char) :=
  match r.name with
  | some n => if n = [] then none else some n
  | none => none

/-- First-pass `dataSize`: 4 length bytes plus the data, per resource. -/
def dataSizeOf : List (Int × Resource) → Nat
  | [] => 0
  | (_, r) :: rest => 4 + r.data.length + dataSizeOf rest

/-- First-pass `nameSize`: 1 length byte plus the name, per named one. -/
def nameSizeOf : List (Int × Resource) → Nat
  | [] => 0
  | (_, r) :: rest =>
    (match jsNamed r with | some n => 1 + n.length | none => 0) +
      nameSizeOf rest

/-- The data section: per resource, `setUint32` of the length then the
bytes (`Uint8Array.set` stores values mod 256). -/
def dataSecOf : List (Int × Resource) → List Nat
  | [] => []
  | (_, r) :: rest =>
    u32be r.data.length ++ r.data.map (· % 256) ++ dataSecOf rest

/-- The 8-byte type entries; `rlo` is `currentResourceListOffset`, which
starts at `typeListSize` and grows by 12 per resource of earlier types. -/
def typeListEntries :
    List (List Char × List (Int × Resource)) → Nat → Except Err (List Nat)
  | [], _ => .ok []
  | (tn, rs) :: rest, rlo => do
    let tb ← typeTagBytes tn
    let tail ← typeListEntries rest (rlo + rs.length * 12)
    .ok (tb ++ u16be ((rs.length : Int) - 1) ++ u16be rlo ++ tail)

/-- One 12-byte resource entry: `setInt16` of the id, the name offset
(`0xFFFF` when unnamed), `packedAttr = (flags << 24) | (dov & 0xFFFFFF)`
(disjoint bit ranges, so the `or` is a sum of the wrapped parts), junk. -/
def packResEntry (id : Int) (nameOffsetInList : Nat)
    (flags dov junk : Nat) : List Nat :=
  u16be id ++ u16be nameOffsetInList ++
    u32be ((flags % 256) * 16777216 + dov % 16777216) ++ u32be junk

/-- The 12-byte entries, threading the cumulative data offset `dov` and
name offset `nameOff` exactly as the source's two accumulator maps do. -/
def resListBytes :
    List (Int × Resource) → Nat → Nat → Except Err (List Nat)
  | [], _, _ => .ok []
  | (id, r) :: rest, dov, nameOff =>
    match jsNamed r with
    | some n =>
      if n.length ≤ 255 ∧ n.all (fun c => c.toNat < 128) then do
        let es ← resListBytes rest (dov + (4 + r.data.length))
          (nameOff + (1 + n.length))
        .ok (packResEntry id nameOff r.flags dov r.junk ++ es)
      else .error nameNotAsciiMsg
    | none => do
      let es ← resListBytes rest (dov + (4 + r.data.length)) nameOff
      .ok (packResEntry id 65535 r.flags dov r.junk ++ es)

/-- The name records: length byte (stored mod 256) then the UTF-8 bytes. -/
def nameListBytes : List (Int × Resource) → List Nat
  | [] => []
  | (_, r) :: rest =>
    (match jsNamed r with
     | some n => n.length % 256 :: utf8Encode n
     | none => []) ++ nameListBytes rest

/-- `ResourceForkParser.toBytes` (lines 141–283). -/
def toBytes (F : ResourceFork) : Except Err (List Nat) := do
  let flat := F.resources.flatMap Prod.snd
  let dataSize := dataSizeOf flat
  let nameSize := nameSizeOf flat
  let resourceCount := flat.length
  let typeCount := F.resources.length
  let resourceListSize := resourceCount * 12
  let typeListSize := 2 + typeCount * 8
  let mapOffset := 16 + dataSize
  let mapSize := 30 + typeListSize + resourceListSize + nameSize
  let header := u32be 16 ++ u32be mapOffset ++ u32be dataSize ++
    u32be mapSize
  let tl ← typeListEntries F.resources typeListSize
  let rl ← resListBytes flat 0 0
  .ok (header ++ dataSecOf flat ++ header ++ u32be F.junkNextresmap ++
    u16be F.junkFilerefnum ++ u16be F.fileAttributes ++ u16be 30 ++
    u16be (30 + typeListSize + resourceListSize) ++ [0, 0] ++
    u16be ((typeCount : Int) - 1) ++ tl ++ rl ++ nameListBytes flat)

end Part001

/-- `Part001.fromBytes` under in-bounds map structures (type count read at
the start of the type list): no throw, result is the total fold. -/
theorem Part001_fromBytes_eq_spec (data : List Nat)
    (h16 : 16 ≤ data.length)
    (hdr : ¬(u32at data 0 + u32at data 8 > data.length ∨
      u32at data 4 + u32at data 12 > data.length))
    (hmap : u32at data 4 + 28 ≤ data.length)
    (hnt : u32at data 4 + u16at data (u32at data 4 + 24) + 2 ≤
      data.length)
    (htypes : ∀ i, i < u16at data (u32at data 4 +
        u16at data (u32at data 4 + 24)) + 1 →
      u32at data 4 + (u16at data (u32at data 4 + 24) + 2 + 8 * i) + 8 ≤
        data.length ∧
      u32at data 4 + u16at data (u32at data 4 + 24) +
        u16at data (u32at data 4 +
          (u16at data (u32at data 4 + 24) + 2 + 8 * i) + 6) +
        12 * (u16at data (u32at data 4 +
          (u16at data (u32at data 4 + 24) + 2 + 8 * i) + 4) + 1) ≤
        data.length) :
    Part001.fromBytes data = .ok
      ⟨readTypeListSpec data (u32at data 0) (u32at data 4)
        (u32at data 12) (u16at data (u32at data 4 + 24))
        (u16at data (u32at data 4 + 26))
        (u16at data (u32at data 4 + u16at data (u32at data 4 + 24)) + 1)
        (u16at data (u32at data 4 + 24) + 2) [],
       u16at data (u32at data 4 + 22),
       u32at data (u32at data 4 + 16),
       u16at data (u32at data 4 + 20)⟩ := by
  rw [Part001.fromBytes, if_neg (by omega), if_neg (by omega)]
  refine except_bind_ok.mpr ⟨u32at data 0, by
    rw [getUint32, if_pos (by omega)], ?_⟩
  refine except_bind_ok.mpr ⟨u32at data 4, by
    rw [getUint32, if_pos (by omega)], ?_⟩
  refine except_bind_ok.mpr ⟨u32at data 8, by
    rw [getUint32, if_pos (by omega)], ?_⟩
  refine except_bind_ok.mpr ⟨u32at data 12, by
    rw [getUint32, if_pos (by omega)], ?_⟩
  dsimp only
  rw [if_neg hdr]
  refine except_bind_ok.mpr ⟨u32at data (u32at data 4 + 16), by
    rw [getUint32, if_pos (by omega)], ?_⟩
  refine except_bind_ok.mpr ⟨u16at data (u32at data 4 + 20), by
    rw [getUint16, if_pos (by omega)], ?_⟩
  refine except_bind_ok.mpr ⟨u16at data (u32at data 4 + 22), by
    rw [getUint16, if_pos (by omega)], ?_⟩
  refine except_bind_ok.mpr ⟨u16at data (u32at data 4 + 24), by
    rw [getUint16, if_pos (by omega)], ?_⟩
  refine except_bind_ok.mpr ⟨u16at data (u32at data 4 + 26), by
    rw [getUint16, if_pos (by omega)], ?_⟩
  refine except_bind_ok.mpr
    ⟨u16at data (u32at data 4 + u16at data (u32at data 4 + 24)), by
      rw [getUint16, if_pos (by omega)], ?_⟩
  dsimp only
  exact except_bind_ok.mpr ⟨_, readTypeList_eq_spec data (u32at data 0)
    (u32at data 4) (u32at data 12) (u16at data (u32at data 4 + 24))
    (u16at data (u32at data 4 + 26))
    (u16at data (u32at data 4 + u16at data (u32at data 4 + 24)) + 1)
    (u16at data (u32at data 4 + 24) + 2) [] htypes, rfl⟩


/-! Layout lemmas: reading back what the encoder wrote, at positions given
by the length of a prefix of the concatenation (chunks associated to the
right: `P ++ (chunk ++ S)`). -/

theorem u16be_length (v : Int) : (u16be v).length = 2 := rfl

theorem u32be_length (v : Int) : (u32be v).length = 4 := rfl

theorem u16at_u16be (v : Int) (rest : List Nat) :
    u16at (u16be v ++ rest) 0 = ((v % 65536).toNat) := by
  simp [u16at, readN, u16be, beVal]
  omega

theorem u32at_at (P S : List Nat) (v : Int) (p : Nat)
    (hp : P.length = p) :
    u32at (P ++ (u32be v ++ S)) p = ((v % 4294967296).toNat) := by
  subst hp
  rw [u32at, show P.length = P.length + 0 from rfl, readN_append_right]
  exact u32at_u32be v S

theorem u16at_at (P S : List Nat) (v : Int) (p : Nat)
    (hp : P.length = p) :
    u16at (P ++ (u16be v ++ S)) p = ((v % 65536).toNat) := by
  subst hp
  rw [u16at, show P.length = P.length + 0 from rfl, readN_append_right]
  exact u16at_u16be v S

theorem i16at_at (P S : List Nat) (id : Int) (p : Nat)
    (hp : P.length = p) (hlo : -32768 ≤ id) (hhi : id < 32768) :
    i16at (P ++ (u16be id ++ S)) p = id := by
  simp only [i16at]
  rw [u16at_at P S id p hp]
  split_ifs <;> omega

theorem readN_at (P bs S : List Nat) (p n : Nat) (hp : P.length = p)
    (hn : n ≤ bs.length) :
    readN (P ++ (bs ++ S)) p n = bs.take n := by
  subst hp
  rw [show P.length = P.length + 0 from rfl, readN_append_right, readN,
    List.drop_zero, List.take_append_of_le_length hn]

theorem map_mod256_eq {bs : List Nat} (h : ∀ b ∈ bs, b < 256) :
    bs.map (· % 256) = bs := by
  induction bs with
  | nil => rfl
  | cons b rest ih =>
    rw [List.map_cons, Nat.mod_eq_of_lt (h b (by simp)),
      ih (fun x hx => h x (by simp [hx]))]

theorem utf8Encode_ascii {n : List Char} (h : ∀ c ∈ n, c.toNat < 128) :
    utf8Encode n = n.map Char.toNat := by
  induction n with
  | nil => rfl
  | cons c rest ih =>
    rw [utf8Encode, List.flatMap_cons, utf8EncodeCP,
      if_pos (h c (by simp)), List.map_cons]
    rw [utf8Encode] at ih
    rw [ih (fun x hx => h x (by simp [hx]))]
    rfl

theorem Part001.packResEntry_length (id : Int) (no flags dov junk : Nat) :
    (Part001.packResEntry id no flags dov junk).length = 12 := rfl

theorem Part001.dataSecOf_length (rs : List (Int × Resource)) :
    (Part001.dataSecOf rs).length = Part001.dataSizeOf rs := by
  induction rs with
  | nil => rfl
  | cons p rest ih =>
    obtain ⟨id, r⟩ := p
    rw [Part001.dataSecOf, Part001.dataSizeOf]
    simp [ih, u32be_length]
    omega

theorem Part001.resListBytes_length :
    ∀ (rs : List (Int × Resource)) (dov nameOff : Nat) (RL : List Nat),
      Part001.resListBytes rs dov nameOff = .ok RL →
      RL.length = 12 * rs.length := by
  intro rs
  induction rs with
  | nil =>
    intro dov nameOff RL h
    cases h
    rfl
  | cons p rest ih =>
    intro dov nameOff RL h
    obtain ⟨id, r⟩ := p
    rw [Part001.resListBytes] at h
    rcases hn : Part001.jsNamed r with _ | n
    · try rw [hn] at h
      try dsimp only at h
      obtain ⟨es, hes, h⟩ := except_bind_ok.mp h
      cases h
      simp [Part001.packResEntry_length, ih _ _ _ hes]
      ring
    · try rw [hn] at h
      try dsimp only at h
      split_ifs at h
      obtain ⟨es, hes, h⟩ := except_bind_ok.mp h
      cases h
      simp [Part001.packResEntry_length, ih _ _ _ hes]
      ring

theorem Part001.dataSizeOf_append (a b : List (Int × Resource)) :
    Part001.dataSizeOf (a ++ b) =
      Part001.dataSizeOf a + Part001.dataSizeOf b := by
  induction a with
  | nil => simp [Part001.dataSizeOf]
  | cons p rest ih =>
    obtain ⟨id, r⟩ := p
    rw [List.cons_append, Part001.dataSizeOf, Part001.dataSizeOf, ih]
    omega

theorem Part001.nameSizeOf_append (a b : List (Int × Resource)) :
    Part001.nameSizeOf (a ++ b) =
      Part001.nameSizeOf a + Part001.nameSizeOf b := by
  induction a with
  | nil => simp [Part001.nameSizeOf]
  | cons p rest ih =>
    obtain ⟨id, r⟩ := p
    rw [List.cons_append, Part001.nameSizeOf, Part001.nameSizeOf, ih]
    omega

theorem Part001.dataSecOf_append (a b : List (Int × Resource)) :
    Part001.dataSecOf (a ++ b) =
      Part001.dataSecOf a ++ Part001.dataSecOf b := by
  induction a with
  | nil => simp [Part001.dataSecOf]
  | cons p rest ih =>
    obtain ⟨id, r⟩ := p
    rw [List.cons_append, Part001.dataSecOf, Part001.dataSecOf, ih]
    simp

theorem Part001.nameListBytes_append (a b : List (Int × Resource)) :
    Part001.nameListBytes (a ++ b) =
      Part001.nameListBytes a ++ Part001.nameListBytes b := by
  induction a with
  | nil => simp [Part001.nameListBytes]
  | cons p rest ih =>
    obtain ⟨id, r⟩ := p
    rw [List.cons_append, Part001.nameListBytes, Part001.nameListBytes,
      ih]
    simp

theorem Part001.resListBytes_append :
    ∀ (a b : List (Int × Resource)) (dov nameOff : Nat) (RL : List Nat),
      Part001.resListBytes (a ++ b) dov nameOff = .ok RL →
      ∃ RA RB, Part001.resListBytes a dov nameOff = .ok RA ∧
        Part001.resListBytes b (dov + Part001.dataSizeOf a)
          (nameOff + Part001.nameSizeOf a) = .ok RB ∧
        RL = RA ++ RB := by
  intro a
  induction a with
  | nil =>
    intro b dov nameOff RL h
    exact ⟨[], RL, rfl, by
      simpa [Part001.dataSizeOf, Part001.nameSizeOf] using h, by simp⟩
  | cons p rest ih =>
    intro b dov nameOff RL h
    obtain ⟨id, r⟩ := p
    rw [List.cons_append, Part001.resListBytes] at h
    rw [Part001.resListBytes]
    rcases hn : Part001.jsNamed r with _ | n
    · try rw [hn] at h
      try rw [hn]
      try dsimp only at h
      try dsimp only
      obtain ⟨es, hes, h⟩ := except_bind_ok.mp h
      cases h
      obtain ⟨RA, RB, hra, hrb, heq⟩ := ih b _ _ _ hes
      refine ⟨Part001.packResEntry id 65535 r.flags dov r.junk ++ RA, RB,
        except_bind_ok.mpr ⟨RA, hra, rfl⟩, ?_, by rw [heq]; simp⟩
      simp only [Part001.dataSizeOf, Part001.nameSizeOf, hn]
      convert hrb using 2 <;> omega
    · try rw [hn] at h
      try dsimp only at h
      split_ifs at h with hok
      obtain ⟨es, hes, h⟩ := except_bind_ok.mp h
      cases h
      obtain ⟨RA, RB, hra, hrb, heq⟩ := ih b _ _ _ hes
      refine ⟨Part001.packResEntry id nameOff r.flags dov r.junk ++ RA,
        RB, ?_, ?_, by rw [heq]; simp⟩
      · dsimp only
        rw [if_pos hok]
        exact except_bind_ok.mpr ⟨RA, hra, rfl⟩
      · rw [show Part001.dataSizeOf ((id, r) :: rest) =
          4 + r.data.length + Part001.dataSizeOf rest from rfl]
        rw [Part001.nameSizeOf, hn]
        dsimp only
        rw [show dov + (4 + r.data.length + Part001.dataSizeOf rest) =
          dov + (4 + r.data.length) + Part001.dataSizeOf rest from by
            omega]
        rw [show nameOff + (1 + n.length + Part001.nameSizeOf rest) =
          nameOff + (1 + n.length) + Part001.nameSizeOf rest from by
            omega]
        exact hrb

theorem jsMapSet_append {κ α : Type} [DecidableEq κ] :
    ∀ (m : List (κ × α)) (k : κ) (v : α),
      (∀ p ∈ m, p.1 ≠ k) → jsMapSet m k v = m ++ [(k, v)] := by
  intro m
  induction m with
  | nil => intro k v _; rfl
  | cons p rest ih =>
    intro k v h
    obtain ⟨k0, v0⟩ := p
    rw [jsMapSet, if_neg (h (k0, v0) (by simp)), List.cons_append,
      ih k v (fun q hq => h q (by simp [hq]))]


theorem readN_drop (data : List Nat) (i n k : Nat) :
    (readN data i n).drop k = readN data (i + k) (n - k) := by
  simp only [readN]
  rw [List.drop_take, List.drop_drop]

theorem readResourceName_sentinel (data : List Nat)
    (mapOff mapLength nlOff : Nat) :
    readResourceName data mapOff mapLength nlOff 65535 = none := by
  rw [readResourceName]
  simp

/-- Reading back a name record the encoder wrote: the length byte then the
ASCII bytes, at `nameListOffsetInMap + nameOffset` inside the map. -/
theorem readResourceName_at (buf Pn Sn : List Nat)
    (mapOff mapLength nlOff nameOff : Nat) (n : List Char)
    (hbuf : buf = Pn ++ ((n.length % 256 :: utf8Encode n) ++ Sn))
    (hP : Pn.length = mapOff + (nlOff + nameOff))
    (hlen : n.length ≤ 255)
    (hascii : ∀ c ∈ n, c.toNat < 128)
    (hsent : ¬ (nameOff = 65535))
    (hwithin : nlOff + nameOff + 1 + n.length ≤ mapLength) :
    readResourceName buf mapOff mapLength nlOff nameOff = some n := by
  have henc : utf8Encode n = n.map Char.toNat := utf8Encode_ascii hascii
  have henclen : (utf8Encode n).length = n.length := by
    rw [henc, List.length_map]
  have hml : n.length % 256 = n.length := Nat.mod_eq_of_lt (by omega)
  have hdrop : (readN buf mapOff mapLength).drop (nlOff + nameOff) =
      ((n.length % 256 :: utf8Encode n) ++ Sn).take
        (mapLength - (nlOff + nameOff)) := by
    rw [readN_drop, hbuf,
      show mapOff + (nlOff + nameOff) = Pn.length + 0 from by omega,
      readN_append_right, readN, List.drop_zero]
  have hdrop2 : (readN buf mapOff mapLength).drop (nlOff + nameOff + 1) =
      (utf8Encode n ++ Sn).take (mapLength - (nlOff + nameOff + 1)) := by
    rw [readN_drop, hbuf,
      show Pn ++ ((n.length % 256 :: utf8Encode n) ++ Sn) =
        (Pn ++ [n.length % 256]) ++ (utf8Encode n ++ Sn) from by simp,
      show mapOff + (nlOff + nameOff + 1) =
        (Pn ++ [n.length % 256]).length + 0 from by simp [hP]; omega,
      readN_append_right, readN, List.drop_zero]
  have hhead : (((n.length % 256 :: utf8Encode n) ++ Sn).take
      (mapLength - (nlOff + nameOff))).headD 0 = n.length := by
    rcases hm : mapLength - (nlOff + nameOff) with _ | m
    · exact absurd hm (by omega)
    · rw [List.cons_append, List.take_succ_cons, List.headD_cons, hml]
  simp only [readResourceName]
  rw [if_pos hsent]
  rw [if_pos (show nlOff + nameOff < mapLength by omega)]
  rw [hdrop, hhead]
  rw [if_pos (by omega)]
  rw [hdrop2]
  rw [List.take_take, min_eq_left (by omega)]
  rw [show (utf8Encode n ++ Sn).take n.length = utf8Encode n from by
    rw [← henclen, List.take_left]]
  rw [henc, List.map_map]
  rw [show Char.ofNat ∘ Char.toNat = id from funext Char.ofNat_toNat,
    List.map_id]


/-- Reading back one 12-byte resource entry written by `packResEntry` at
the position right after `Pr`. -/
theorem Part001.packResEntry_reads (buf Pr T : List Nat) (id : Int)
    (no flags dov junk : Nat) (p : Nat)
    (hbuf : buf = Pr ++ (Part001.packResEntry id no flags dov junk ++ T))
    (hp : Pr.length = p)
    (hidlo : -32768 ≤ id) (hidhi : id < 32768)
    (hno : no ≤ 65535) (hflags : flags < 256) (hdov : dov < 16777216)
    (hjunk : junk < 4294967296) :
    i16at buf p = id ∧
    u16at buf (p + 2) = no ∧
    u32at buf (p + 4) = flags * 16777216 + dov ∧
    u32at buf (p + 8) = junk ∧
    p + 12 ≤ buf.length := by
  subst hbuf
  rw [show Part001.packResEntry id no flags dov junk ++ T =
    u16be id ++ (u16be (no : Int) ++
      (u32be (((flags % 256) * 16777216 + dov % 16777216 : Nat) : Int) ++
        (u32be (junk : Int) ++ T))) from by
    simp [Part001.packResEntry, List.append_assoc]]
  refine ⟨i16at_at Pr _ id _ hp hidlo hidhi, ?_, ?_, ?_, ?_⟩
  · rw [show Pr ++ (u16be id ++ (u16be (no : Int) ++
      (u32be (((flags % 256) * 16777216 + dov % 16777216 : Nat) : Int) ++
        (u32be (junk : Int) ++ T)))) =
      (Pr ++ u16be id) ++ (u16be (no : Int) ++
      (u32be (((flags % 256) * 16777216 + dov % 16777216 : Nat) : Int) ++
        (u32be (junk : Int) ++ T))) from by simp [List.append_assoc]]
    rw [u16at_at (Pr ++ u16be id) _ (no : Int) (p + 2)
      (by simp [u16be_length, hp])]
    omega
  · rw [show Pr ++ (u16be id ++ (u16be (no : Int) ++
      (u32be (((flags % 256) * 16777216 + dov % 16777216 : Nat) : Int) ++
        (u32be (junk : Int) ++ T)))) =
      ((Pr ++ u16be id) ++ u16be (no : Int)) ++
      (u32be (((flags % 256) * 16777216 + dov % 16777216 : Nat) : Int) ++
        (u32be (junk : Int) ++ T)) from by simp [List.append_assoc]]
    rw [u32at_at ((Pr ++ u16be id) ++ u16be (no : Int)) _ _ (p + 4)
      (by simp [u16be_length, hp])]
    have h1 : flags % 256 = flags := Nat.mod_eq_of_lt hflags
    have h2 : dov % 16777216 = dov := Nat.mod_eq_of_lt hdov
    rw [h1, h2]
    omega
  · rw [show Pr ++ (u16be id ++ (u16be (no : Int) ++
      (u32be (((flags % 256) * 16777216 + dov % 16777216 : Nat) : Int) ++
        (u32be (junk : Int) ++ T)))) =
      (((Pr ++ u16be id) ++ u16be (no : Int)) ++
        u32be (((flags % 256) * 16777216 + dov % 16777216 : Nat) : Int)) ++
      (u32be (junk : Int) ++ T) from by simp [List.append_assoc]]
    rw [u32at_at _ _ _ (p + 8)
      (by simp [u16be_length, u32be_length, hp])]
    omega
  · simp [u16be_length, u32be_length, hp]
    omega

/-- Reading back one data-section record (4-byte length prefix then the
bytes, stored mod 256) at data offset `dov`. -/
theorem Part001.dataChunk_reads (buf Pd T bs : List Nat) (dov : Nat)
    (hbuf : buf = Pd ++ (u32be (bs.length : Int) ++
      (bs.map (· % 256) ++ T)))
    (hPd : Pd.length = 16 + dov)
    (hlen : bs.length < 4294967296)
    (hbytes : ∀ b ∈ bs, b < 256) :
    u32at buf (16 + dov) = bs.length ∧
    readN buf (16 + dov + 4) bs.length = bs ∧
    16 + dov + 4 + bs.length ≤ buf.length := by
  subst hbuf
  refine ⟨?_, ?_, ?_⟩
  · rw [u32at_at Pd _ _ _ hPd]
    omega
  · rw [show Pd ++ (u32be (bs.length : Int) ++ (bs.map (· % 256) ++ T)) =
      (Pd ++ u32be (bs.length : Int)) ++ (bs.map (· % 256) ++ T) from by
      simp [List.append_assoc]]
    rw [readN_at (Pd ++ u32be (bs.length : Int)) (bs.map (· % 256)) T
      (16 + dov + 4) bs.length (by simp [u32be_length, hPd]) (by simp)]
    rw [show bs.length = (bs.map (· % 256)).length from by simp,
      List.take_length]
    exact map_mod256_eq hbytes
  · simp [u32be_length, hPd]
    omega

/-- Per-resource well-formedness for the encoder round-trip: fields match
the map key, fit the widths they are stored at, and names are short
ASCII. -/
def Part001.wfRes (tn : List Char) (id : Int) (r : Resource) : Prop :=
  r.id = id ∧ r.type = tn ∧ r.order = 4294967295 ∧
  -32768 ≤ id ∧ id < 32768 ∧ r.flags < 256 ∧ r.junk < 4294967296 ∧
  (∀ b ∈ r.data, b < 256) ∧
  (match r.name with
   | some n => n ≠ [] ∧ n.length ≤ 255 ∧ ∀ c ∈ n, c.toNat < 128
   | none => True)

/-- Decoding the resource entries the encoder wrote: the fallible inner
loop neither throws nor skips, and rebuilds exactly the encoded list. -/
theorem Part001.readResourceList_decodes
    (buf : List Nat) (mapOff mapLength nlOff : Nat) (tn : List Char) :
    ∀ (rs : List (Int × Resource)) (resPos dov nameOff : Nat)
      (acc : List (Int × Resource)) (RL Pd Sd Pr Sr Pn Sn : List Nat),
      Part001.resListBytes rs dov nameOff = .ok RL →
      buf = Pd ++ (Part001.dataSecOf rs ++ Sd) →
      buf = Pr ++ (RL ++ Sr) →
      buf = Pn ++ (Part001.nameListBytes rs ++ Sn) →
      Pd.length = 16 + dov →
      Pr.length = mapOff + resPos →
      Pn.length = mapOff + (nlOff + nameOff) →
      (∀ p ∈ rs, Part001.wfRes tn p.1 p.2) →
      dov + Part001.dataSizeOf rs < 16777216 →
      nameOff + Part001.nameSizeOf rs ≤ 65535 →
      nlOff + nameOff + Part001.nameSizeOf rs ≤ mapLength →
      (∀ p ∈ acc, ∀ q ∈ rs, p.1 ≠ q.1) →
      (rs.map Prod.fst).Nodup →
      readResourceList buf 16 mapOff mapLength nlOff tn rs.length resPos
        acc = .ok (acc ++ rs) := by
  intro rs
  induction rs with
  | nil =>
    intro resPos dov nameOff acc RL Pd Sd Pr Sr Pn Sn _ _ _ _ _ _ _ _ _ _
      _ _ _
    rw [List.length_nil, readResourceList, List.append_nil]
  | cons p rest ih =>
    intro resPos dov nameOff acc RL Pd Sd Pr Sr Pn Sn hRL hbufD hbufR
      hbufN hPd hPr hPn hwf hdov hno hnm hdisj hnodup
    obtain ⟨id, r⟩ := p
    obtain ⟨hrid, hrtype, hrorder, hidlo, hidhi, hflags, hjunk, hbytes,
      hname⟩ := hwf (id, r) (by simp)
    have hwfrest : ∀ q ∈ rest, Part001.wfRes tn q.1 q.2 :=
      fun q hq => hwf q (by simp [hq])
    have hdsz : Part001.dataSizeOf ((id, r) :: rest) =
        4 + r.data.length + Part001.dataSizeOf rest := rfl
    have hnodup2 := hnodup
    rw [List.map_cons, List.nodup_cons] at hnodup2
    have hdisj2 : ∀ q ∈ acc ++ [(id, r)], ∀ q2 ∈ rest, q.1 ≠ q2.1 := by
      intro q hq q2 hq2
      rcases List.mem_append.mp hq with hqa | hqb
      · exact hdisj q hqa q2 (by simp [hq2])
      · have hqe : q = (id, r) := by simpa using hqb
        subst hqe
        dsimp only
        intro hEq
        refine hnodup2.1 ?_
        rw [hEq]
        exact List.mem_map.mpr ⟨q2, hq2, rfl⟩
    have hDchunk := Part001.dataChunk_reads buf Pd
      (Part001.dataSecOf rest ++ Sd) r.data dov
      (by rw [hbufD]; simp [Part001.dataSecOf, List.append_assoc])
      hPd (by omega) hbytes
    obtain ⟨hlen32, hdata, hdbound⟩ := hDchunk
    rw [Part001.resListBytes] at hRL
    rw [List.length_cons]
    simp only [readResourceList]
    rcases hn : Part001.jsNamed r with _ | n
    -- unnamed entry: the sentinel name offset is written
    · have hrname : r.name = none := by
        rcases hrn : r.name with _ | n2
        · rfl
        · rw [Part001.jsNamed, hrn] at hn
          dsimp only at hn
          split_ifs at hn with he
          subst he
          rw [hrn] at hname
          exact absurd rfl hname.1
      try rw [hn] at hRL
      try dsimp only at hRL
      obtain ⟨es, hes, hRL⟩ := except_bind_ok.mp hRL
      injection hRL with hRL
      subst hRL
      obtain ⟨hid, hnoff, hpa32, hjk, hrbound⟩ :=
        Part001.packResEntry_reads buf Pr (es ++ Sr) id 65535 r.flags dov
          r.junk (mapOff + resPos)
          (by rw [hbufR]; simp [List.append_assoc]) hPr hidlo hidhi
          (by omega) hflags (by omega) hjunk
      refine except_bind_ok.mpr ⟨id, by
        rw [getInt16, if_pos (by omega)]
        rw [hid], ?_⟩
      refine except_bind_ok.mpr ⟨65535, by
        rw [getUint16, if_pos (by omega)]
        rw [hnoff], ?_⟩
      refine except_bind_ok.mpr ⟨r.flags * 16777216 + dov, by
        rw [getUint32, if_pos (by omega)]
        rw [hpa32], ?_⟩
      refine except_bind_ok.mpr ⟨r.junk, by
        rw [getUint32, if_pos (by omega)]
        rw [hjk], ?_⟩
      dsimp only
      have hmod : (r.flags * 16777216 + dov) % 16777216 = dov := by omega
      have hdiv : (r.flags * 16777216 + dov) / 16777216 = r.flags := by
        omega
      rw [hmod, hdiv]
      rw [if_neg (by omega)]
      refine except_bind_ok.mpr ⟨r.data.length, by
        rw [getUint32, if_pos (by omega)]
        rw [hlen32], ?_⟩
      dsimp only
      rw [if_neg (by omega)]
      rw [hdata, readResourceName_sentinel buf mapOff mapLength nlOff]
      have hres : (⟨tn, id, r.data, none, r.flags, r.junk,
          4294967295⟩ : Resource) = r := by
        obtain ⟨rt, rid, rd, rn, rf, rj, ro⟩ := r
        dsimp only at hrid hrtype hrorder hrname ⊢
        rw [hrid, hrtype, hrorder, hrname]
      rw [hres]
      rw [jsMapSet_append acc id r
        (fun q hq => hdisj q hq (id, r) (by simp))]
      rw [show acc ++ (id, r) :: rest = (acc ++ [(id, r)]) ++ rest from by
        simp]
      refine ih (resPos + 12) (dov + (4 + r.data.length)) nameOff
        (acc ++ [(id, r)]) es
        (Pd ++ (u32be (r.data.length : Int) ++ r.data.map (· % 256))) Sd
        (Pr ++ Part001.packResEntry id 65535 r.flags dov r.junk) Sr
        Pn Sn hes ?_ ?_ ?_ ?_ ?_ hPn hwfrest ?_ ?_ ?_ hdisj2 hnodup2.2
      · rw [hbufD]
        simp [Part001.dataSecOf, List.append_assoc]
      · rw [hbufR]
        simp [List.append_assoc]
      · rw [hbufN]
        simp only [Part001.nameListBytes, hn]
        rw [List.nil_append]
      · simp only [List.length_append, List.length_map, u32be_length,
          hPd]
        omega
      · simp only [List.length_append, Part001.packResEntry_length, hPr]
        omega
      · rw [hdsz] at hdov
        omega
      · have hx : Part001.nameSizeOf ((id, r) :: rest) =
            Part001.nameSizeOf rest := by
          rw [Part001.nameSizeOf, hn]
          simp
        rw [hx] at hno
        omega
      · have hx : Part001.nameSizeOf ((id, r) :: rest) =
            Part001.nameSizeOf rest := by
          rw [Part001.nameSizeOf, hn]
          simp
        rw [hx] at hnm
        omega
    -- named entry
    · have hrname : r.name = some n := by
        rcases hrn : r.name with _ | n2
        · rw [Part001.jsNamed, hrn] at hn
          exact absurd hn (by simp)
        · rw [Part001.jsNamed, hrn] at hn
          dsimp only at hn
          split_ifs at hn with he
          injection hn with hn2
          rw [hn2]
      rw [hrname] at hname
      obtain ⟨hne, h255, hasc⟩ := hname
      have henclen : (utf8Encode n).length = n.length := by
        rw [utf8Encode_ascii hasc, List.length_map]
      have hnlen1 : 1 ≤ n.length := by
        rcases n with _ | _
        · exact absurd rfl hne
        · simp
      have hnsz : Part001.nameSizeOf ((id, r) :: rest) =
          1 + n.length + Part001.nameSizeOf rest := by
        rw [Part001.nameSizeOf, hn]
      try rw [hn] at hRL
      try dsimp only at hRL
      split_ifs at hRL with hok
      obtain ⟨es, hes, hRL⟩ := except_bind_ok.mp hRL
      injection hRL with hRL
      subst hRL
      obtain ⟨hid, hnoff, hpa32, hjk, hrbound⟩ :=
        Part001.packResEntry_reads buf Pr (es ++ Sr) id nameOff r.flags
          dov r.junk (mapOff + resPos)
          (by rw [hbufR]; simp [List.append_assoc]) hPr hidlo hidhi
          (by rw [hnsz] at hno; omega) hflags (by omega) hjunk
      have hnameread : readResourceName buf mapOff mapLength nlOff
          nameOff = some n := by
        refine readResourceName_at buf Pn
          (Part001.nameListBytes rest ++ Sn) mapOff mapLength nlOff
          nameOff n ?_ hPn h255 hasc ?_ ?_
        · rw [hbufN]
          simp only [Part001.nameListBytes, hn]
          simp [List.append_assoc]
        · rw [hnsz] at hno
          omega
        · rw [hnsz] at hnm
          omega
      refine except_bind_ok.mpr ⟨id, by
        rw [getInt16, if_pos (by omega)]
        rw [hid], ?_⟩
      refine except_bind_ok.mpr ⟨nameOff, by
        rw [getUint16, if_pos (by omega)]
        rw [hnoff], ?_⟩
      refine except_bind_ok.mpr ⟨r.flags * 16777216 + dov, by
        rw [getUint32, if_pos (by omega)]
        rw [hpa32], ?_⟩
      refine except_bind_ok.mpr ⟨r.junk, by
        rw [getUint32, if_pos (by omega)]
        rw [hjk], ?_⟩
      dsimp only
      have hmod : (r.flags * 16777216 + dov) % 16777216 = dov := by omega
      have hdiv : (r.flags * 16777216 + dov) / 16777216 = r.flags := by
        omega
      rw [hmod, hdiv]
      rw [if_neg (by omega)]
      refine except_bind_ok.mpr ⟨r.data.length, by
        rw [getUint32, if_pos (by omega)]
        rw [hlen32], ?_⟩
      dsimp only
      rw [if_neg (by omega)]
      rw [hdata, hnameread]
      have hres : (⟨tn, id, r.data, some n, r.flags, r.junk,
          4294967295⟩ : Resource) = r := by
        obtain ⟨rt, rid, rd, rn, rf, rj, ro⟩ := r
        dsimp only at hrid hrtype hrorder hrname ⊢
        rw [hrid, hrtype, hrorder, hrname]
      rw [hres]
      rw [jsMapSet_append acc id r
        (fun q hq => hdisj q hq (id, r) (by simp))]
      rw [show acc ++ (id, r) :: rest = (acc ++ [(id, r)]) ++ rest from by
        simp]
      refine ih (resPos + 12) (dov + (4 + r.data.length))
        (nameOff + (1 + n.length)) (acc ++ [(id, r)]) es
        (Pd ++ (u32be (r.data.length : Int) ++ r.data.map (· % 256))) Sd
        (Pr ++ Part001.packResEntry id nameOff r.flags dov r.junk) Sr
        (Pn ++ (n.length % 256 :: utf8Encode n)) Sn hes ?_ ?_ ?_ ?_ ?_ ?_
        hwfrest ?_ ?_ ?_ hdisj2 hnodup2.2
      · rw [hbufD]
        simp [Part001.dataSecOf, List.append_assoc]
      · rw [hbufR]
        simp [List.append_assoc]
      · rw [hbufN]
        simp only [Part001.nameListBytes, hn]
        simp [List.append_assoc]
      · simp only [List.length_append, List.length_map, u32be_length,
          hPd]
        omega
      · simp only [List.length_append, Part001.packResEntry_length, hPr]
        omega
      · simp only [List.length_append, List.length_cons, henclen, hPn]
        omega
      · rw [hdsz] at hdov
        omega
      · rw [hnsz] at hno
        omega
      · rw [hnsz] at hnm
        omega

theorem Part001.jsNamed_some {r : Resource} {n : List Char}
    (h : Part001.jsNamed r = some n) : r.name = some n := by
  rcases hrn : r.name with _ | n2
  · rw [Part001.jsNamed, hrn] at h
    exact absurd h (by simp)
  · rw [Part001.jsNamed, hrn] at h
    dsimp only at h
    split_ifs at h
    injection h with h2
    rw [h2]

theorem Part001.nameListBytes_length_wf :
    ∀ (rs : List (Int × Resource)),
      (∀ p ∈ rs, ∃ tn, Part001.wfRes tn p.1 p.2) →
      (Part001.nameListBytes rs).length = Part001.nameSizeOf rs := by
  intro rs
  induction rs with
  | nil => intro _; rfl
  | cons p rest ih =>
    intro h
    obtain ⟨id, r⟩ := p
    have ihr := ih (fun q hq => h q (by simp [hq]))
    rw [Part001.nameListBytes, Part001.nameSizeOf]
    rcases hn : Part001.jsNamed r with _ | n
    · simp [ihr]
    · have hrname := Part001.jsNamed_some hn
      obtain ⟨tn, hwft⟩ := h (id, r) (by simp)
      have hwfh := hwft.2.2.2.2.2.2.2.2
      rw [hrname] at hwfh
      have henclen : (utf8Encode n).length = n.length := by
        rw [utf8Encode_ascii hwfh.2.2, List.length_map]
      simp only [List.cons_append, List.length_append, List.length_cons,
        henclen, ihr]
      ring

/-- Per-type well-formedness for the encoder round-trip: the NUL-padded
tag encodes to 4 bytes and sanitizes back to the very same name, the type
is nonempty with distinct in-range ids, and each resource is
well-formed. -/
def Part001.wfType (t : List Char × List (Int × Resource)) : Prop :=
  (∃ tb, Part001.typeTagBytes t.1 = .ok tb ∧
    Textio.sanitizeTypeName tb = .ok t.1) ∧
  t.2 ≠ [] ∧ t.2.length ≤ 65536 ∧ (t.2.map Prod.fst).Nodup ∧
  ∀ p ∈ t.2, Part001.wfRes t.1 p.1 p.2

/-- Decoding the type list the encoder wrote: the outer loop rebuilds the
encoded types in order. -/
theorem Part001.readTypeList_decodes
    (buf : List Nat) (mapOff mapLength tlOff nlOff : Nat) :
    ∀ (ts : List (List Char × List (Int × Resource)))
      (pos rlo dov nameOff : Nat)
      (acc : List (List Char × List (Int × Resource)))
      (TL RLall Pt St Pd Sd Pr Sr Pn Sn : List Nat),
      Part001.typeListEntries ts rlo = .ok TL →
      Part001.resListBytes (ts.flatMap Prod.snd) dov nameOff =
        .ok RLall →
      buf = Pt ++ (TL ++ St) →
      buf = Pd ++ (Part001.dataSecOf (ts.flatMap Prod.snd) ++ Sd) →
      buf = Pr ++ (RLall ++ Sr) →
      buf = Pn ++ (Part001.nameListBytes (ts.flatMap Prod.snd) ++ Sn) →
      Pt.length = mapOff + pos →
      Pd.length = 16 + dov →
      Pr.length = mapOff + (tlOff + rlo) →
      Pn.length = mapOff + (nlOff + nameOff) →
      (∀ t ∈ ts, Part001.wfType t) →
      dov + Part001.dataSizeOf (ts.flatMap Prod.snd) < 16777216 →
      nameOff + Part001.nameSizeOf (ts.flatMap Prod.snd) ≤ 65535 →
      nlOff + nameOff + Part001.nameSizeOf (ts.flatMap Prod.snd) ≤
        mapLength →
      rlo + 12 * (ts.flatMap Prod.snd).length ≤ 65535 →
      (∀ p ∈ acc, ∀ q ∈ ts, p.1 ≠ q.1) →
      (ts.map Prod.fst).Nodup →
      readTypeList buf 16 mapOff mapLength tlOff nlOff ts.length pos acc =
        .ok (acc ++ ts) := by
  intro ts
  induction ts with
  | nil =>
    intro pos rlo dov nameOff acc TL RLall Pt St Pd Sd Pr Sr Pn Sn _ _ _ _
      _ _ _ _ _ _ _ _ _ _ _ _ _
    rw [List.length_nil, readTypeList, List.append_nil]
  | cons t rest ih =>
    intro pos rlo dov nameOff acc TL RLall Pt St Pd Sd Pr Sr Pn Sn hTL
      hRLall hbufT hbufD hbufR hbufN hPt hPd hPr hPn hwf hdov hno hnm
      hrlo hdisj hnodup
    obtain ⟨tn, rs⟩ := t
    obtain ⟨⟨tb0, htb0, hsan0⟩, hne, h65536, hnodupIds, hwfres⟩ :=
      hwf (tn, rs) (by simp)
    have hwfrest : ∀ q ∈ rest, Part001.wfType q :=
      fun q hq => hwf q (by simp [hq])
    have hflat : ((tn, rs) :: rest).flatMap Prod.snd =
        rs ++ rest.flatMap Prod.snd := by
      rw [List.flatMap_cons]
    rw [hflat] at hbufD hbufN hRLall hdov hno hnm hrlo
    rw [Part001.dataSizeOf_append] at hdov
    rw [Part001.nameSizeOf_append] at hno hnm
    rw [List.length_append] at hrlo
    have hnodup2 := hnodup
    rw [List.map_cons, List.nodup_cons] at hnodup2
    -- split the encoded sections at this type's boundary
    obtain ⟨RA, RB, hra, hrb, hRLsplit⟩ :=
      Part001.resListBytes_append rs (rest.flatMap Prod.snd) dov nameOff
        RLall hRLall
    have hRAlen : RA.length = 12 * rs.length :=
      Part001.resListBytes_length rs dov nameOff RA hra
    rw [Part001.typeListEntries] at hTL
    obtain ⟨tb, htb, hTL⟩ := except_bind_ok.mp hTL
    obtain ⟨tail, htail, hTL⟩ := except_bind_ok.mp hTL
    injection hTL with hTL
    subst hTL
    have htbeq : tb0 = tb := by
      rw [htb0] at htb
      injection htb
    subst htbeq
    have h4 : tb0.length = 4 := by
      rw [Part001.typeTagBytes] at htb0
      split_ifs at htb0 with h4len
      injection htb0 with he
      rw [← he]
      exact h4len
    have hbufT2 : buf = Pt ++ (tb0 ++
        (u16be ((rs.length : Int) - 1) ++ (u16be (rlo : Int) ++
          (tail ++ St)))) := by
      rw [hbufT]
      simp [List.append_assoc]
    have hb8 : Pt.length + 8 ≤ buf.length := by
      rw [hbufT2]
      simp [u16be_length, h4]
      omega
    have hreadtag : readN buf (mapOff + pos) 4 = tb0 := by
      rw [hbufT2, readN_at Pt tb0 _ (mapOff + pos) 4 hPt (by omega)]
      rw [← h4, List.take_length]
    have hrc : u16at buf (mapOff + pos + 4) = rs.length - 1 := by
      rw [hbufT2, show Pt ++ (tb0 ++
        (u16be ((rs.length : Int) - 1) ++ (u16be (rlo : Int) ++
          (tail ++ St)))) = (Pt ++ tb0) ++
        (u16be ((rs.length : Int) - 1) ++ (u16be (rlo : Int) ++
          (tail ++ St))) from by simp [List.append_assoc]]
      rw [u16at_at (Pt ++ tb0) _ _ (mapOff + pos + 4)
        (by simp [h4, hPt])]
      have h1 : 1 ≤ rs.length := by
        rcases rs with _ | _
        · exact absurd rfl hne
        · simp
      omega
    have hrlo16 : u16at buf (mapOff + pos + 6) = rlo := by
      rw [hbufT2, show Pt ++ (tb0 ++
        (u16be ((rs.length : Int) - 1) ++ (u16be (rlo : Int) ++
          (tail ++ St)))) = ((Pt ++ tb0) ++ u16be ((rs.length : Int) - 1))
        ++ (u16be (rlo : Int) ++ (tail ++ St)) from by
        simp [List.append_assoc]]
      rw [u16at_at ((Pt ++ tb0) ++ u16be ((rs.length : Int) - 1)) _ _
        (mapOff + pos + 6) (by simp [h4, u16be_length, hPt])]
      omega
    rw [List.length_cons]
    simp only [readTypeList]
    refine except_bind_ok.mpr ⟨tb0, by
      rw [readBytesExact, if_pos (by omega)]
      rw [hreadtag], ?_⟩
    refine except_bind_ok.mpr ⟨tn, hsan0, ?_⟩
    refine except_bind_ok.mpr ⟨rs.length - 1, by
      rw [getUint16, if_pos (by omega)]
      rw [hrc], ?_⟩
    refine except_bind_ok.mpr ⟨rlo, by
      rw [getUint16, if_pos (by omega)]
      rw [hrlo16], ?_⟩
    dsimp only
    have hcount : rs.length - 1 + 1 = rs.length := by
      rcases rs with _ | _
      · exact absurd rfl hne
      · simp
    rw [hcount]
    refine except_bind_ok.mpr ⟨rs, ?_, ?_⟩
    · have hinner := Part001.readResourceList_decodes buf mapOff
        mapLength nlOff tn rs (tlOff + rlo) dov nameOff [] RA Pd
        (Part001.dataSecOf (rest.flatMap Prod.snd) ++ Sd) Pr (RB ++ Sr)
        Pn (Part001.nameListBytes (rest.flatMap Prod.snd) ++ Sn) hra
        (by rw [hbufD]; simp [Part001.dataSecOf_append, List.append_assoc])
        (by rw [hbufR, hRLsplit]; simp [List.append_assoc])
        (by rw [hbufN]; simp [Part001.nameListBytes_append,
          List.append_assoc])
        hPd hPr hPn hwfres (by omega) (by omega) (by omega)
        (by intro p hp; simp at hp) hnodupIds
      simpa using hinner
    dsimp only
    rw [if_pos (by
      rcases rs with _ | _
      · exact absurd rfl hne
      · simp)]
    rw [jsMapSet_append acc tn rs
      (fun q hq => hdisj q hq (tn, rs) (by simp))]
    rw [show acc ++ (tn, rs) :: rest = (acc ++ [(tn, rs)]) ++ rest from by
      simp]
    refine ih (pos + 8) (rlo + rs.length * 12) (dov + Part001.dataSizeOf
      rs) (nameOff + Part001.nameSizeOf rs) (acc ++ [(tn, rs)]) tail RB
      (Pt ++ (tb0 ++ (u16be ((rs.length : Int) - 1) ++ u16be (rlo : Int))))
      St (Pd ++ Part001.dataSecOf rs) Sd (Pr ++ RA) Sr
      (Pn ++ Part001.nameListBytes rs) Sn htail hrb ?_ ?_ ?_ ?_ ?_ ?_ ?_
      ?_ hwfrest (by omega) (by omega) (by omega) (by omega) ?_ hnodup2.2
    · rw [hbufT2]
      simp [List.append_assoc]
    · rw [hbufD]
      simp [Part001.dataSecOf_append, List.append_assoc]
    · rw [hbufR, hRLsplit]
      simp [List.append_assoc]
    · rw [hbufN]
      simp [Part001.nameListBytes_append, List.append_assoc]
    · simp only [List.length_append, u16be_length, h4, hPt]
      omega
    · simp only [List.length_append, Part001.dataSecOf_length, hPd]
      omega
    · simp only [List.length_append, hRAlen, hPr]
      omega
    · simp only [List.length_append,
        Part001.nameListBytes_length_wf rs
          (fun p hp => ⟨tn, hwfres p hp⟩), hPn]
      omega
    · intro q hq q2 hq2
      rcases List.mem_append.mp hq with hqa | hqb
      · exact hdisj q hqa q2 (by simp [hq2])
      · have hqe : q = (tn, rs) := by simpa using hqb
        subst hqe
        dsimp only
        intro hEq
        refine hnodup2.1 ?_
        rw [hEq]
        exact List.mem_map.mpr ⟨q2, hq2, rfl⟩

/-! ## C1: round-trip of the `part_001` encoder and decoder

Fork-level assembly: the encoder succeeds on well-formed forks, and the
decoder reads its output back.  The peel lemmas below walk a read position
across the concatenated sections. -/

theorem u32at_peel (A S : List Nat) (a k : Nat) (h : a = A.length + k) :
    u32at (A ++ S) a = u32at S k := by
  subst h
  rw [u32at, readN_append_right, u32at]

theorem u16at_peel (A S : List Nat) (a k : Nat) (h : a = A.length + k) :
    u16at (A ++ S) a = u16at S k := by
  subst h
  rw [u16at, readN_append_right, u16at]

theorem u32at_drop (data : List Nat) (k p : Nat) :
    u32at data (k + p) = u32at (data.drop k) p := by
  rw [u32at, u32at, readN, readN, List.drop_drop, Nat.add_comm k p]

theorem u16at_drop (data : List Nat) (k p : Nat) :
    u16at data (k + p) = u16at (data.drop k) p := by
  rw [u16at, u16at, readN, readN, List.drop_drop, Nat.add_comm k p]

theorem drop_chunk (A S : List Nat) (a k : Nat) (h : a = A.length + k) :
    (A ++ S).drop a = S.drop k := by
  subst h
  rw [List.drop_append]

/-- A well-formed resource's truthy name is nonempty, short and ASCII. -/
theorem Part001.jsNamed_cond {tn : List Char} {id : Int} {r : Resource}
    (h : Part001.wfRes tn id r) {n : List Char}
    (hn : Part001.jsNamed r = some n) :
    n ≠ [] ∧ n.length ≤ 255 ∧ ∀ c ∈ n, c.toNat < 128 := by
  have hrn := Part001.jsNamed_some hn
  have hname := h.2.2.2.2.2.2.2.2
  rw [hrn] at hname
  exact hname

/-- Every resource of a well-formed type list is well formed for some tag. -/
theorem Part001.flat_wf
    {ts : List (List Char × List (Int × Resource))}
    (hwf : ∀ t ∈ ts, Part001.wfType t) :
    ∀ p ∈ ts.flatMap Prod.snd, ∃ tn, Part001.wfRes tn p.1 p.2 := by
  intro p hp
  obtain ⟨t, ht, hpt⟩ := List.mem_flatMap.mp hp
  exact ⟨t.1, (hwf t ht).2.2.2.2 p hpt⟩

/-- Each encoded type entry is 8 bytes. -/
theorem Part001.typeListEntries_length :
    ∀ (ts : List (List Char × List (Int × Resource))) (rlo : Nat)
      (TL : List Nat),
      Part001.typeListEntries ts rlo = .ok TL → TL.length = 8 * ts.length := by
  intro ts
  induction ts with
  | nil =>
    intro rlo TL h
    cases h
    rfl
  | cons t rest ih =>
    intro rlo TL h
    obtain ⟨tn, rs⟩ := t
    rw [Part001.typeListEntries] at h
    obtain ⟨tb, htb, h⟩ := except_bind_ok.mp h
    obtain ⟨tail, htail, h⟩ := except_bind_ok.mp h
    injection h with h
    subst h
    have h4 : tb.length = 4 := by
      rw [Part001.typeTagBytes] at htb
      split_ifs at htb with h4len
      injection htb with he
      rw [← he]
      exact h4len
    simp [h4, u16be_length, ih _ _ htail]
    ring

/-- The type-entry writer succeeds on well-formed types. -/
theorem Part001.typeListEntries_ok :
    ∀ (ts : List (List Char × List (Int × Resource))),
      (∀ t ∈ ts, Part001.wfType t) →
      ∀ rlo : Nat, ∃ TL, Part001.typeListEntries ts rlo = .ok TL := by
  intro ts
  induction ts with
  | nil => exact fun _ _ => ⟨[], rfl⟩
  | cons t rest ih =>
    intro h rlo
    obtain ⟨tn, rs⟩ := t
    obtain ⟨tb, htb, _⟩ := (h (tn, rs) (by simp)).1
    obtain ⟨tail, htail⟩ :=
      ih (fun q hq => h q (by simp [hq])) (rlo + rs.length * 12)
    exact ⟨_, except_bind_ok.mpr ⟨tb, htb,
      except_bind_ok.mpr ⟨tail, htail, rfl⟩⟩⟩

/-- The resource-entry writer succeeds when every truthy name is short
ASCII. -/
theorem Part001.resListBytes_ok :
    ∀ (rs : List (Int × Resource)),
      (∀ p ∈ rs, ∃ tn, Part001.wfRes tn p.1 p.2) →
      ∀ dov nameOff : Nat,
        ∃ RL, Part001.resListBytes rs dov nameOff = .ok RL := by
  intro rs
  induction rs with
  | nil => exact fun _ _ _ => ⟨[], rfl⟩
  | cons p rest ih =>
    intro h dov nameOff
    obtain ⟨id, r⟩ := p
    have ihr := ih (fun q hq => h q (by simp [hq]))
    obtain ⟨tn, hwfr⟩ := h (id, r) (by simp)
    rw [Part001.resListBytes]
    rcases hn : Part001.jsNamed r with _ | n
    · try rw [hn]
      try dsimp only
      obtain ⟨es, hes⟩ := ihr (dov + (4 + r.data.length)) nameOff
      exact ⟨_, except_bind_ok.mpr ⟨es, hes, rfl⟩⟩
    · try rw [hn]
      try dsimp only
      obtain ⟨_, h255, hasc⟩ := Part001.jsNamed_cond hwfr hn
      obtain ⟨es, hes⟩ := ihr (dov + (4 + r.data.length))
        (nameOff + (1 + n.length))
      rw [if_pos ⟨h255, List.all_eq_true.mpr
        (fun c hc => decide_eq_true (hasc c hc))⟩]
      exact ⟨_, except_bind_ok.mpr ⟨es, hes, rfl⟩⟩

/-- `toBytes` on inputs whose two fallible section writers succeed: the
output is the strictly sequential concatenation of header, data section,
header copy, map-specific header, type count, type list, resource list and
name list. -/
theorem Part001.toBytes_eq (F : ResourceFork) (TL RL : List Nat)
    (hTL : Part001.typeListEntries F.resources
      (2 + F.resources.length * 8) = .ok TL)
    (hRL : Part001.resListBytes (F.resources.flatMap Prod.snd) 0 0 =
      .ok RL) :
    Part001.toBytes F = .ok (
      u32be (16 : Int) ++
      (u32be ((16 + Part001.dataSizeOf (F.resources.flatMap Prod.snd) :
        Nat) : Int) ++
      (u32be ((Part001.dataSizeOf (F.resources.flatMap Prod.snd) : Nat) :
        Int) ++
      (u32be ((30 + (2 + F.resources.length * 8) +
        (F.resources.flatMap Prod.snd).length * 12 +
        Part001.nameSizeOf (F.resources.flatMap Prod.snd) : Nat) : Int) ++
      (Part001.dataSecOf (F.resources.flatMap Prod.snd) ++
      (u32be (16 : Int) ++
      (u32be ((16 + Part001.dataSizeOf (F.resources.flatMap Prod.snd) :
        Nat) : Int) ++
      (u32be ((Part001.dataSizeOf (F.resources.flatMap Prod.snd) : Nat) :
        Int) ++
      (u32be ((30 + (2 + F.resources.length * 8) +
        (F.resources.flatMap Prod.snd).length * 12 +
        Part001.nameSizeOf (F.resources.flatMap Prod.snd) : Nat) : Int) ++
      (u32be (F.junkNextresmap : Int) ++
      (u16be (F.junkFilerefnum : Int) ++
      (u16be (F.fileAttributes : Int) ++
      (u16be (30 : Int) ++
      (u16be ((30 + (2 + F.resources.length * 8) +
        (F.resources.flatMap Prod.snd).length * 12 : Nat) : Int) ++
      ([0, 0] ++
      (u16be ((F.resources.length : Int) - 1) ++
      (TL ++
      (RL ++
      Part001.nameListBytes (F.resources.flatMap Prod.snd)))))))))))))))))))
      := by
  rw [Part001.toBytes]
  refine except_bind_ok.mpr ⟨TL, hTL, ?_⟩
  refine except_bind_ok.mpr ⟨RL, hRL, ?_⟩
  simp [List.append_assoc]


/-- Decoding the encoder's layout: on the concatenated sections (abstract
size letters constrained to the encoder's size arithmetic), `fromBytes`
reads the header, the map header and the type count back, and the type
list loop rebuilds the encoded types. -/
theorem Part001.encoded_fromBytes
    (ts : List (List Char × List (Int × Resource)))
    (D N tc rc NLO M j1 j2 fa : Nat) (TL RL DS NL buf : List Nat)
    (hD : Part001.dataSizeOf (ts.flatMap Prod.snd) = D)
    (hN : Part001.nameSizeOf (ts.flatMap Prod.snd) = N)
    (htc : ts.length = tc)
    (hrc : (ts.flatMap Prod.snd).length = rc)
    (hNLO : 30 + (2 + tc * 8) + rc * 12 = NLO)
    (hM : NLO + N = M)
    (hDS : Part001.dataSecOf (ts.flatMap Prod.snd) = DS)
    (hNL : Part001.nameListBytes (ts.flatMap Prod.snd) = NL)
    (hTL : Part001.typeListEntries ts (2 + tc * 8) = .ok TL)
    (hRL : Part001.resListBytes (ts.flatMap Prod.snd) 0 0 = .ok RL)
    (hbuf : buf =
      u32be (16 : Int) ++ (u32be ((16 + D : Nat) : Int) ++
      (u32be (D : Int) ++ (u32be (M : Int) ++
      (DS ++
      (u32be (16 : Int) ++ (u32be ((16 + D : Nat) : Int) ++
      (u32be (D : Int) ++ (u32be (M : Int) ++
      (u32be (j1 : Int) ++ (u16be (j2 : Int) ++ (u16be (fa : Int) ++
      (u16be (30 : Int) ++ (u16be (NLO : Int) ++
      ([0, 0] ++
      (u16be ((tc : Int) - 1) ++
      (TL ++ (RL ++ NL))))))))))))))))))
    (hwf : ∀ t ∈ ts, Part001.wfType t)
    (hne : ts ≠ [])
    (htc16 : tc ≤ 65536)
    (hnodup : (ts.map Prod.fst).Nodup)
    (hDb : D < 16777216)
    (hfit : NLO + N ≤ 65535)
    (hj1b : j1 < 4294967296) (hj2b : j2 < 65536) (hfab : fa < 65536) :
    Part001.fromBytes buf = .ok ⟨ts, fa, j1, j2⟩ := by
  have hDSl : DS.length = D := by
    rw [← hDS, Part001.dataSecOf_length, hD]
  have hNLl : NL.length = N := by
    rw [← hNL, Part001.nameListBytes_length_wf _ (Part001.flat_wf hwf), hN]
  have hTLl : TL.length = 8 * tc := by
    rw [Part001.typeListEntries_length ts _ TL hTL, htc]
  have hRLl : RL.length = 12 * rc := by
    rw [Part001.resListBytes_length _ _ _ _ hRL, hrc]
  have htc1 : 1 ≤ tc := by
    rw [← htc]
    rcases ts with _ | ⟨t, rest⟩
    · exact absurd rfl hne
    · simp
  have hBl : buf.length = 16 + D + M := by
    rw [hbuf]
    simp only [List.length_append, u32be_length, u16be_length, hDSl,
      hTLl, hRLl, hNLl, List.length_cons, List.length_nil]
    omega
  have h0 : u32at buf 0 = 16 := by
    rw [hbuf, u32at_u32be]
    decide
  have h4 : u32at buf 4 = 16 + D := by
    rw [hbuf,
      u32at_peel (u32be (16 : Int)) _ 4 0 (by
        simp only [u32be_length]; try omega),
      u32at_u32be]
    omega
  have h8 : u32at buf 8 = D := by
    rw [hbuf,
      u32at_peel (u32be (16 : Int)) _ 8 4 (by
        simp only [u32be_length]; try omega),
      u32at_peel (u32be ((16 + D : Nat) : Int)) _ 4 0 (by
        simp only [u32be_length]; try omega),
      u32at_u32be]
    omega
  have h12 : u32at buf 12 = M := by
    rw [hbuf,
      u32at_peel (u32be (16 : Int)) _ 12 8 (by
        simp only [u32be_length]; try omega),
      u32at_peel (u32be ((16 + D : Nat) : Int)) _ 8 4 (by
        simp only [u32be_length]; try omega),
      u32at_peel (u32be (D : Int)) _ 4 0 (by
        simp only [u32be_length]; try omega),
      u32at_u32be]
    omega
  have hmap : buf.drop (32 + D) =
      u32be (j1 : Int) ++ (u16be (j2 : Int) ++ (u16be (fa : Int) ++
      (u16be (30 : Int) ++ (u16be (NLO : Int) ++ ([0, 0] ++
      (u16be ((tc : Int) - 1) ++ (TL ++ (RL ++ NL)))))))) := by
    rw [hbuf,
      drop_chunk (u32be (16 : Int)) _ (32 + D) (28 + D) (by
        simp only [u32be_length]; try omega),
      drop_chunk (u32be ((16 + D : Nat) : Int)) _ (28 + D) (24 + D) (by
        simp only [u32be_length]; try omega),
      drop_chunk (u32be (D : Int)) _ (24 + D) (20 + D) (by
        simp only [u32be_length]; try omega),
      drop_chunk (u32be (M : Int)) _ (20 + D) (16 + D) (by
        simp only [u32be_length]; try omega),
      drop_chunk DS _ (16 + D) 16 (by rw [hDSl]; try omega),
      drop_chunk (u32be (16 : Int)) _ 16 12 (by
        simp only [u32be_length]; try omega),
      drop_chunk (u32be ((16 + D : Nat) : Int)) _ 12 8 (by
        simp only [u32be_length]; try omega),
      drop_chunk (u32be (D : Int)) _ 8 4 (by
        simp only [u32be_length]; try omega),
      drop_chunk (u32be (M : Int)) _ 4 0 (by
        simp only [u32be_length]; try omega),
      List.drop_zero]
  have hr16 : u32at buf (16 + D + 16) = j1 := by
    have e : 16 + D + 16 = 32 + D + 0 := by omega
    rw [e, u32at_drop, hmap, u32at_u32be]
    omega
  have hr20 : u16at buf (16 + D + 20) = j2 := by
    have e : 16 + D + 20 = 32 + D + 4 := by omega
    rw [e, u16at_drop, hmap,
      u16at_peel (u32be (j1 : Int)) _ 4 0 (by
        simp only [u32be_length]; try omega),
      u16at_u16be]
    omega
  have hr22 : u16at buf (16 + D + 22) = fa := by
    have e : 16 + D + 22 = 32 + D + 6 := by omega
    rw [e, u16at_drop, hmap,
      u16at_peel (u32be (j1 : Int)) _ 6 2 (by
        simp only [u32be_length]; try omega),
      u16at_peel (u16be (j2 : Int)) _ 2 0 (by
        simp only [u16be_length]; try omega),
      u16at_u16be]
    omega
  have hr24 : u16at buf (16 + D + 24) = 30 := by
    have e : 16 + D + 24 = 32 + D + 8 := by omega
    rw [e, u16at_drop, hmap,
      u16at_peel (u32be (j1 : Int)) _ 8 4 (by
        simp only [u32be_length]; try omega),
      u16at_peel (u16be (j2 : Int)) _ 4 2 (by
        simp only [u16be_length]; try omega),
      u16at_peel (u16be (fa : Int)) _ 2 0 (by
        simp only [u16be_length]; try omega),
      u16at_u16be]
    decide
  have hr26 : u16at buf (16 + D + 26) = NLO := by
    have e : 16 + D + 26 = 32 + D + 10 := by omega
    rw [e, u16at_drop, hmap,
      u16at_peel (u32be (j1 : Int)) _ 10 6 (by
        simp only [u32be_length]; try omega),
      u16at_peel (u16be (j2 : Int)) _ 6 4 (by
        simp only [u16be_length]; try omega),
      u16at_peel (u16be (fa : Int)) _ 4 2 (by
        simp only [u16be_length]; try omega),
      u16at_peel (u16be (30 : Int)) _ 2 0 (by
        simp only [u16be_length]; try omega),
      u16at_u16be]
    omega
  have hr30 : u16at buf (16 + D + 30) = tc - 1 := by
    have e : 16 + D + 30 = 32 + D + 14 := by omega
    rw [e, u16at_drop, hmap,
      u16at_peel (u32be (j1 : Int)) _ 14 10 (by
        simp only [u32be_length]; try omega),
      u16at_peel (u16be (j2 : Int)) _ 10 8 (by
        simp only [u16be_length]; try omega),
      u16at_peel (u16be (fa : Int)) _ 8 6 (by
        simp only [u16be_length]; try omega),
      u16at_peel (u16be (30 : Int)) _ 6 4 (by
        simp only [u16be_length]; try omega),
      u16at_peel (u16be (NLO : Int)) _ 4 2 (by
        simp only [u16be_length]; try omega),
      u16at_peel ([0, 0] : List Nat) _ 2 0 (by
        simp only [List.length_cons, List.length_nil]; try omega),
      u16at_u16be]
    omega
  rw [Part001.fromBytes, if_neg (by omega), if_neg (by omega)]
  refine except_bind_ok.mpr ⟨16, ?_, ?_⟩
  · rw [getUint32, if_pos (by omega), h0]
  refine except_bind_ok.mpr ⟨16 + D, ?_, ?_⟩
  · rw [getUint32, if_pos (by omega), h4]
  refine except_bind_ok.mpr ⟨D, ?_, ?_⟩
  · rw [getUint32, if_pos (by omega), h8]
  refine except_bind_ok.mpr ⟨M, ?_, ?_⟩
  · rw [getUint32, if_pos (by omega), h12]
  rw [if_neg (by omega)]
  refine except_bind_ok.mpr ⟨j1, ?_, ?_⟩
  · rw [getUint32, if_pos (by omega), hr16]
  refine except_bind_ok.mpr ⟨j2, ?_, ?_⟩
  · rw [getUint16, if_pos (by omega), hr20]
  refine except_bind_ok.mpr ⟨fa, ?_, ?_⟩
  · rw [getUint16, if_pos (by omega), hr22]
  refine except_bind_ok.mpr ⟨30, ?_, ?_⟩
  · rw [getUint16, if_pos (by omega), hr24]
  refine except_bind_ok.mpr ⟨NLO, ?_, ?_⟩
  · rw [getUint16, if_pos (by omega), hr26]
  refine except_bind_ok.mpr ⟨tc - 1, ?_, ?_⟩
  · rw [getUint16, if_pos (by omega), hr30]
  refine except_bind_ok.mpr ⟨ts, ?_, ?_⟩
  · rw [show tc - 1 + 1 = ts.length from by omega]
    have hres := Part001.readTypeList_decodes buf (16 + D) M 30 NLO ts
      (30 + 2) (2 + tc * 8) 0 0 []
      TL RL
      (u32be (16 : Int) ++ u32be ((16 + D : Nat) : Int) ++
        u32be (D : Int) ++ u32be (M : Int) ++ DS ++
        u32be (16 : Int) ++ u32be ((16 + D : Nat) : Int) ++
        u32be (D : Int) ++ u32be (M : Int) ++
        u32be (j1 : Int) ++ u16be (j2 : Int) ++ u16be (fa : Int) ++
        u16be (30 : Int) ++ u16be (NLO : Int) ++ [0, 0] ++
        u16be ((tc : Int) - 1))
      (RL ++ NL)
      (u32be (16 : Int) ++ u32be ((16 + D : Nat) : Int) ++
        u32be (D : Int) ++ u32be (M : Int))
      (u32be (16 : Int) ++ (u32be ((16 + D : Nat) : Int) ++
        (u32be (D : Int) ++ (u32be (M : Int) ++
        (u32be (j1 : Int) ++ (u16be (j2 : Int) ++ (u16be (fa : Int) ++
        (u16be (30 : Int) ++ (u16be (NLO : Int) ++
        ([0, 0] ++ (u16be ((tc : Int) - 1) ++
        (TL ++ (RL ++ NL)))))))))))))
      (u32be (16 : Int) ++ u32be ((16 + D : Nat) : Int) ++
        u32be (D : Int) ++ u32be (M : Int) ++ DS ++
        u32be (16 : Int) ++ u32be ((16 + D : Nat) : Int) ++
        u32be (D : Int) ++ u32be (M : Int) ++
        u32be (j1 : Int) ++ u16be (j2 : Int) ++ u16be (fa : Int) ++
        u16be (30 : Int) ++ u16be (NLO : Int) ++ [0, 0] ++
        u16be ((tc : Int) - 1) ++ TL)
      NL
      (u32be (16 : Int) ++ u32be ((16 + D : Nat) : Int) ++
        u32be (D : Int) ++ u32be (M : Int) ++ DS ++
        u32be (16 : Int) ++ u32be ((16 + D : Nat) : Int) ++
        u32be (D : Int) ++ u32be (M : Int) ++
        u32be (j1 : Int) ++ u16be (j2 : Int) ++ u16be (fa : Int) ++
        u16be (30 : Int) ++ u16be (NLO : Int) ++ [0, 0] ++
        u16be ((tc : Int) - 1) ++ TL ++ RL)
      ([] : List Nat)
      hTL hRL
      (by rw [hbuf]; simp [List.append_assoc])
      (by rw [hbuf, hDS]; simp [List.append_assoc])
      (by rw [hbuf]; simp [List.append_assoc])
      (by rw [hbuf, hNL]; simp [List.append_assoc])
      (by simp only [List.length_append, u32be_length, u16be_length,
        List.length_cons, List.length_nil, hDSl]; try omega)
      (by simp only [List.length_append, u32be_length,
        List.length_cons, List.length_nil]; try omega)
      (by simp only [List.length_append, u32be_length, u16be_length,
        List.length_cons, List.length_nil, hDSl, hTLl]; try omega)
      (by simp only [List.length_append, u32be_length, u16be_length,
        List.length_cons, List.length_nil, hDSl, hTLl, hRLl]; try omega)
      hwf (by omega) (by omega) (by omega) (by omega)
      (by simp) hnodup
    rw [List.nil_append] at hres
    exact hres
  rfl

/-- C1 (amended): for a fork whose types are well formed — each type has a
sanitize-stable 4-byte tag, a nonempty resource map with distinct ids,
in-range ids/flags/junk, byte-valued data, and short ASCII truthy names —
and whose sections fit the format's 24-bit data offsets and 16-bit map
offsets, `toBytes` succeeds and `fromBytes` decodes its output back to
exactly the original fork (same types in order, and per id the same data,
name, flags and junk). -/
theorem C1_roundtrip_under_wf (F : ResourceFork)
    (hne : F.resources ≠ [])
    (htc : F.resources.length ≤ 65536)
    (hnodup : (F.resources.map Prod.fst).Nodup)
    (hwf : ∀ t ∈ F.resources, Part001.wfType t)
    (hDb : Part001.dataSizeOf (F.resources.flatMap Prod.snd) < 16777216)
    (hfit : 30 + (2 + F.resources.length * 8) +
        (F.resources.flatMap Prod.snd).length * 12 +
        Part001.nameSizeOf (F.resources.flatMap Prod.snd) ≤ 65535)
    (hj1 : F.junkNextresmap < 4294967296)
    (hj2 : F.junkFilerefnum < 65536)
    (hfa : F.fileAttributes < 65536) :
    ∃ buf, Part001.toBytes F = .ok buf ∧
      Part001.fromBytes buf = .ok F := by
  obtain ⟨TL, hTL⟩ := Part001.typeListEntries_ok F.resources hwf
    (2 + F.resources.length * 8)
  obtain ⟨RL, hRL⟩ := Part001.resListBytes_ok
    (F.resources.flatMap Prod.snd) (Part001.flat_wf hwf) 0 0
  refine ⟨_, Part001.toBytes_eq F TL RL hTL hRL, ?_⟩
  exact Part001.encoded_fromBytes F.resources
    (Part001.dataSizeOf (F.resources.flatMap Prod.snd))
    (Part001.nameSizeOf (F.resources.flatMap Prod.snd))
    F.resources.length
    (F.resources.flatMap Prod.snd).length
    (30 + (2 + F.resources.length * 8) +
      (F.resources.flatMap Prod.snd).length * 12)
    (30 + (2 + F.resources.length * 8) +
      (F.resources.flatMap Prod.snd).length * 12 +
      Part001.nameSizeOf (F.resources.flatMap Prod.snd))
    F.junkNextresmap F.junkFilerefnum F.fileAttributes
    TL RL
    (Part001.dataSecOf (F.resources.flatMap Prod.snd))
    (Part001.nameListBytes (F.resources.flatMap Prod.snd))
    _
    rfl rfl rfl rfl rfl rfl rfl rfl
    hTL hRL
    rfl
    hwf hne htc hnodup hDb hfit hj1 hj2 hfa

/-- C1 counterexample to the claim as stated: the well-formed-looking fork
with the single type "ab" (in-range id/flags/junk, byte data, no names)
encodes successfully, but the decoder reads the tag back NUL-padded and
`sanitizeTypeName` percent-encodes the padding, so the decoded fork keys
the type as "ab%00%00" and is not logically equal to the original. -/
theorem C1_counterexample :
    Part001.toBytes
      ⟨[("ab".toList, [(1, ⟨"ab".toList, 1, [5], none, 0, 0,
          4294967295⟩)])], 0, 0, 0⟩ =
      .ok [0, 0, 0, 16, 0, 0, 0, 21, 0, 0, 0, 5, 0, 0, 0, 52,
           0, 0, 0, 1, 5,
           0, 0, 0, 16, 0, 0, 0, 21, 0, 0, 0, 5, 0, 0, 0, 52,
           0, 0, 0, 0, 0, 0, 0, 0, 0, 30, 0, 52, 0, 0, 0, 0,
           97, 98, 0, 0, 0, 0, 0, 10,
           0, 1, 255, 255, 0, 0, 0, 0, 0, 0, 0, 0] ∧
    Part001.fromBytes
      [0, 0, 0, 16, 0, 0, 0, 21, 0, 0, 0, 5, 0, 0, 0, 52,
       0, 0, 0, 1, 5,
       0, 0, 0, 16, 0, 0, 0, 21, 0, 0, 0, 5, 0, 0, 0, 52,
       0, 0, 0, 0, 0, 0, 0, 0, 0, 30, 0, 52, 0, 0, 0, 0,
       97, 98, 0, 0, 0, 0, 0, 10,
       0, 1, 255, 255, 0, 0, 0, 0, 0, 0, 0, 0] =
      .ok ⟨[("ab%00%00".toList, [(1, ⟨"ab%00%00".toList, 1, [5], none, 0,
          0, 4294967295⟩)])], 0, 0, 0⟩ ∧
    (⟨[("ab%00%00".toList, [(1, ⟨"ab%00%00".toList, 1, [5], none, 0, 0,
        4294967295⟩)])], 0, 0, 0⟩ : ResourceFork) ≠
      ⟨[("ab".toList, [(1, ⟨"ab".toList, 1, [5], none, 0, 0,
          4294967295⟩)])], 0, 0, 0⟩ :=
  ⟨by decide, by decide, by decide⟩

theorem C1_witness :
    ∃ buf,
      Part001.toBytes
        ⟨[("ABCD".toList,
            [(1000, ⟨"ABCD".toList, 1000, [5, 6, 7], some "hello".toList,
                3, 77, 4294967295⟩),
             (-5, ⟨"ABCD".toList, -5, [], none, 0, 0, 4294967295⟩)]),
          ("Efgh".toList,
            [(2, ⟨"Efgh".toList, 2, [9], none, 255, 4294967295,
                4294967295⟩)])], 7, 8, 9⟩ = .ok buf ∧
      Part001.fromBytes buf =
        .ok ⟨[("ABCD".toList,
            [(1000, ⟨"ABCD".toList, 1000, [5, 6, 7], some "hello".toList,
                3, 77, 4294967295⟩),
             (-5, ⟨"ABCD".toList, -5, [], none, 0, 0, 4294967295⟩)]),
          ("Efgh".toList,
            [(2, ⟨"Efgh".toList, 2, [9], none, 255, 4294967295,
                4294967295⟩)])], 7, 8, 9⟩ :=
  C1_roundtrip_under_wf _ (by decide) (by decide) (by decide)
    (by
      intro t ht
      simp only [List.mem_cons, List.not_mem_nil, or_false] at ht
      rcases ht with rfl | rfl
      · refine ⟨⟨[65, 66, 67, 68], by decide, by decide⟩, by decide,
          by decide, by decide, ?_⟩
        intro p hp
        simp only [List.mem_cons, List.not_mem_nil, or_false] at hp
        rcases hp with rfl | rfl
        · exact ⟨rfl, rfl, rfl, by decide, by decide, by decide,
            by decide, by decide, by decide⟩
        · exact ⟨rfl, rfl, rfl, by decide, by decide, by decide,
            by decide, by decide, trivial⟩
      · refine ⟨⟨[69, 102, 103, 104], by decide, by decide⟩, by decide,
          by decide, by decide, ?_⟩
        intro p hp
        simp only [List.mem_cons, List.not_mem_nil, or_false] at hp
        rcases hp with rfl
        exact ⟨rfl, rfl, rfl, by decide, by decide, by decide,
          by decide, by decide, trivial⟩)
    (by decide) (by decide) (by decide) (by decide) (by decide)
